import Mathlib

/-!
FDTD engine (`FDTD/engine.cpp`).

A shallow embedding of the time-stepping engine: the field arrays, the two
update kernels, the soft excitation, the extension dispatch and the iteration
loop, followed by the properties established about them.

Conventions of the embedding

* Arrays are functions of their indices (`volt n i j k`), the scalar type `R`
  of the fields is an arbitrary commutative ring, the type `T` of the time
  stamps written to the excitation logs is an arbitrary field.
* `unsigned int` values are natural numbers; arithmetic on them that can wrap
  is reduced modulo `2^32` explicitly (`usub`, `uinc`), the conversion to `int`
  is `toInt`, and `int` arithmetic is reduced to the two's complement range by
  `wrapInt`.
-/

set_option linter.unusedSectionVars false

namespace FDTD

open scoped List

/-! ## Machine integers -/

/-- Number of values of an `unsigned int` (32 bit). -/
def UINT_RANGE : Nat := 4294967296

/-- Subtraction of two `unsigned int` values. -/
def usub (a b : Nat) : Nat := (a % UINT_RANGE + UINT_RANGE - b % UINT_RANGE) % UINT_RANGE

/-- Increment of an `unsigned int` value (`++x`, `x+1`). -/
def uinc (a : Nat) : Nat := (a + 1) % UINT_RANGE

/-- Reduction of an integer to the range of `int` (32 bit, two's complement). -/
def wrapInt (z : Int) : Int := (z + 2147483648) % 4294967296 - 2147483648

/-- The conversion `(int)x` of an `unsigned int`. -/
def toInt (x : Nat) : Int := wrapInt (x : Int)

/-- Conversion of an `unsigned int` to `bool` and back to a number, as in
`shift[n]=pos[n]` followed by `pos[n]-shift[n]`. -/
def shiftOf (pos : Nat) : Nat := if pos = 0 then 0 else 1

/-- A counted loop `for (n=0; n<count; ++n) body(n)`. -/
def forLoop {S : Type} : Nat → (Nat → S → S) → S → S
  | 0, _, s => s
  | n + 1, body, s => body n (forLoop n body s)

/-! ## Data model -/

/-- A field array `A[n][pos0][pos1][pos2]` as created by `Create_N_3DArray`. -/
abbrev N_3DArray (R : Type) := Nat → Nat → Nat → Nat → R

/-- The assignment `A[n][p0][p1][p2] = v`. -/
def setAt {R : Type} (A : N_3DArray R) (n p0 p1 p2 : Nat) (v : R) : N_3DArray R :=
  fun m q0 q1 q2 => if m = n ∧ q0 = p0 ∧ q1 = p1 ∧ q2 = p2 then v else A m q0 q1 q2

/-- The excitation block `Op->Exc`: parallel per-source arrays and the two signals. -/
structure Excitation (R : Type) where
  Length : Nat
  Volt_Count : Nat
  Volt_delay : Nat → Nat
  Volt_dir : Nat → Nat
  Volt_index : Nat → Nat → Nat
  Volt_amp : Nat → R
  Signal_volt : Nat → R
  Curr_Count : Nat
  Curr_delay : Nat → Nat
  Curr_dir : Nat → Nat
  Curr_index : Nat → Nat → Nat
  Curr_amp : Nat → R
  Signal_curr : Nat → R

/-- The read-only operator `Op`: grid size, update coefficients, timestep, excitation.
The grid sizes are `unsigned int` values. -/
structure Operator (R T : Type) where
  numLines : Nat → Nat
  numLines_lt : ∀ n, numLines n < UINT_RANGE
  vv : N_3DArray R
  vi : N_3DArray R
  ii : N_3DArray R
  iv : N_3DArray R
  dT : T
  Exc : Excitation R

/-- The mutable state of the engine: step counter, the two field arrays and the
lines written so far to the files `et` and `ht` (time stamp, sample). -/
structure Engine (R T : Type) where
  numTS : Nat
  volt : N_3DArray R
  curr : N_3DArray R
  file_et : List (T × R)
  file_ht : List (T × R)

variable {R T : Type} [CommRing R] [Field T]

/-! ## Update kernels -/

/-- The six statements of the innermost loop body of `Engine::UpdateVoltages`. -/
def UpdateVoltages_cell (op : Operator R T) (pos0 pos1 pos2 : Nat) (e : Engine R T) :
    Engine R T :=
  let shift0 := shiftOf pos0
  let shift1 := shiftOf pos1
  let shift2 := shiftOf pos2
  let v1 := setAt e.volt 0 pos0 pos1 pos2 (e.volt 0 pos0 pos1 pos2 * op.vv 0 pos0 pos1 pos2)
  let v2 := setAt v1 0 pos0 pos1 pos2 (v1 0 pos0 pos1 pos2 + op.vi 0 pos0 pos1 pos2 *
    (e.curr 2 pos0 pos1 pos2 - e.curr 2 pos0 (usub pos1 shift1) pos2
      - e.curr 1 pos0 pos1 pos2 + e.curr 1 pos0 pos1 (usub pos2 shift2)))
  let v3 := setAt v2 1 pos0 pos1 pos2 (v2 1 pos0 pos1 pos2 * op.vv 1 pos0 pos1 pos2)
  let v4 := setAt v3 1 pos0 pos1 pos2 (v3 1 pos0 pos1 pos2 + op.vi 1 pos0 pos1 pos2 *
    (e.curr 0 pos0 pos1 pos2 - e.curr 0 pos0 pos1 (usub pos2 shift2)
      - e.curr 2 pos0 pos1 pos2 + e.curr 2 (usub pos0 shift0) pos1 pos2))
  let v5 := setAt v4 2 pos0 pos1 pos2 (v4 2 pos0 pos1 pos2 * op.vv 2 pos0 pos1 pos2)
  let v6 := setAt v5 2 pos0 pos1 pos2 (v5 2 pos0 pos1 pos2 + op.vi 2 pos0 pos1 pos2 *
    (e.curr 1 pos0 pos1 pos2 - e.curr 1 (usub pos0 shift0) pos1 pos2
      - e.curr 0 pos0 pos1 pos2 + e.curr 0 pos0 (usub pos1 shift1) pos2))
  { e with volt := v6 }

/-- The two inner loops of `Engine::UpdateVoltages` at a fixed `pos[0]`. -/
def UpdateVoltages_plane (op : Operator R T) (pos0 : Nat) (e : Engine R T) : Engine R T :=
  forLoop (op.numLines 1) (fun pos1 e1 =>
    forLoop (op.numLines 2) (fun pos2 e2 => UpdateVoltages_cell op pos0 pos1 pos2 e2) e1) e

/-- `Engine::UpdateVoltages(startX, numX)`: `pos[0]` starts at `startX` and is
incremented after each of the `numX` planes. -/
def UpdateVoltages (op : Operator R T) (startX numX : Nat) (e : Engine R T) : Engine R T :=
  (forLoop numX (fun _ (st : Nat × Engine R T) =>
    (uinc st.1, UpdateVoltages_plane op st.1 st.2)) (startX, e)).2

/-- The six statements of the innermost loop body of `Engine::UpdateCurrents`. -/
def UpdateCurrents_cell (op : Operator R T) (pos0 pos1 pos2 : Nat) (e : Engine R T) :
    Engine R T :=
  let c1 := setAt e.curr 0 pos0 pos1 pos2 (e.curr 0 pos0 pos1 pos2 * op.ii 0 pos0 pos1 pos2)
  let c2 := setAt c1 0 pos0 pos1 pos2 (c1 0 pos0 pos1 pos2 + op.iv 0 pos0 pos1 pos2 *
    (e.volt 2 pos0 pos1 pos2 - e.volt 2 pos0 (uinc pos1) pos2
      - e.volt 1 pos0 pos1 pos2 + e.volt 1 pos0 pos1 (uinc pos2)))
  let c3 := setAt c2 1 pos0 pos1 pos2 (c2 1 pos0 pos1 pos2 * op.ii 1 pos0 pos1 pos2)
  let c4 := setAt c3 1 pos0 pos1 pos2 (c3 1 pos0 pos1 pos2 + op.iv 1 pos0 pos1 pos2 *
    (e.volt 0 pos0 pos1 pos2 - e.volt 0 pos0 pos1 (uinc pos2)
      - e.volt 2 pos0 pos1 pos2 + e.volt 2 (uinc pos0) pos1 pos2))
  let c5 := setAt c4 2 pos0 pos1 pos2 (c4 2 pos0 pos1 pos2 * op.ii 2 pos0 pos1 pos2)
  let c6 := setAt c5 2 pos0 pos1 pos2 (c5 2 pos0 pos1 pos2 + op.iv 2 pos0 pos1 pos2 *
    (e.volt 1 pos0 pos1 pos2 - e.volt 1 (uinc pos0) pos1 pos2
      - e.volt 0 pos0 pos1 pos2 + e.volt 0 pos0 (uinc pos1) pos2))
  { e with curr := c6 }

/-- The two inner loops of `Engine::UpdateCurrents` at a fixed `pos[0]`; the
bounds are `numLines[1]-1` and `numLines[2]-1` in `unsigned int` arithmetic. -/
def UpdateCurrents_plane (op : Operator R T) (pos0 : Nat) (e : Engine R T) : Engine R T :=
  forLoop (usub (op.numLines 1) 1) (fun pos1 e1 =>
    forLoop (usub (op.numLines 2) 1) (fun pos2 e2 => UpdateCurrents_cell op pos0 pos1 pos2 e2) e1) e

/-- `Engine::UpdateCurrents(startX, numX)`. -/
def UpdateCurrents (op : Operator R T) (startX numX : Nat) (e : Engine R T) : Engine R T :=
  (forLoop numX (fun _ (st : Nat × Engine R T) =>
    (uinc st.1, UpdateCurrents_plane op st.1 st.2)) (startX, e)).2

/-! ## Soft excitation -/

/-- Modelled from the spec: `GetVolt` is declared in `engine.h`, which is not
among the sources; the spec gives it as the element read `get(V, d, i, j, k)`. -/
def GetVolt (e : Engine R T) (n : Nat) (pos : Nat → Nat) : R :=
  e.volt n (pos 0) (pos 1) (pos 2)

/-- Modelled from the spec: `SetVolt` is declared in `engine.h`, which is not
among the sources; the spec gives it as the element write `set(V, d, i, j, k, v)`. -/
def SetVolt (e : Engine R T) (n : Nat) (pos : Nat → Nat) (value : R) : Engine R T :=
  { e with volt := setAt e.volt n (pos 0) (pos 1) (pos 2) value }

/-- Modelled from the spec: `GetCurr` is declared in `engine.h`, which is not
among the sources; the spec gives it as the element read `get(I, d, i, j, k)`. -/
def GetCurr (e : Engine R T) (n : Nat) (pos : Nat → Nat) : R :=
  e.curr n (pos 0) (pos 1) (pos 2)

/-- Modelled from the spec: `SetCurr` is declared in `engine.h`, which is not
among the sources; the spec gives it as the element write `set(I, d, i, j, k, v)`. -/
def SetCurr (e : Engine R T) (n : Nat) (pos : Nat → Nat) (value : R) : Engine R T :=
  { e with curr := setAt e.curr n (pos 0) (pos 1) (pos 2) value }

/-- The sample index of a source: `exc_pos = (int)numTS - (int)delay` followed by
`exc_pos *= (exc_pos>0 && exc_pos<=(int)Length)`. -/
def excPos (numTS delay Length : Nat) : Int :=
  let exc_pos := wrapInt (toInt numTS - toInt delay)
  wrapInt (exc_pos * (if 0 < exc_pos ∧ exc_pos ≤ toInt Length then 1 else 0))

/-- The value of the variable `exc_pos` after the first statement of the source loop,
`exc_pos = (int)numTS - (int)delay`, before the mask is applied. -/
def excPosRaw (numTS delay : Nat) : Int := wrapInt (toInt numTS - toInt delay)

/-- The body of the source loop of `Engine::ApplyVoltageExcite` for source `n`. -/
def ApplyVoltageExcite_source (op : Operator R T) (n : Nat) (e : Engine R T) : Engine R T :=
  let exc_pos := excPos e.numTS (op.Exc.Volt_delay n) op.Exc.Length
  let ny := op.Exc.Volt_dir n
  let pos : Nat → Nat := fun a => op.Exc.Volt_index a n
  SetVolt e ny pos (GetVolt e ny pos + op.Exc.Volt_amp n * op.Exc.Signal_volt exc_pos.toNat)

/-- `Engine::ApplyVoltageExcite`: the source loop, then the line for the file `et`. -/
def ApplyVoltageExcite (op : Operator R T) (e : Engine R T) : Engine R T :=
  let e1 := forLoop op.Exc.Volt_Count (fun n s => ApplyVoltageExcite_source op n s) e
  if e1.numTS < op.Exc.Length then
    { e1 with file_et := e1.file_et ++ [((e1.numTS : T) * op.dT, op.Exc.Signal_volt e1.numTS)] }
  else e1

/-- The body of the source loop of `Engine::ApplyCurrentExcite` for source `n`. -/
def ApplyCurrentExcite_source (op : Operator R T) (n : Nat) (e : Engine R T) : Engine R T :=
  let exc_pos := excPos e.numTS (op.Exc.Curr_delay n) op.Exc.Length
  let ny := op.Exc.Curr_dir n
  let pos : Nat → Nat := fun a => op.Exc.Curr_index a n
  SetCurr e ny pos (GetCurr e ny pos + op.Exc.Curr_amp n * op.Exc.Signal_curr exc_pos.toNat)

/-- `Engine::ApplyCurrentExcite`: the source loop, then the line for the file `ht`
(time stamp `(numTS+0.5) * dT`). -/
def ApplyCurrentExcite (op : Operator R T) (e : Engine R T) : Engine R T :=
  let e1 := forLoop op.Exc.Curr_Count (fun n s => ApplyCurrentExcite_source op n s) e
  if e1.numTS < op.Exc.Length then
    { e1 with file_ht :=
        e1.file_ht ++ [(((e1.numTS : T) + 2⁻¹) * op.dT, op.Exc.Signal_curr e1.numTS)] }
  else e1

/-! ## Extensions -/

/-- Modelled from the spec: the class `Engine_Extension` is declared in
`engine_extension.h`, which is not among the sources. The spec gives an extension
an integer priority and six hooks without arguments that may read and change the
engine through their reference to it. `id` names the object in call traces;
`m_Eng` is the reference back to the engine, absent until `SetEngine` stores it. -/
structure Engine_Extension (R T : Type) where
  id : Nat
  priority : Int
  DoPreVoltageUpdates : Engine R T → Engine R T
  DoPostVoltageUpdates : Engine R T → Engine R T
  Apply2Voltages : Engine R T → Engine R T
  DoPreCurrentUpdates : Engine R T → Engine R T
  DoPostCurrentUpdates : Engine R T → Engine R T
  Apply2Current : Engine R T → Engine R T
  m_Eng : Option Nat := none

/-- Modelled from the spec: `SetEngine` is declared in `engine_extension.h`, which is
not among the sources; it stores the reference back to the engine (here the engine is
named by a number). -/
def Engine_Extension.SetEngine (x : Engine_Extension R T) (eng : Nat) :
    Engine_Extension R T :=
  { x with m_Eng := some eng }

/-- Modelled from the spec: the class `Operator_Extension` is declared in
`operator_extension.h`, which is not among the sources; its factory
`CreateEngineExtention` returns an engine-side extension or nothing. -/
structure Operator_Extension (R T : Type) where
  CreateEngineExtention : Option (Engine_Extension R T)

/-- `Engine::InitExtensions` for the engine `this`: the operator's extension table is
given by its size `GetNumberOfExtentions` and its entries `GetExtension n`; every
extension a factory returns is bound to the engine and pushed to the back of
`m_Eng_exts`. -/
def InitExtensions (this : Nat) (GetNumberOfExtentions : Nat)
    (GetExtension : Nat → Operator_Extension R T) (m_Eng_exts : List (Engine_Extension R T)) :
    List (Engine_Extension R T) :=
  forLoop GetNumberOfExtentions (fun n exts =>
    match (GetExtension n).CreateEngineExtention with
    | some eng_ext => exts ++ [eng_ext.SetEngine this]
    | none => exts) m_Eng_exts

/-- Modelled from the spec: `operator<` of `Engine_Extension` is declared in
`engine_extension.h`, which is not among the sources; extensions are ordered by
their priority. `CompareExtensions(i, j)` returns `*i < *j`. -/
def CompareExtensions (i j : Engine_Extension R T) : Bool := decide (i.priority < j.priority)

/-- Insertion step of `stable_sort`: `a` goes behind the leading elements that
compare less than `a` and in front of everything else. -/
def stable_insert {α : Type} (comp : α → α → Bool) (a : α) : List α → List α
  | [] => [a]
  | b :: l => if comp b a then b :: stable_insert comp a l else a :: b :: l

/-- The library function `std::stable_sort(first, last, comp)`: sorts into
non-descending order of `comp`, keeping the order of equivalent elements. -/
def stable_sort {α : Type} (comp : α → α → Bool) : List α → List α
  | [] => []
  | a :: l => stable_insert comp a (stable_sort comp l)

/-- `Engine::SortExtensionByPriority`: `stable_sort` with `CompareExtensions`,
then `reverse`. -/
def SortExtensionByPriority (m_Eng_exts : List (Engine_Extension R T)) :
    List (Engine_Extension R T) :=
  (stable_sort CompareExtensions m_Eng_exts).reverse

/-- The six hook points. -/
inductive Hook where
  | DoPreVoltageUpdates
  | DoPostVoltageUpdates
  | Apply2Voltages
  | DoPreCurrentUpdates
  | DoPostCurrentUpdates
  | Apply2Current
  deriving DecidableEq

/-- The observable events of a run: a hook of the extension with the given id is
called, a kernel is called with its two arguments, an excitation routine is
called, the step counter is incremented. -/
inductive Event where
  | hook (h : Hook) (ext : Nat)
  | UpdateVoltages (startX numX : Nat)
  | ApplyVoltageExcite
  | UpdateCurrents (startX numX : Nat)
  | ApplyCurrentExcite
  | incNumTS
  deriving DecidableEq

/-- An engine state together with the events observed so far. -/
structure Run (R T : Type) where
  eng : Engine R T
  trace : List Event

/-- The hook `h` of an extension. -/
def Engine_Extension.hookFn (x : Engine_Extension R T) : Hook → Engine R T → Engine R T
  | Hook.DoPreVoltageUpdates => x.DoPreVoltageUpdates
  | Hook.DoPostVoltageUpdates => x.DoPostVoltageUpdates
  | Hook.Apply2Voltages => x.Apply2Voltages
  | Hook.DoPreCurrentUpdates => x.DoPreCurrentUpdates
  | Hook.DoPostCurrentUpdates => x.DoPostCurrentUpdates
  | Hook.Apply2Current => x.Apply2Current

/-- One observed call: the state changes by `f` and the event is appended. -/
def observe (ev : Event) (f : Engine R T → Engine R T) (c : Run R T) : Run R T :=
  { eng := f c.eng, trace := c.trace ++ [ev] }

/-- The call `m_Eng_exts.at(n)->h()`. -/
def callHook (h : Hook) (x : Engine_Extension R T) (c : Run R T) : Run R T :=
  observe (Event.hook h x.id) (x.hookFn h) c

/-- A dispatch loop `for (size_t n=0;n<m_Eng_exts.size();++n)`. -/
def dispatchForward (h : Hook) (m_Eng_exts : List (Engine_Extension R T)) (c : Run R T) :
    Run R T :=
  m_Eng_exts.foldl (fun s x => callHook h x s) c

/-- A dispatch loop `for (int n=m_Eng_exts.size()-1;n>=0;--n)`. -/
def dispatchBackward (h : Hook) (m_Eng_exts : List (Engine_Extension R T)) (c : Run R T) :
    Run R T :=
  m_Eng_exts.reverse.foldl (fun s x => callHook h x s) c

/-- `Engine::DoPreVoltageUpdates`. -/
def DoPreVoltageUpdates (m_Eng_exts : List (Engine_Extension R T)) (c : Run R T) : Run R T :=
  dispatchBackward Hook.DoPreVoltageUpdates m_Eng_exts c

/-- `Engine::DoPostVoltageUpdates`. -/
def DoPostVoltageUpdates (m_Eng_exts : List (Engine_Extension R T)) (c : Run R T) : Run R T :=
  dispatchForward Hook.DoPostVoltageUpdates m_Eng_exts c

/-- `Engine::Apply2Voltages`. -/
def Apply2Voltages (m_Eng_exts : List (Engine_Extension R T)) (c : Run R T) : Run R T :=
  dispatchForward Hook.Apply2Voltages m_Eng_exts c

/-- `Engine::DoPreCurrentUpdates`. -/
def DoPreCurrentUpdates (m_Eng_exts : List (Engine_Extension R T)) (c : Run R T) : Run R T :=
  dispatchBackward Hook.DoPreCurrentUpdates m_Eng_exts c

/-- `Engine::DoPostCurrentUpdates`. -/
def DoPostCurrentUpdates (m_Eng_exts : List (Engine_Extension R T)) (c : Run R T) : Run R T :=
  dispatchForward Hook.DoPostCurrentUpdates m_Eng_exts c

/-- `Engine::Apply2Current`. -/
def Apply2Current (m_Eng_exts : List (Engine_Extension R T)) (c : Run R T) : Run R T :=
  dispatchForward Hook.Apply2Current m_Eng_exts c

/-! ## Iteration -/

/-- The statement `++numTS`. -/
def incNumTS (e : Engine R T) : Engine R T := { e with numTS := uinc e.numTS }

/-- The body of the loop of `Engine::IterateTS`. -/
def IterateTS_body (op : Operator R T) (m_Eng_exts : List (Engine_Extension R T))
    (c : Run R T) : Run R T :=
  let c1 := DoPreVoltageUpdates m_Eng_exts c
  let c2 := observe (Event.UpdateVoltages 0 (op.numLines 0))
    (UpdateVoltages op 0 (op.numLines 0)) c1
  let c3 := DoPostVoltageUpdates m_Eng_exts c2
  let c4 := Apply2Voltages m_Eng_exts c3
  let c5 := observe Event.ApplyVoltageExcite (ApplyVoltageExcite op) c4
  let c6 := DoPreCurrentUpdates m_Eng_exts c5
  let c7 := observe (Event.UpdateCurrents 0 (usub (op.numLines 0) 1))
    (UpdateCurrents op 0 (usub (op.numLines 0) 1)) c6
  let c8 := DoPostCurrentUpdates m_Eng_exts c7
  let c9 := Apply2Current m_Eng_exts c8
  let c10 := observe Event.ApplyCurrentExcite (ApplyCurrentExcite op) c9
  observe Event.incNumTS incNumTS c10

/-- `Engine::IterateTS(iterTS)`: the returned flag and the configuration reached. -/
def IterateTS (op : Operator R T) (m_Eng_exts : List (Engine_Extension R T)) (iterTS : Nat)
    (c : Run R T) : Bool × Run R T :=
  (true, forLoop iterTS (fun _ s => IterateTS_body op m_Eng_exts s) c)

/-! ## Auxiliary notions for the statements below -/

/-- The value the voltage kernel assigns to `volt[n][p0][p1][p2]`, computed from
the state `e` before the sweep, with the index arithmetic of the source. -/
def voltNext (op : Operator R T) (e : Engine R T) : N_3DArray R := fun n p0 p1 p2 =>
  if n = 0 then
    e.volt 0 p0 p1 p2 * op.vv 0 p0 p1 p2 + op.vi 0 p0 p1 p2 *
      (e.curr 2 p0 p1 p2 - e.curr 2 p0 (usub p1 (shiftOf p1)) p2
        - e.curr 1 p0 p1 p2 + e.curr 1 p0 p1 (usub p2 (shiftOf p2)))
  else if n = 1 then
    e.volt 1 p0 p1 p2 * op.vv 1 p0 p1 p2 + op.vi 1 p0 p1 p2 *
      (e.curr 0 p0 p1 p2 - e.curr 0 p0 p1 (usub p2 (shiftOf p2))
        - e.curr 2 p0 p1 p2 + e.curr 2 (usub p0 (shiftOf p0)) p1 p2)
  else if n = 2 then
    e.volt 2 p0 p1 p2 * op.vv 2 p0 p1 p2 + op.vi 2 p0 p1 p2 *
      (e.curr 1 p0 p1 p2 - e.curr 1 (usub p0 (shiftOf p0)) p1 p2
        - e.curr 0 p0 p1 p2 + e.curr 0 p0 (usub p1 (shiftOf p1)) p2)
  else e.volt n p0 p1 p2

/-- The value the current kernel assigns to `curr[n][p0][p1][p2]`, computed from
the state `e` before the sweep, with the index arithmetic of the source. -/
def currNext (op : Operator R T) (e : Engine R T) : N_3DArray R := fun n p0 p1 p2 =>
  if n = 0 then
    e.curr 0 p0 p1 p2 * op.ii 0 p0 p1 p2 + op.iv 0 p0 p1 p2 *
      (e.volt 2 p0 p1 p2 - e.volt 2 p0 (uinc p1) p2
        - e.volt 1 p0 p1 p2 + e.volt 1 p0 p1 (uinc p2))
  else if n = 1 then
    e.curr 1 p0 p1 p2 * op.ii 1 p0 p1 p2 + op.iv 1 p0 p1 p2 *
      (e.volt 0 p0 p1 p2 - e.volt 0 p0 p1 (uinc p2)
        - e.volt 2 p0 p1 p2 + e.volt 2 (uinc p0) p1 p2)
  else if n = 2 then
    e.curr 2 p0 p1 p2 * op.ii 2 p0 p1 p2 + op.iv 2 p0 p1 p2 *
      (e.volt 1 p0 p1 p2 - e.volt 1 (uinc p0) p1 p2
        - e.volt 0 p0 p1 p2 + e.volt 0 p0 (uinc p1) p2)
  else e.curr n p0 p1 p2

/-- Everything but `volt` agrees in the two states. -/
def voltFrame (e e1 : Engine R T) : Prop :=
  e1.numTS = e.numTS ∧ e1.curr = e.curr ∧ e1.file_et = e.file_et ∧ e1.file_ht = e.file_ht

/-- Everything but `curr` agrees in the two states. -/
def currFrame (e e1 : Engine R T) : Prop :=
  e1.numTS = e.numTS ∧ e1.volt = e.volt ∧ e1.file_et = e.file_et ∧ e1.file_ht = e.file_ht

/-- The state `e1` is `e` after a sweep over the grid points selected by `P`: there
the array `get` holds the value `next e`, elsewhere it is as in `e`, and the rest
of the state is related by `frame`. -/
def Sweep (get next : Engine R T → N_3DArray R) (frame : Engine R T → Engine R T → Prop)
    (P : Nat → Nat → Nat → Prop) (e e1 : Engine R T) : Prop :=
  frame e e1 ∧ ∀ n i j k,
    (P i j k → get e1 n i j k = next e n i j k) ∧ (¬ P i j k → get e1 n i j k = get e n i j k)

/-- The events of calling the hook `h` of the listed extensions one after the other. -/
def hookCalls (h : Hook) (exts : List (Engine_Extension R T)) : List Event :=
  exts.map (fun x => Event.hook h x.id)

/-- The excitation block with every amplitude multiplied by `α`. -/
def Excitation.scaleAmp (α : R) (x : Excitation R) : Excitation R :=
  { x with
    Volt_amp := fun n => α * x.Volt_amp n
    Curr_amp := fun n => α * x.Curr_amp n }

/-- The operator with every source amplitude multiplied by `α`. -/
def Operator.scaleAmp (α : R) (op : Operator R T) : Operator R T :=
  { op with Exc := op.Exc.scaleAmp α }

/-- Both field arrays are identically zero. -/
def FieldsZero (e : Engine R T) : Prop :=
  (∀ n i j k, e.volt n i j k = 0) ∧ (∀ n i j k, e.curr n i j k = 0)

/-- The state `e1` is at the same step as `e` and its fields are `α` times those of `e`. -/
def Scaled (α : R) (e e1 : Engine R T) : Prop :=
  e1.numTS = e.numTS ∧ (∀ n i j k, e1.volt n i j k = α * e.volt n i j k) ∧
    (∀ n i j k, e1.curr n i j k = α * e.curr n i j k)

/-- The index triples collected over the three loops of a kernel, `pos[0]` running
over the slab, `pos[1] < M1` and `pos[2] < M2`, where `cellIndex` lists the triples
that the loop body uses at a grid point. -/
def kernelIndex (cellIndex : Nat → Nat → Nat → List (Nat × Nat × Nat))
    (M1 M2 startX numX : Nat) : List (Nat × Nat × Nat) :=
  (forLoop numX (fun _ (st : Nat × List (Nat × Nat × Nat)) =>
    (uinc st.1, forLoop M1 (fun pos1 acc1 =>
      forLoop M2 (fun pos2 acc2 => acc2 ++ cellIndex st.1 pos1 pos2) acc1) st.2))
    (startX, [])).2

/-- The index triples that the six statements of the body of `Engine::UpdateCurrents`
use at `pos`: `pos` itself for `curr`, `ii`, `iv` and `volt`, and the three neighbours
`pos[1]+1`, `pos[2]+1`, `pos[0]+1` for `volt`. -/
def UpdateCurrents_cell_index (pos0 pos1 pos2 : Nat) : List (Nat × Nat × Nat) :=
  [(pos0, pos1, pos2), (pos0, uinc pos1, pos2), (pos0, pos1, uinc pos2),
    (uinc pos0, pos1, pos2)]

/-- All index triples used by `Engine::UpdateCurrents(startX, numX)`. -/
def UpdateCurrents_index (op : Operator R T) (startX numX : Nat) : List (Nat × Nat × Nat) :=
  kernelIndex UpdateCurrents_cell_index (usub (op.numLines 1) 1) (usub (op.numLines 2) 1)
    startX numX

/-- The index triples that the six statements of the body of `Engine::UpdateVoltages`
use at `pos`: `pos` itself for `volt`, `vv`, `vi` and `curr`, and the three neighbours
`pos[1]-shift[1]`, `pos[2]-shift[2]`, `pos[0]-shift[0]` for `curr`. -/
def UpdateVoltages_cell_index (pos0 pos1 pos2 : Nat) : List (Nat × Nat × Nat) :=
  [(pos0, pos1, pos2), (pos0, usub pos1 (shiftOf pos1), pos2),
    (pos0, pos1, usub pos2 (shiftOf pos2)), (usub pos0 (shiftOf pos0), pos1, pos2)]

/-- All index triples used by `Engine::UpdateVoltages(startX, numX)`. -/
def UpdateVoltages_index (op : Operator R T) (startX numX : Nat) : List (Nat × Nat × Nat) :=
  kernelIndex UpdateVoltages_cell_index (op.numLines 1) (op.numLines 2) startX numX

/-- Reading `sig[i]` from a signal array that has `len` entries: there is a value
only for `0 ≤ i < len`. -/
def readSample (sig : Nat → R) (len : Nat) (i : Int) : Option R :=
  if 0 ≤ i ∧ i < (len : Int) then some (sig i.toNat) else none

/-- The body of the source loop of `Engine::ApplyVoltageExcite` with the read of
`Signal_volt` checked against an array of `len` entries. -/
def ApplyVoltageExcite_source_checked (len : Nat) (op : Operator R T) (n : Nat)
    (e : Engine R T) : Option (Engine R T) :=
  let exc_pos := excPos e.numTS (op.Exc.Volt_delay n) op.Exc.Length
  let ny := op.Exc.Volt_dir n
  let pos : Nat → Nat := fun a => op.Exc.Volt_index a n
  (readSample op.Exc.Signal_volt len exc_pos).map
    (fun v => SetVolt e ny pos (GetVolt e ny pos + op.Exc.Volt_amp n * v))

/-- `Engine::ApplyVoltageExcite` with every read of `Signal_volt` checked against an
array of `len` entries; the result is `none` as soon as one read is out of range. -/
def ApplyVoltageExcite_checked (len : Nat) (op : Operator R T) (e : Engine R T) :
    Option (Engine R T) :=
  (forLoop op.Exc.Volt_Count
    (fun n s => s.bind (ApplyVoltageExcite_source_checked len op n)) (some e)).bind
    (fun e1 =>
      if e1.numTS < op.Exc.Length then
        (readSample op.Exc.Signal_volt len (e1.numTS : Int)).map
          (fun v => { e1 with file_et := e1.file_et ++ [((e1.numTS : T) * op.dT, v)] })
      else some e1)

/-- The body of the source loop of `Engine::ApplyCurrentExcite` with the read of
`Signal_curr` checked against an array of `len` entries. -/
def ApplyCurrentExcite_source_checked (len : Nat) (op : Operator R T) (n : Nat)
    (e : Engine R T) : Option (Engine R T) :=
  let exc_pos := excPos e.numTS (op.Exc.Curr_delay n) op.Exc.Length
  let ny := op.Exc.Curr_dir n
  let pos : Nat → Nat := fun a => op.Exc.Curr_index a n
  (readSample op.Exc.Signal_curr len exc_pos).map
    (fun v => SetCurr e ny pos (GetCurr e ny pos + op.Exc.Curr_amp n * v))

/-- `Engine::ApplyCurrentExcite` with every read of `Signal_curr` checked against an
array of `len` entries; the result is `none` as soon as one read is out of range. -/
def ApplyCurrentExcite_checked (len : Nat) (op : Operator R T) (e : Engine R T) :
    Option (Engine R T) :=
  (forLoop op.Exc.Curr_Count
    (fun n s => s.bind (ApplyCurrentExcite_source_checked len op n)) (some e)).bind
    (fun e1 =>
      if e1.numTS < op.Exc.Length then
        (readSample op.Exc.Signal_curr len (e1.numTS : Int)).map
          (fun v =>
            { e1 with file_ht := e1.file_ht ++ [(((e1.numTS : T) + 2⁻¹) * op.dT, v)] })
      else some e1)

/-- The engine is at step `t` and its two logs hold the lines `a` and `b`. -/
def LogState (t : Nat) (a b : List (T × R)) (e : Engine R T) : Prop :=
  e.numTS = t ∧ e.file_et = a ∧ e.file_ht = b

/-- The state after `Engine::Init`: step 0, zero fields, empty logs. -/
def engInit : Engine R T where
  numTS := 0
  volt := fun _ _ _ _ => 0
  curr := fun _ _ _ _ => 0
  file_et := []
  file_ht := []

/-- The configuration with the state `engInit` and no events. -/
def runInit : Run R T where
  eng := engInit
  trace := []

/-- Scenario S2: an 8 x 8 x 8 grid with `vv = ii = 1` and `vi = iv = c`, one voltage
source of direction 0 at `(4,4,4)` with amplitude 1 and delay 0, no current source, and
the signal 1, 0, 0, 0 (`Length = 4`). -/
def opS2 (c : R) : Operator R T where
  numLines := fun _ => 8
  numLines_lt := fun _ => by simp [UINT_RANGE]
  vv := fun _ _ _ _ => 1
  vi := fun _ _ _ _ => c
  ii := fun _ _ _ _ => 1
  iv := fun _ _ _ _ => c
  dT := 1
  Exc :=
    { Length := 4
      Volt_Count := 1
      Volt_delay := fun _ => 0
      Volt_dir := fun _ => 0
      Volt_index := fun _ _ => 4
      Volt_amp := fun _ => 1
      Signal_volt := fun i => if i = 0 then 1 else 0
      Curr_Count := 0
      Curr_delay := fun _ => 0
      Curr_dir := fun _ => 0
      Curr_index := fun _ _ => 0
      Curr_amp := fun _ => 0
      Signal_curr := fun _ => 0 }

/-- The grid index `i` lies in the slab `(startX, numX)`, given as a pair. -/
def inSlab (p : Nat × Nat) (i : Nat) : Prop := p.1 ≤ i ∧ i < p.1 + p.2

/-- The calls `UpdateVoltages(startX, numX)` for the listed slabs, one after the
other. -/
def UpdateVoltages_slabs (op : Operator R T) (l : List (Nat × Nat)) (e : Engine R T) :
    Engine R T :=
  l.foldl (fun s p => UpdateVoltages op p.1 p.2 s) e

/-! ## Concrete instances -/

/-- No sources and an empty signal. -/
def excNone : Excitation Int where
  Length := 0
  Volt_Count := 0
  Volt_delay := fun _ => 0
  Volt_dir := fun _ => 0
  Volt_index := fun _ _ => 0
  Volt_amp := fun _ => 0
  Signal_volt := fun _ => 0
  Curr_Count := 0
  Curr_delay := fun _ => 0
  Curr_dir := fun _ => 0
  Curr_index := fun _ _ => 0
  Curr_amp := fun _ => 0
  Signal_curr := fun _ => 0

/-- A 4 x 4 x 4 grid with the coefficients `vv = 2`, `vi = 3`, `ii = 5`, `iv = 7`. -/
def opGrid4 : Operator Int Rat where
  numLines := fun _ => 4
  numLines_lt := fun _ => by simp [UINT_RANGE]
  vv := fun _ _ _ _ => 2
  vi := fun _ _ _ _ => 3
  ii := fun _ _ _ _ => 5
  iv := fun _ _ _ _ => 7
  dT := 1
  Exc := excNone

/-- A state whose field entries are pairwise different. -/
def engGrid4 : Engine Int Rat where
  numTS := 0
  volt := fun n i j k => (n : Int) + 4 * i + 16 * j + 64 * k
  curr := fun n i j k => 1000 + (n : Int) * (n : Int) + 3 * i * i + 5 * j * j * j + 7 * k * k
  file_et := []
  file_ht := []

/-- One voltage and one current source with delay 5 at `(2,2,2)`, direction 1,
amplitude 3; the signals have `Length = 3` and the samples 10, 20, 30, 40, ... and
100, 200, 300, 400, ... -/
def excS5 : Excitation Int where
  Length := 3
  Volt_Count := 1
  Volt_delay := fun _ => 5
  Volt_dir := fun _ => 1
  Volt_index := fun _ _ => 2
  Volt_amp := fun _ => 3
  Signal_volt := fun i => 10 * ((i : Int) + 1)
  Curr_Count := 1
  Curr_delay := fun _ => 5
  Curr_dir := fun _ => 1
  Curr_index := fun _ _ => 2
  Curr_amp := fun _ => 3
  Signal_curr := fun i => 100 * ((i : Int) + 1)

/-- The 4 x 4 x 4 grid with the delayed sources of `excS5`. -/
def opS5 : Operator Int Rat := { opGrid4 with Exc := excS5 }

/-- One voltage and one current source without delay, amplitude 1, and signals with
`Length = 2^31` whose only non-zero sample is sample 1. -/
def excLong : Excitation Int where
  Length := 2147483648
  Volt_Count := 1
  Volt_delay := fun _ => 0
  Volt_dir := fun _ => 1
  Volt_index := fun _ _ => 2
  Volt_amp := fun _ => 1
  Signal_volt := fun i => if i = 1 then 1 else 0
  Curr_Count := 1
  Curr_delay := fun _ => 0
  Curr_dir := fun _ => 1
  Curr_index := fun _ _ => 2
  Curr_amp := fun _ => 1
  Signal_curr := fun i => if i = 1 then 1 else 0

/-- The 4 x 4 x 4 grid with the sources of `excLong`. -/
def opLong : Operator Int Rat := { opGrid4 with Exc := excLong }

/-- One voltage and one current source with the delay `2^32 - 1`, amplitude 1, and
signals with `Length = 3` whose only non-zero sample is sample 1. -/
def excLate : Excitation Int where
  Length := 3
  Volt_Count := 1
  Volt_delay := fun _ => 4294967295
  Volt_dir := fun _ => 1
  Volt_index := fun _ _ => 2
  Volt_amp := fun _ => 1
  Signal_volt := fun i => if i = 1 then 1 else 0
  Curr_Count := 1
  Curr_delay := fun _ => 4294967295
  Curr_dir := fun _ => 1
  Curr_index := fun _ _ => 2
  Curr_amp := fun _ => 1
  Signal_curr := fun i => if i = 1 then 1 else 0

/-- The 4 x 4 x 4 grid with the sources of `excLate`. -/
def opLate : Operator Int Rat := { opGrid4 with Exc := excLate }

/-- The state `engGrid4` at step `t`. -/
def engAt (t : Nat) : Engine Int Rat := { engGrid4 with numTS := t }

/-- An extension with the given identity and priority whose hooks do nothing. -/
def trivialExt (id : Nat) (priority : Int) : Engine_Extension Int Rat where
  id := id
  priority := priority
  DoPreVoltageUpdates := fun e => e
  DoPostVoltageUpdates := fun e => e
  Apply2Voltages := fun e => e
  DoPreCurrentUpdates := fun e => e
  DoPostCurrentUpdates := fun e => e
  Apply2Current := fun e => e

/-- Scenario S3: three trivial extensions registered with the priorities 10, 5, 10. -/
def extsS3 : List (Engine_Extension Int Rat) :=
  [trivialExt 0 10, trivialExt 1 5, trivialExt 2 10]

/-- The configuration with the state `engGrid4` and no events. -/
def runGrid4 : Run Int Rat := { eng := engGrid4, trace := [] }

/-- Scenario S1: a 4 x 4 x 4 grid with `vv = ii = 1`, `vi = iv = 0` and no sources. -/
def opS1 : Operator Int Rat where
  numLines := fun _ => 4
  numLines_lt := fun _ => by simp [UINT_RANGE]
  vv := fun _ _ _ _ => 1
  vi := fun _ _ _ _ => 0
  ii := fun _ _ _ _ => 1
  iv := fun _ _ _ _ => 0
  dT := 1
  Exc := excNone

/-- The state after `Engine::Init`: step 0, zero fields, empty logs. -/
def engZero : Engine Int Rat where
  numTS := 0
  volt := fun _ _ _ _ => 0
  curr := fun _ _ _ _ => 0
  file_et := []
  file_ht := []

/-- The configuration with the state `engZero` and no events. -/
def runZero : Run Int Rat := { eng := engZero, trace := [] }

/-- Scenario S4: a 4 x 4 x 4 grid, timestep `1e-11`, signals of `Length = 3` with the
samples 0.5, 1, 0.5 and 0, 1, 0, one voltage and one current source without delay at
`(2,2,2)`, direction 1, amplitude 1. -/
def opS4 : Operator Rat Rat where
  numLines := fun _ => 4
  numLines_lt := fun _ => by simp [UINT_RANGE]
  vv := fun _ _ _ _ => 1
  vi := fun _ _ _ _ => 0
  ii := fun _ _ _ _ => 1
  iv := fun _ _ _ _ => 0
  dT := 1 / 100000000000
  Exc :=
    { Length := 3
      Volt_Count := 1
      Volt_delay := fun _ => 0
      Volt_dir := fun _ => 1
      Volt_index := fun _ _ => 2
      Volt_amp := fun _ => 1
      Signal_volt := fun i => if i = 1 then 1 else if i ≤ 2 then 1 / 2 else 0
      Curr_Count := 1
      Curr_delay := fun _ => 0
      Curr_dir := fun _ => 1
      Curr_index := fun _ _ => 2
      Curr_amp := fun _ => 1
      Signal_curr := fun i => if i = 1 then 1 else 0 }

/-- The configuration after `Engine::Init` over the rationals: step 0, zero fields,
empty logs, no events. -/
def runS4 : Run Rat Rat where
  eng :=
    { numTS := 0
      volt := fun _ _ _ _ => 0
      curr := fun _ _ _ _ => 0
      file_et := []
      file_ht := [] }
  trace := []

/-- An extension over the rationals whose hooks do nothing. -/
def idleExt : Engine_Extension Rat Rat where
  id := 0
  priority := 0
  DoPreVoltageUpdates := fun e => e
  DoPostVoltageUpdates := fun e => e
  Apply2Voltages := fun e => e
  DoPreCurrentUpdates := fun e => e
  DoPostCurrentUpdates := fun e => e
  Apply2Current := fun e => e

/-! ## Machine integers: facts -/

theorem usub_shiftOf {p : Nat} (h : p < UINT_RANGE) : usub p (shiftOf p) = p - 1 := by
  unfold usub shiftOf
  simp only [UINT_RANGE] at *
  split <;> omega

theorem usub_one {p : Nat} (h0 : 1 ≤ p) (h : p < UINT_RANGE) : usub p 1 = p - 1 := by
  unfold usub
  simp only [UINT_RANGE] at *
  omega

theorem uinc_of_lt {p : Nat} (h : p + 1 < UINT_RANGE) : uinc p = p + 1 := by
  unfold uinc
  simp only [UINT_RANGE] at *
  omega

/-! ## Loops: facts -/

theorem forLoop_succ {S : Type} (n : Nat) (body : Nat → S → S) (s : S) :
    forLoop (n + 1) body s = body n (forLoop n body s) := rfl

theorem forLoop_zero {S : Type} (body : Nat → S → S) (s : S) : forLoop 0 body s = s := rfl

/-- An invariant of the body is an invariant of the loop. -/
theorem forLoop_invariant {S : Type} (Inv : S → Prop) (body : Nat → S → S)
    (hbody : ∀ n s, Inv s → Inv (body n s)) (n : Nat) (s : S) (hs : Inv s) :
    Inv (forLoop n body s) := by
  induction n with
  | zero => exact hs
  | succ n ih => exact hbody n _ ih

/-- A relation kept by two bodies is kept by the two loops. -/
theorem forLoop_related {S : Type} (Rel : S → S → Prop) (body body1 : Nat → S → S)
    (hbody : ∀ n s s1, Rel s s1 → Rel (body n s) (body1 n s1)) (n : Nat) (s s1 : S)
    (hs : Rel s s1) : Rel (forLoop n body s) (forLoop n body1 s1) := by
  induction n with
  | zero => exact hs
  | succ n ih => exact hbody n _ _ ih

/-- An invariant of the cell update is an invariant of the two inner loops of a
kernel. -/
theorem rowsLoop_invariant (Inv : Engine R T → Prop)
    (cell : Nat → Nat → Nat → Engine R T → Engine R T)
    (hcell : ∀ p0 p1 p2 e, Inv e → Inv (cell p0 p1 p2 e)) (M1 M2 p0 : Nat) (e : Engine R T)
    (h : Inv e) :
    Inv (forLoop M1 (fun pos1 e1 => forLoop M2 (fun pos2 e2 => cell p0 pos1 pos2 e2) e1) e) :=
  forLoop_invariant Inv (fun pos1 e1 => forLoop M2 (fun pos2 e2 => cell p0 pos1 pos2 e2) e1)
    (fun pos1 e1 h1 => forLoop_invariant Inv (fun pos2 e2 => cell p0 pos1 pos2 e2)
      (fun pos2 e2 h2 => hcell p0 pos1 pos2 e2 h2) M2 e1 h1) M1 e h

/-- An invariant of the plane update is an invariant of the outer loop of a kernel. -/
theorem planeLoop_invariant (Inv : Engine R T → Prop) (plane : Nat → Engine R T → Engine R T)
    (hplane : ∀ p0 e, Inv e → Inv (plane p0 e)) (startX numX : Nat) (e : Engine R T)
    (h : Inv e) :
    Inv (forLoop numX (fun _ (st : Nat × Engine R T) => (uinc st.1, plane st.1 st.2))
      (startX, e)).2 :=
  forLoop_invariant (fun st : Nat × Engine R T => Inv st.2)
    (fun _ (st : Nat × Engine R T) => (uinc st.1, plane st.1 st.2))
    (fun _ st hst => hplane st.1 st.2 hst) numX (startX, e) h

/-- A relation kept by the cell updates of two kernels is kept by their two inner
loops. -/
theorem rowsLoop_related (Rel : Engine R T → Engine R T → Prop)
    (cell cell1 : Nat → Nat → Nat → Engine R T → Engine R T)
    (hcell : ∀ p0 p1 p2 e e1, Rel e e1 → Rel (cell p0 p1 p2 e) (cell1 p0 p1 p2 e1))
    (M1 M2 p0 : Nat) (e e1 : Engine R T) (h : Rel e e1) :
    Rel (forLoop M1 (fun pos1 s => forLoop M2 (fun pos2 s2 => cell p0 pos1 pos2 s2) s) e)
      (forLoop M1 (fun pos1 s => forLoop M2 (fun pos2 s2 => cell1 p0 pos1 pos2 s2) s) e1) :=
  forLoop_related Rel (fun pos1 s => forLoop M2 (fun pos2 s2 => cell p0 pos1 pos2 s2) s)
    (fun pos1 s => forLoop M2 (fun pos2 s2 => cell1 p0 pos1 pos2 s2) s)
    (fun pos1 s s1 hs => forLoop_related Rel (fun pos2 s2 => cell p0 pos1 pos2 s2)
      (fun pos2 s2 => cell1 p0 pos1 pos2 s2)
      (fun pos2 s2 s3 h2 => hcell p0 pos1 pos2 s2 s3 h2) M2 s s1 hs) M1 e e1 h

/-- A relation kept by the plane updates of two kernels is kept by their outer
loops. -/
theorem planeLoop_related (Rel : Engine R T → Engine R T → Prop)
    (plane plane1 : Nat → Engine R T → Engine R T)
    (hplane : ∀ p0 e e1, Rel e e1 → Rel (plane p0 e) (plane1 p0 e1))
    (startX numX : Nat) (e e1 : Engine R T) (h : Rel e e1) :
    Rel (forLoop numX (fun _ (st : Nat × Engine R T) => (uinc st.1, plane st.1 st.2))
        (startX, e)).2
      (forLoop numX (fun _ (st : Nat × Engine R T) => (uinc st.1, plane1 st.1 st.2))
        (startX, e1)).2 := by
  have h1 := forLoop_related
    (fun st st1 : Nat × Engine R T => st.1 = st1.1 ∧ Rel st.2 st1.2)
    (fun _ (st : Nat × Engine R T) => (uinc st.1, plane st.1 st.2))
    (fun _ (st : Nat × Engine R T) => (uinc st.1, plane1 st.1 st.2))
    (fun _ st st1 hst => ⟨congrArg uinc hst.1, by
      have := hplane st.1 st.2 st1.2 hst.2
      show Rel (plane st.1 st.2) (plane1 st1.1 st1.2)
      rw [← hst.1]
      exact this⟩)
    numX (startX, e) (startX, e1) ⟨rfl, h⟩
  exact h1.2

/-- Sweeps over pairwise disjoint sets of grid points compose to a sweep over
their union. -/
theorem Sweep.forLoop {get next : Engine R T → N_3DArray R}
    {frame : Engine R T → Engine R T → Prop}
    (hrefl : ∀ e, frame e e) (htrans : ∀ a b c, frame a b → frame b c → frame a c)
    (hnext : ∀ e e1 n i j k, frame e e1 → get e1 n i j k = get e n i j k →
      next e1 n i j k = next e n i j k)
    (body : Nat → Engine R T → Engine R T) (P : Nat → Nat → Nat → Nat → Prop)
    (hbody : ∀ m e, Sweep get next frame (P m) e (body m e))
    (hdisj : ∀ m m1 i j k, P m i j k → P m1 i j k → m = m1) (M : Nat) (e : Engine R T) :
    Sweep get next frame (fun i j k => ∃ m, m < M ∧ P m i j k) e (FDTD.forLoop M body e) := by
  induction M with
  | zero =>
    refine ⟨hrefl e, fun n i j k => ⟨?_, fun _ => rfl⟩⟩
    rintro ⟨m, hm, _⟩
    omega
  | succ M ih =>
    obtain ⟨hf, hv⟩ := ih
    obtain ⟨hf1, hv1⟩ := hbody M (FDTD.forLoop M body e)
    refine ⟨htrans _ _ _ hf hf1, fun n i j k => ⟨?_, ?_⟩⟩
    · rintro ⟨m, hm, hP⟩
      by_cases hPM : P M i j k
      · have hnot : ¬ ∃ m, m < M ∧ P m i j k := by
          rintro ⟨m1, hm1, hP1⟩
          have := hdisj _ _ _ _ _ hP1 hPM
          omega
        rw [forLoop_succ, (hv1 n i j k).1 hPM]
        exact hnext _ _ _ _ _ _ hf ((hv n i j k).2 hnot)
      · have hmM : m < M := by
          rcases Nat.lt_succ_iff_lt_or_eq.mp hm with h | h
          · exact h
          · subst h
            exact absurd hP hPM
        rw [forLoop_succ, (hv1 n i j k).2 hPM]
        exact (hv n i j k).1 ⟨m, hmM, hP⟩
    · intro hnot
      have hPM : ¬ P M i j k := fun hP => hnot ⟨M, Nat.lt_succ_self M, hP⟩
      have hnot1 : ¬ ∃ m, m < M ∧ P m i j k := by
        rintro ⟨m1, hm1, hP1⟩
        exact hnot ⟨m1, Nat.lt_succ_of_lt hm1, hP1⟩
      rw [forLoop_succ, (hv1 n i j k).2 hPM]
      exact (hv n i j k).2 hnot1

/-- A sweep only depends on the set of grid points it covers. -/
theorem Sweep.congr {get next : Engine R T → N_3DArray R}
    {frame : Engine R T → Engine R T → Prop} {P Q : Nat → Nat → Nat → Prop}
    {e e1 : Engine R T} (h : Sweep get next frame P e e1) (hPQ : ∀ i j k, P i j k ↔ Q i j k) :
    Sweep get next frame Q e e1 := by
  refine ⟨h.1, fun n i j k => ⟨fun hQ => (h.2 n i j k).1 ((hPQ i j k).2 hQ), fun hQ => ?_⟩⟩
  exact (h.2 n i j k).2 (fun hP => hQ ((hPQ i j k).1 hP))

/-- The loop over `pos[0]` as a loop over the planes `startX`, `startX+1`, ...,
as long as `pos[0]` does not wrap. -/
theorem planeLoop_eq (plane : Nat → Engine R T → Engine R T) (startX numX : Nat)
    (h : startX + numX ≤ UINT_RANGE) (e : Engine R T) :
    (forLoop numX (fun _ (st : Nat × Engine R T) => (uinc st.1, plane st.1 st.2)) (startX, e)).2
        = forLoop numX (fun m s => plane (startX + m) s) e ∧
      (startX + numX < UINT_RANGE →
        (forLoop numX (fun _ (st : Nat × Engine R T) => (uinc st.1, plane st.1 st.2))
          (startX, e)).1 = startX + numX) := by
  induction numX with
  | zero => exact ⟨rfl, fun _ => rfl⟩
  | succ m ih =>
    have hm : startX + m < UINT_RANGE := by omega
    obtain ⟨ih2, ih1⟩ := ih (Nat.le_of_lt hm)
    have ih1 := ih1 hm
    refine ⟨?_, fun hlt => ?_⟩
    · simp only [forLoop_succ]
      rw [ih2, ih1]
    · simp only [forLoop_succ]
      rw [ih1]
      exact uinc_of_lt hlt

/-- The two inner loops of a kernel, over `pos[1] < M1` and `pos[2] < M2`. -/
theorem rowsLoop_sweep {get next : Engine R T → N_3DArray R}
    {frame : Engine R T → Engine R T → Prop}
    (hrefl : ∀ e, frame e e) (htrans : ∀ a b c, frame a b → frame b c → frame a c)
    (hnext : ∀ e e1 n i j k, frame e e1 → get e1 n i j k = get e n i j k →
      next e1 n i j k = next e n i j k)
    (cell : Nat → Nat → Nat → Engine R T → Engine R T)
    (hcell : ∀ p0 p1 p2 e,
      Sweep get next frame (fun i j k => i = p0 ∧ j = p1 ∧ k = p2) e (cell p0 p1 p2 e))
    (M1 M2 p0 : Nat) (e : Engine R T) :
    Sweep get next frame (fun i j k => i = p0 ∧ j < M1 ∧ k < M2) e
      (forLoop M1 (fun pos1 e1 => forLoop M2 (fun pos2 e2 => cell p0 pos1 pos2 e2) e1) e) := by
  have hrow : ∀ p1 e1, Sweep get next frame (fun i j k => i = p0 ∧ j = p1 ∧ k < M2) e1
      (forLoop M2 (fun pos2 e2 => cell p0 p1 pos2 e2) e1) := by
    intro p1 e1
    have hd : ∀ m m1 i j k : Nat, (i = p0 ∧ j = p1 ∧ k = m) → (i = p0 ∧ j = p1 ∧ k = m1) →
        m = m1 := by
      rintro m m1 i j k ⟨_, _, rfl⟩ ⟨_, _, h⟩
      exact h
    have hs := Sweep.forLoop hrefl htrans hnext (fun pos2 e2 => cell p0 p1 pos2 e2)
      (fun m i j k => i = p0 ∧ j = p1 ∧ k = m) (fun m e2 => hcell p0 p1 m e2) hd M2 e1
    refine hs.congr ?_
    intro i j k
    constructor
    · rintro ⟨m, hm, h0, h1, rfl⟩
      exact ⟨h0, h1, hm⟩
    · rintro ⟨h0, h1, h2⟩
      exact ⟨k, h2, h0, h1, rfl⟩
  have hd : ∀ m m1 i j k : Nat, (i = p0 ∧ j = m ∧ k < M2) → (i = p0 ∧ j = m1 ∧ k < M2) →
      m = m1 := by
    rintro m m1 i j k ⟨_, rfl, _⟩ ⟨_, h, _⟩
    exact h
  have hs := Sweep.forLoop hrefl htrans hnext
    (fun pos1 e1 => forLoop M2 (fun pos2 e2 => cell p0 pos1 pos2 e2) e1)
    (fun m i j k => i = p0 ∧ j = m ∧ k < M2) (fun m e1 => hrow m e1) hd M1 e
  refine hs.congr ?_
  intro i j k
  constructor
  · rintro ⟨m, hm, h0, rfl, h2⟩
    exact ⟨h0, hm, h2⟩
  · rintro ⟨h0, h1, h2⟩
    exact ⟨j, h1, h0, rfl, h2⟩

/-- The outer loop of a kernel, over the planes of the slab. -/
theorem planeLoop_sweep {get next : Engine R T → N_3DArray R}
    {frame : Engine R T → Engine R T → Prop}
    (hrefl : ∀ e, frame e e) (htrans : ∀ a b c, frame a b → frame b c → frame a c)
    (hnext : ∀ e e1 n i j k, frame e e1 → get e1 n i j k = get e n i j k →
      next e1 n i j k = next e n i j k)
    (plane : Nat → Engine R T → Engine R T) (Q : Nat → Nat → Prop)
    (hplane : ∀ p0 e, Sweep get next frame (fun i j k => i = p0 ∧ Q j k) e (plane p0 e))
    (startX numX : Nat) (h : startX + numX ≤ UINT_RANGE) (e : Engine R T) :
    Sweep get next frame (fun i j k => (startX ≤ i ∧ i < startX + numX) ∧ Q j k) e
      (forLoop numX (fun _ (st : Nat × Engine R T) => (uinc st.1, plane st.1 st.2))
        (startX, e)).2 := by
  rw [(planeLoop_eq plane startX numX h e).1]
  have hd : ∀ m m1 i j k : Nat, (i = startX + m ∧ Q j k) → (i = startX + m1 ∧ Q j k) →
      m = m1 := by
    rintro m m1 i j k ⟨h0, _⟩ ⟨h1, _⟩
    omega
  have hs := Sweep.forLoop hrefl htrans hnext (fun m s => plane (startX + m) s)
    (fun m i j k => i = startX + m ∧ Q j k) (fun m e1 => hplane (startX + m) e1) hd numX e
  refine hs.congr ?_
  intro i j k
  constructor
  · rintro ⟨m, hm, h0, h1⟩
    exact ⟨⟨by omega, by omega⟩, h1⟩
  · rintro ⟨⟨h0, h0a⟩, h1⟩
    exact ⟨i - startX, by omega, by omega, h1⟩

/-! ## The voltage kernel -/

theorem voltFrame_refl (e : Engine R T) : voltFrame e e := ⟨rfl, rfl, rfl, rfl⟩

theorem voltFrame_trans (a b c : Engine R T) (h : voltFrame a b) (h1 : voltFrame b c) :
    voltFrame a c := by
  obtain ⟨h11, h12, h13, h14⟩ := h
  obtain ⟨h21, h22, h23, h24⟩ := h1
  exact ⟨h21.trans h11, h22.trans h12, h23.trans h13, h24.trans h14⟩

theorem voltNext_frame (op : Operator R T) (e e1 : Engine R T) (n i j k : Nat)
    (h : voltFrame e e1) (hv : e1.volt n i j k = e.volt n i j k) :
    voltNext op e1 n i j k = voltNext op e n i j k := by
  obtain ⟨_, hc, _, _⟩ := h
  unfold voltNext
  by_cases h0 : n = 0
  · subst h0
    simp only [if_true, hc, hv]
  by_cases h1 : n = 1
  · subst h1
    simp only [h0, if_false, if_true, hc, hv]
  by_cases h2 : n = 2
  · subst h2
    simp only [h0, h1, if_false, if_true, hc, hv]
  simp only [h0, h1, h2, if_false, hv]

theorem UpdateVoltages_cell_sweep (op : Operator R T) (p0 p1 p2 : Nat) (e : Engine R T) :
    Sweep Engine.volt (voltNext op) voltFrame (fun i j k => i = p0 ∧ j = p1 ∧ k = p2) e
      (UpdateVoltages_cell op p0 p1 p2 e) := by
  refine ⟨⟨rfl, rfl, rfl, rfl⟩, fun n i j k => ⟨?_, ?_⟩⟩
  · rintro ⟨rfl, rfl, rfl⟩
    by_cases h0 : n = 0
    · subst h0
      simp [UpdateVoltages_cell, setAt, voltNext]
    by_cases h1 : n = 1
    · subst h1
      simp [UpdateVoltages_cell, setAt, voltNext]
    by_cases h2 : n = 2
    · subst h2
      simp [UpdateVoltages_cell, setAt, voltNext]
    simp [UpdateVoltages_cell, setAt, voltNext, h0, h1, h2]
  · intro hP
    have hP1 : ∀ m : Nat, ¬ (n = m ∧ i = p0 ∧ j = p1 ∧ k = p2) := fun m hm => hP hm.2
    simp [UpdateVoltages_cell, setAt, hP1]

theorem UpdateVoltages_sweep (op : Operator R T) (startX numX : Nat)
    (h : startX + numX ≤ UINT_RANGE) (e : Engine R T) :
    Sweep Engine.volt (voltNext op) voltFrame
      (fun i j k => (startX ≤ i ∧ i < startX + numX) ∧ j < op.numLines 1 ∧ k < op.numLines 2) e
      (UpdateVoltages op startX numX e) :=
  planeLoop_sweep voltFrame_refl voltFrame_trans (voltNext_frame op) (UpdateVoltages_plane op)
    (fun j k => j < op.numLines 1 ∧ k < op.numLines 2)
    (fun p0 e1 => rowsLoop_sweep voltFrame_refl voltFrame_trans (voltNext_frame op)
      (UpdateVoltages_cell op) (UpdateVoltages_cell_sweep op) (op.numLines 1) (op.numLines 2)
      p0 e1)
    startX numX h e

/-- C1 (voltage kernel postcondition): for a slab with `xStart + xCount ≤ Nx`,
`UpdateVoltages(xStart, xCount)` leaves `curr` unchanged, leaves `volt` unchanged
at every `i` outside the slab, and inside the slab, for `j < Ny` and `k < Nz`, sets
the three components of `volt` to `vv * V + vi * (curl of I)` in terms of the
values before the call, where the neighbour index is shifted by one when the index
is positive and by zero otherwise. -/
theorem UpdateVoltages_postcondition (op : Operator R T) (e : Engine R T) (xStart xCount : Nat)
    (h : xStart + xCount ≤ op.numLines 0) :
    (UpdateVoltages op xStart xCount e).curr = e.curr ∧
    (∀ d i j k, ¬ (xStart ≤ i ∧ i < xStart + xCount) →
      (UpdateVoltages op xStart xCount e).volt d i j k = e.volt d i j k) ∧
    (∀ i j k, xStart ≤ i → i < xStart + xCount → j < op.numLines 1 → k < op.numLines 2 →
      (UpdateVoltages op xStart xCount e).volt 0 i j k =
          op.vv 0 i j k * e.volt 0 i j k + op.vi 0 i j k *
            (e.curr 2 i j k - e.curr 2 i (j - (if 0 < j then 1 else 0)) k
              - e.curr 1 i j k + e.curr 1 i j (k - (if 0 < k then 1 else 0))) ∧
      (UpdateVoltages op xStart xCount e).volt 1 i j k =
          op.vv 1 i j k * e.volt 1 i j k + op.vi 1 i j k *
            (e.curr 0 i j k - e.curr 0 i j (k - (if 0 < k then 1 else 0))
              - e.curr 2 i j k + e.curr 2 (i - (if 0 < i then 1 else 0)) j k) ∧
      (UpdateVoltages op xStart xCount e).volt 2 i j k =
          op.vv 2 i j k * e.volt 2 i j k + op.vi 2 i j k *
            (e.curr 1 i j k - e.curr 1 (i - (if 0 < i then 1 else 0)) j k
              - e.curr 0 i j k + e.curr 0 i (j - (if 0 < j then 1 else 0)) k)) := by
  have hU : xStart + xCount ≤ UINT_RANGE := le_trans h (Nat.le_of_lt (op.numLines_lt 0))
  obtain ⟨⟨_, hc, _, _⟩, hv⟩ := UpdateVoltages_sweep op xStart xCount hU e
  refine ⟨hc, fun d i j k hout => (hv d i j k).2 (fun hP => hout hP.1), ?_⟩
  intro i j k hi hi1 hj hk
  have hsh : ∀ x : Nat, x - (if 0 < x then 1 else 0) = x - 1 := by
    intro x
    split <;> omega
  have hiU : i < UINT_RANGE := lt_of_lt_of_le hi1 (le_trans h (Nat.le_of_lt (op.numLines_lt 0)))
  have hjU : j < UINT_RANGE := lt_trans hj (op.numLines_lt 1)
  have hkU : k < UINT_RANGE := lt_trans hk (op.numLines_lt 2)
  have hP : (xStart ≤ i ∧ i < xStart + xCount) ∧ j < op.numLines 1 ∧ k < op.numLines 2 :=
    ⟨⟨hi, hi1⟩, hj, hk⟩
  refine ⟨?_, ?_, ?_⟩
  · rw [(hv 0 i j k).1 hP]
    simp only [voltNext, hsh, usub_shiftOf hiU, usub_shiftOf hjU, usub_shiftOf hkU, if_true]
    ring
  · rw [(hv 1 i j k).1 hP]
    simp only [voltNext, hsh, usub_shiftOf hiU, usub_shiftOf hjU, usub_shiftOf hkU]
    simp
    ring
  · rw [(hv 2 i j k).1 hP]
    simp only [voltNext, hsh, usub_shiftOf hiU, usub_shiftOf hjU, usub_shiftOf hkU]
    simp
    ring

/-- Witness for C1 on the 4 x 4 x 4 grid, slab `[1, 3)`: the entry at `(1,1,1)` is
updated to `2 * 84 + 3 * (1019 - 1014 - 1016 + 1009)`, the entry at `(3,1,1)` outside
the slab is kept. -/
theorem UpdateVoltages_postcondition_witness :
    1 + 2 ≤ opGrid4.numLines 0 ∧
      (UpdateVoltages opGrid4 1 2 engGrid4).volt 0 1 1 1 = 162 ∧
      (UpdateVoltages opGrid4 1 2 engGrid4).volt 0 3 1 1 = engGrid4.volt 0 3 1 1 :=
  ⟨by decide,
    (((UpdateVoltages_postcondition opGrid4 engGrid4 1 2 (by decide)).2.2 1 1 1 (by decide)
      (by decide) (by decide) (by decide)).1).trans (by decide),
    (UpdateVoltages_postcondition opGrid4 engGrid4 1 2 (by decide)).2.1 0 3 1 1 (by decide)⟩

/-! ## The current kernel -/

theorem currFrame_refl (e : Engine R T) : currFrame e e := ⟨rfl, rfl, rfl, rfl⟩

theorem currFrame_trans (a b c : Engine R T) (h : currFrame a b) (h1 : currFrame b c) :
    currFrame a c := by
  obtain ⟨h11, h12, h13, h14⟩ := h
  obtain ⟨h21, h22, h23, h24⟩ := h1
  exact ⟨h21.trans h11, h22.trans h12, h23.trans h13, h24.trans h14⟩

theorem currNext_frame (op : Operator R T) (e e1 : Engine R T) (n i j k : Nat)
    (h : currFrame e e1) (hv : e1.curr n i j k = e.curr n i j k) :
    currNext op e1 n i j k = currNext op e n i j k := by
  obtain ⟨_, hc, _, _⟩ := h
  unfold currNext
  by_cases h0 : n = 0
  · subst h0
    simp only [if_true, hc, hv]
  by_cases h1 : n = 1
  · subst h1
    simp only [h0, if_false, if_true, hc, hv]
  by_cases h2 : n = 2
  · subst h2
    simp only [h0, h1, if_false, if_true, hc, hv]
  simp only [h0, h1, h2, if_false, hv]

theorem UpdateCurrents_cell_sweep (op : Operator R T) (p0 p1 p2 : Nat) (e : Engine R T) :
    Sweep Engine.curr (currNext op) currFrame (fun i j k => i = p0 ∧ j = p1 ∧ k = p2) e
      (UpdateCurrents_cell op p0 p1 p2 e) := by
  refine ⟨⟨rfl, rfl, rfl, rfl⟩, fun n i j k => ⟨?_, ?_⟩⟩
  · rintro ⟨rfl, rfl, rfl⟩
    by_cases h0 : n = 0
    · subst h0
      simp [UpdateCurrents_cell, setAt, currNext]
    by_cases h1 : n = 1
    · subst h1
      simp [UpdateCurrents_cell, setAt, currNext]
    by_cases h2 : n = 2
    · subst h2
      simp [UpdateCurrents_cell, setAt, currNext]
    simp [UpdateCurrents_cell, setAt, currNext, h0, h1, h2]
  · intro hP
    have hP1 : ∀ m : Nat, ¬ (n = m ∧ i = p0 ∧ j = p1 ∧ k = p2) := fun m hm => hP hm.2
    simp [UpdateCurrents_cell, setAt, hP1]

theorem UpdateCurrents_sweep (op : Operator R T) (startX numX : Nat)
    (h : startX + numX ≤ UINT_RANGE) (e : Engine R T) :
    Sweep Engine.curr (currNext op) currFrame
      (fun i j k => (startX ≤ i ∧ i < startX + numX) ∧
        j < usub (op.numLines 1) 1 ∧ k < usub (op.numLines 2) 1) e
      (UpdateCurrents op startX numX e) :=
  planeLoop_sweep currFrame_refl currFrame_trans (currNext_frame op) (UpdateCurrents_plane op)
    (fun j k => j < usub (op.numLines 1) 1 ∧ k < usub (op.numLines 2) 1)
    (fun p0 e1 => rowsLoop_sweep currFrame_refl currFrame_trans (currNext_frame op)
      (UpdateCurrents_cell op) (UpdateCurrents_cell_sweep op) (usub (op.numLines 1) 1)
      (usub (op.numLines 2) 1) p0 e1)
    startX numX h e

/-- C2 (current kernel postcondition): on a grid with `Nx, Ny, Nz ≥ 2` and for a
slab with `xStart + xCount ≤ Nx - 1`, `UpdateCurrents(xStart, xCount)` leaves `volt`
unchanged, leaves `curr` unchanged wherever `i` is outside the slab or `j ≥ Ny - 1`
or `k ≥ Nz - 1`, and inside the slab, for `j < Ny - 1` and `k < Nz - 1`, sets the
three components of `curr` to `ii * I + iv * (curl of V)` in terms of the values
before the call, the neighbours being read at `i+1`, `j+1`, `k+1`. -/
theorem UpdateCurrents_postcondition (op : Operator R T) (e : Engine R T) (xStart xCount : Nat)
    (hx : 2 ≤ op.numLines 0) (hy : 2 ≤ op.numLines 1) (hz : 2 ≤ op.numLines 2)
    (h : xStart + xCount ≤ op.numLines 0 - 1) :
    (UpdateCurrents op xStart xCount e).volt = e.volt ∧
    (∀ d i j k, ¬ (xStart ≤ i ∧ i < xStart + xCount) ∨ op.numLines 1 - 1 ≤ j ∨
        op.numLines 2 - 1 ≤ k →
      (UpdateCurrents op xStart xCount e).curr d i j k = e.curr d i j k) ∧
    (∀ i j k, xStart ≤ i → i < xStart + xCount → j < op.numLines 1 - 1 →
        k < op.numLines 2 - 1 →
      (UpdateCurrents op xStart xCount e).curr 0 i j k =
          op.ii 0 i j k * e.curr 0 i j k + op.iv 0 i j k *
            (e.volt 2 i j k - e.volt 2 i (j + 1) k - e.volt 1 i j k + e.volt 1 i j (k + 1)) ∧
      (UpdateCurrents op xStart xCount e).curr 1 i j k =
          op.ii 1 i j k * e.curr 1 i j k + op.iv 1 i j k *
            (e.volt 0 i j k - e.volt 0 i j (k + 1) - e.volt 2 i j k + e.volt 2 (i + 1) j k) ∧
      (UpdateCurrents op xStart xCount e).curr 2 i j k =
          op.ii 2 i j k * e.curr 2 i j k + op.iv 2 i j k *
            (e.volt 1 i j k - e.volt 1 (i + 1) j k - e.volt 0 i j k + e.volt 0 i (j + 1) k)) := by
  have hxU := op.numLines_lt 0
  have hyU := op.numLines_lt 1
  have hzU := op.numLines_lt 2
  have hU : xStart + xCount ≤ UINT_RANGE := by omega
  have hy1 : usub (op.numLines 1) 1 = op.numLines 1 - 1 := usub_one (by omega) hyU
  have hz1 : usub (op.numLines 2) 1 = op.numLines 2 - 1 := usub_one (by omega) hzU
  obtain ⟨⟨_, hc, _, _⟩, hv⟩ := UpdateCurrents_sweep op xStart xCount hU e
  rw [hy1, hz1] at hv
  refine ⟨hc, fun d i j k hout => (hv d i j k).2 (fun hP => ?_), ?_⟩
  · rcases hout with h1 | h1 | h1
    · exact h1 hP.1
    · exact absurd hP.2.1 (by omega)
    · exact absurd hP.2.2 (by omega)
  intro i j k hi hi1 hj hk
  have hiU : uinc i = i + 1 := uinc_of_lt (by omega)
  have hjU : uinc j = j + 1 := uinc_of_lt (by omega)
  have hkU : uinc k = k + 1 := uinc_of_lt (by omega)
  have hP : (xStart ≤ i ∧ i < xStart + xCount) ∧ j < op.numLines 1 - 1 ∧
      k < op.numLines 2 - 1 := ⟨⟨hi, hi1⟩, hj, hk⟩
  refine ⟨?_, ?_, ?_⟩
  · rw [(hv 0 i j k).1 hP]
    simp only [currNext, hiU, hjU, hkU, if_true]
    ring
  · rw [(hv 1 i j k).1 hP]
    simp only [currNext, hiU, hjU, hkU]
    simp
    ring
  · rw [(hv 2 i j k).1 hP]
    simp only [currNext, hiU, hjU, hkU]
    simp
    ring


/-- Witness for C2 on the 4 x 4 x 4 grid, slab `[0, 3)`: the entry of component 1 at
`(1,1,1)` is updated to `5 * 1016 + 7 * (84 - 148 - 86 + 90)`, the entry at `(1,3,1)`
on the high face is kept. -/
theorem UpdateCurrents_postcondition_witness :
    (2 ≤ opGrid4.numLines 0 ∧ 2 ≤ opGrid4.numLines 1 ∧ 2 ≤ opGrid4.numLines 2 ∧
      0 + 3 ≤ opGrid4.numLines 0 - 1) ∧
      (UpdateCurrents opGrid4 0 3 engGrid4).curr 1 1 1 1 = 4660 ∧
      (UpdateCurrents opGrid4 0 3 engGrid4).curr 1 1 3 1 = engGrid4.curr 1 1 3 1 :=
  ⟨by decide,
    (((UpdateCurrents_postcondition opGrid4 engGrid4 0 3 (by decide) (by decide) (by decide)
      (by decide)).2.2 1 1 1 (by decide) (by decide) (by decide) (by decide)).2.1).trans
      (by decide),
    (UpdateCurrents_postcondition opGrid4 engGrid4 0 3 (by decide) (by decide) (by decide)
      (by decide)).2.1 1 1 3 1 (by decide)⟩

/-! ## The iteration loop: event trace -/

theorem observe_trace (ev : Event) (f : Engine R T → Engine R T) (c : Run R T) :
    (observe ev f c).trace = c.trace ++ [ev] := rfl

theorem observe_eng (ev : Event) (f : Engine R T → Engine R T) (c : Run R T) :
    (observe ev f c).eng = f c.eng := rfl

theorem foldl_callHook_trace (h : Hook) (l : List (Engine_Extension R T)) (c : Run R T) :
    (l.foldl (fun s x => callHook h x s) c).trace = c.trace ++ hookCalls h l := by
  induction l generalizing c with
  | nil => simp [hookCalls]
  | cons x l ih =>
    rw [List.foldl_cons, ih]
    simp [callHook, observe, hookCalls]

theorem dispatchForward_trace (h : Hook) (l : List (Engine_Extension R T)) (c : Run R T) :
    (dispatchForward h l c).trace = c.trace ++ hookCalls h l :=
  foldl_callHook_trace h l c

theorem dispatchBackward_trace (h : Hook) (l : List (Engine_Extension R T)) (c : Run R T) :
    (dispatchBackward h l c).trace = c.trace ++ hookCalls h l.reverse :=
  foldl_callHook_trace h l.reverse c

theorem IterateTS_body_trace (op : Operator R T) (exts : List (Engine_Extension R T))
    (c : Run R T) :
    (IterateTS_body op exts c).trace = c.trace ++
      (hookCalls Hook.DoPreVoltageUpdates exts.reverse ++
        [Event.UpdateVoltages 0 (op.numLines 0)] ++
        hookCalls Hook.DoPostVoltageUpdates exts ++
        hookCalls Hook.Apply2Voltages exts ++
        [Event.ApplyVoltageExcite] ++
        hookCalls Hook.DoPreCurrentUpdates exts.reverse ++
        [Event.UpdateCurrents 0 (usub (op.numLines 0) 1)] ++
        hookCalls Hook.DoPostCurrentUpdates exts ++
        hookCalls Hook.Apply2Current exts ++
        [Event.ApplyCurrentExcite] ++
        [Event.incNumTS]) := by
  simp only [IterateTS_body, observe_trace, DoPreVoltageUpdates, DoPostVoltageUpdates,
    Apply2Voltages, DoPreCurrentUpdates, DoPostCurrentUpdates, Apply2Current,
    dispatchForward_trace, dispatchBackward_trace, List.append_assoc]

/-- C3 (fixed step sequence): from every configuration and for every `N`, the events
of `IterateTS(N)` are exactly `N` repetitions of: the `DoPreVoltageUpdates` hooks (last
extension first), `UpdateVoltages(0, Nx)`, the `DoPostVoltageUpdates` hooks, the
`Apply2Voltages` hooks, `ApplyVoltageExcite`, the `DoPreCurrentUpdates` hooks (last
extension first), `UpdateCurrents(0, Nx-1)` with the unsigned difference `Nx-1`, the
`DoPostCurrentUpdates` hooks, the `Apply2Current` hooks, `ApplyCurrentExcite`, the
increment of `numTS`, appended to the events observed before. -/
theorem IterateTS_trace (op : Operator R T) (exts : List (Engine_Extension R T)) (N : Nat)
    (c : Run R T) :
    (IterateTS op exts N c).2.trace = c.trace ++
      (List.replicate N
        (hookCalls Hook.DoPreVoltageUpdates exts.reverse ++
          [Event.UpdateVoltages 0 (op.numLines 0)] ++
          hookCalls Hook.DoPostVoltageUpdates exts ++
          hookCalls Hook.Apply2Voltages exts ++
          [Event.ApplyVoltageExcite] ++
          hookCalls Hook.DoPreCurrentUpdates exts.reverse ++
          [Event.UpdateCurrents 0 (usub (op.numLines 0) 1)] ++
          hookCalls Hook.DoPostCurrentUpdates exts ++
          hookCalls Hook.Apply2Current exts ++
          [Event.ApplyCurrentExcite] ++
          [Event.incNumTS])).flatten := by
  unfold IterateTS
  induction N with
  | zero => simp [forLoop]
  | succ N ih =>
    simp only [forLoop_succ] at ih ⊢
    rw [IterateTS_body_trace, ih, List.replicate_succ', List.flatten_append]
    simp only [List.flatten_cons, List.flatten_nil, List.append_nil, List.append_assoc]

/-! ## Soft excitation: the sample index -/

/-- In the active window of a source, and when `Length` fits into an `int`, the
sample index is `numTS - delay`. -/
theorem excPos_active {numTS delay Length : Nat} (hL : Length < 2147483648)
    (h1 : delay < numTS) (h2 : numTS ≤ delay + Length) :
    (excPos numTS delay Length).toNat = numTS - delay := by
  have h : excPos numTS delay Length = ((numTS - delay : Nat) : Int) := by
    simp only [excPos, toInt, wrapInt]
    split_ifs <;> omega
  rw [h]
  exact Int.toNat_ofNat _

/-- Outside the active window the mask sets the sample index to 0, provided the step
counter and `Length` are `unsigned int` values and the delay fits into an `int`. -/
theorem excPos_inactive {numTS delay Length : Nat} (hT : numTS < UINT_RANGE)
    (hD : delay < 2147483648) (hL : Length < UINT_RANGE)
    (h : ¬ (delay < numTS ∧ numTS ≤ delay + Length)) :
    (excPos numTS delay Length).toNat = 0 := by
  have h0 : excPos numTS delay Length = 0 := by
    simp only [UINT_RANGE] at hT hL
    simp only [excPos, toInt, wrapInt]
    split_ifs <;> omega
  rw [h0]
  rfl

/-! ## Soft excitation: the active window -/

theorem ApplyVoltageExcite_volt_single (op : Operator R T) (e : Engine R T)
    (h : op.Exc.Volt_Count = 1) :
    (ApplyVoltageExcite op e).volt = (ApplyVoltageExcite_source op 0 e).volt ∧
      (ApplyVoltageExcite op e).curr = e.curr := by
  unfold ApplyVoltageExcite
  rw [h]
  simp only [forLoop_succ, forLoop_zero]
  split <;> exact ⟨rfl, rfl⟩

theorem ApplyCurrentExcite_curr_single (op : Operator R T) (e : Engine R T)
    (h : op.Exc.Curr_Count = 1) :
    (ApplyCurrentExcite op e).curr = (ApplyCurrentExcite_source op 0 e).curr ∧
      (ApplyCurrentExcite op e).volt = e.volt := by
  unfold ApplyCurrentExcite
  rw [h]
  simp only [forLoop_succ, forLoop_zero]
  split <;> exact ⟨rfl, rfl⟩

/-- C4 as stated fails: with `Length = 2^31` the guard compares against
`(int)Length < 0`, so at step 1 a source without delay is masked and sample 0 (here 0)
is added instead of sample 1 (here 1). -/
theorem ApplyVoltageExcite_active_counterexample :
    opLong.Exc.Volt_delay 0 < (engAt 1).numTS ∧
      (engAt 1).numTS ≤ opLong.Exc.Volt_delay 0 + opLong.Exc.Length ∧
      (ApplyVoltageExcite opLong (engAt 1)).volt 1 2 2 2 = (engAt 1).volt 1 2 2 2 ∧
      (engAt 1).volt 1 2 2 2 + opLong.Exc.Volt_amp 0 *
        opLong.Exc.Signal_volt ((engAt 1).numTS - opLong.Exc.Volt_delay 0) =
          (engAt 1).volt 1 2 2 2 + 1 := by
  decide

/-- C4 (delay gating, active window), amended: when `Length ≤ 2^31 - 1`, for every
source `n` with `delay < numTS ≤ delay + Length` the step of `ApplyVoltageExcite` for
that source adds `amp * Signal_volt[numTS - delay]` to `volt[dir][ix][iy][iz]` and
changes nothing else; with a single source the whole call leaves exactly this value
in the cell, leaves every other entry of `volt` and all of `curr` unchanged.
`ApplyCurrentExcite` does the same on `curr` with the current sources and
`Signal_curr`. -/
theorem ApplyExcite_active (op : Operator R T) (e : Engine R T)
    (hL : op.Exc.Length < 2147483648) :
    (∀ n, op.Exc.Volt_delay n < e.numTS → e.numTS ≤ op.Exc.Volt_delay n + op.Exc.Length →
      ApplyVoltageExcite_source op n e =
        { e with
          volt := setAt e.volt (op.Exc.Volt_dir n) (op.Exc.Volt_index 0 n)
            (op.Exc.Volt_index 1 n) (op.Exc.Volt_index 2 n)
            (e.volt (op.Exc.Volt_dir n) (op.Exc.Volt_index 0 n) (op.Exc.Volt_index 1 n)
                (op.Exc.Volt_index 2 n)
              + op.Exc.Volt_amp n * op.Exc.Signal_volt (e.numTS - op.Exc.Volt_delay n)) }) ∧
    (op.Exc.Volt_Count = 1 → op.Exc.Volt_delay 0 < e.numTS →
        e.numTS ≤ op.Exc.Volt_delay 0 + op.Exc.Length →
      (ApplyVoltageExcite op e).curr = e.curr ∧
      ∀ d i j k, (ApplyVoltageExcite op e).volt d i j k =
        if d = op.Exc.Volt_dir 0 ∧ i = op.Exc.Volt_index 0 0 ∧ j = op.Exc.Volt_index 1 0 ∧
            k = op.Exc.Volt_index 2 0 then
          e.volt d i j k + op.Exc.Volt_amp 0 * op.Exc.Signal_volt (e.numTS - op.Exc.Volt_delay 0)
        else e.volt d i j k) ∧
    (∀ n, op.Exc.Curr_delay n < e.numTS → e.numTS ≤ op.Exc.Curr_delay n + op.Exc.Length →
      ApplyCurrentExcite_source op n e =
        { e with
          curr := setAt e.curr (op.Exc.Curr_dir n) (op.Exc.Curr_index 0 n)
            (op.Exc.Curr_index 1 n) (op.Exc.Curr_index 2 n)
            (e.curr (op.Exc.Curr_dir n) (op.Exc.Curr_index 0 n) (op.Exc.Curr_index 1 n)
                (op.Exc.Curr_index 2 n)
              + op.Exc.Curr_amp n * op.Exc.Signal_curr (e.numTS - op.Exc.Curr_delay n)) }) ∧
    (op.Exc.Curr_Count = 1 → op.Exc.Curr_delay 0 < e.numTS →
        e.numTS ≤ op.Exc.Curr_delay 0 + op.Exc.Length →
      (ApplyCurrentExcite op e).volt = e.volt ∧
      ∀ d i j k, (ApplyCurrentExcite op e).curr d i j k =
        if d = op.Exc.Curr_dir 0 ∧ i = op.Exc.Curr_index 0 0 ∧ j = op.Exc.Curr_index 1 0 ∧
            k = op.Exc.Curr_index 2 0 then
          e.curr d i j k + op.Exc.Curr_amp 0 * op.Exc.Signal_curr (e.numTS - op.Exc.Curr_delay 0)
        else e.curr d i j k) := by
  have hv : ∀ n, op.Exc.Volt_delay n < e.numTS →
      e.numTS ≤ op.Exc.Volt_delay n + op.Exc.Length →
      ApplyVoltageExcite_source op n e =
        { e with
          volt := setAt e.volt (op.Exc.Volt_dir n) (op.Exc.Volt_index 0 n)
            (op.Exc.Volt_index 1 n) (op.Exc.Volt_index 2 n)
            (e.volt (op.Exc.Volt_dir n) (op.Exc.Volt_index 0 n) (op.Exc.Volt_index 1 n)
                (op.Exc.Volt_index 2 n)
              + op.Exc.Volt_amp n * op.Exc.Signal_volt (e.numTS - op.Exc.Volt_delay n)) } := by
    intro n h1 h2
    simp only [ApplyVoltageExcite_source, SetVolt, GetVolt, excPos_active hL h1 h2]
  have hc : ∀ n, op.Exc.Curr_delay n < e.numTS →
      e.numTS ≤ op.Exc.Curr_delay n + op.Exc.Length →
      ApplyCurrentExcite_source op n e =
        { e with
          curr := setAt e.curr (op.Exc.Curr_dir n) (op.Exc.Curr_index 0 n)
            (op.Exc.Curr_index 1 n) (op.Exc.Curr_index 2 n)
            (e.curr (op.Exc.Curr_dir n) (op.Exc.Curr_index 0 n) (op.Exc.Curr_index 1 n)
                (op.Exc.Curr_index 2 n)
              + op.Exc.Curr_amp n * op.Exc.Signal_curr (e.numTS - op.Exc.Curr_delay n)) } := by
    intro n h1 h2
    simp only [ApplyCurrentExcite_source, SetCurr, GetCurr, excPos_active hL h1 h2]
  refine ⟨hv, ?_, hc, ?_⟩
  · intro h1 h2 h3
    obtain ⟨hvolt, hcurr⟩ := ApplyVoltageExcite_volt_single op e h1
    refine ⟨hcurr, fun d i j k => ?_⟩
    rw [hvolt, hv 0 h2 h3]
    simp only [setAt]
    split
    · next h => obtain ⟨rfl, rfl, rfl, rfl⟩ := h; rfl
    · rfl
  · intro h1 h2 h3
    obtain ⟨hcurr, hvolt⟩ := ApplyCurrentExcite_curr_single op e h1
    refine ⟨hvolt, fun d i j k => ?_⟩
    rw [hcurr, hc 0 h2 h3]
    simp only [setAt]
    split
    · next h => obtain ⟨rfl, rfl, rfl, rfl⟩ := h; rfl
    · rfl

/-- Witness for C4 in scenario S5 (delay 5, `Length = 3`) at step 7: the voltage source
adds `3 * Signal_volt[2] = 90` to the cell holding 169, the current source adds
`3 * Signal_curr[2] = 900` to the cell holding 1081. -/
theorem ApplyExcite_active_witness :
    (opS5.Exc.Length < 2147483648 ∧ opS5.Exc.Volt_Count = 1 ∧
      opS5.Exc.Volt_delay 0 < (engAt 7).numTS ∧
      (engAt 7).numTS ≤ opS5.Exc.Volt_delay 0 + opS5.Exc.Length) ∧
      (ApplyVoltageExcite opS5 (engAt 7)).volt 1 2 2 2 = 259 ∧
      (ApplyCurrentExcite opS5 (engAt 7)).curr 1 2 2 2 = 1981 :=
  ⟨by decide,
    (((ApplyExcite_active opS5 (engAt 7) (by decide)).2.1 (by decide) (by decide)
      (by decide)).2 1 2 2 2).trans (by decide),
    (((ApplyExcite_active opS5 (engAt 7) (by decide)).2.2.2 (by decide) (by decide)
      (by decide)).2 1 2 2 2).trans (by decide)⟩

/-! ## Soft excitation: outside the active window -/

theorem setAt_self {A : N_3DArray R} (n p0 p1 p2 : Nat) (v : R) :
    setAt A n p0 p1 p2 v n p0 p1 p2 = v := by
  simp [setAt]

/-- C5 as stated fails in scenario S5 (delay 5, `Length = 3`, amplitude 3, sample 0
equal to 10): at step 3, before the delay has passed, and at step 9, behind the
window, the call changes the source cell from 169 to 199. With the delay `2^32 - 1`,
which `(int)` converts to `-1`, the source is taken to be active at step 0 and
sample 1 is added. -/
theorem ApplyVoltageExcite_inactive_counterexample :
    ((engAt 3).numTS ≤ opS5.Exc.Volt_delay 0 ∧
      (engAt 3).volt 1 2 2 2 = 169 ∧
      (ApplyVoltageExcite opS5 (engAt 3)).volt 1 2 2 2 = 199) ∧
    (¬ (engAt 9).numTS ≤ opS5.Exc.Volt_delay 0 + opS5.Exc.Length ∧
      (engAt 9).volt 1 2 2 2 = 169 ∧
      (ApplyVoltageExcite opS5 (engAt 9)).volt 1 2 2 2 = 199) ∧
    ((engAt 0).numTS ≤ opLate.Exc.Volt_delay 0 ∧
      opLate.Exc.Volt_amp 0 * opLate.Exc.Signal_volt 0 = 0 ∧
      (engAt 0).volt 1 2 2 2 = 169 ∧
      (ApplyVoltageExcite opLate (engAt 0)).volt 1 2 2 2 = 170) := by
  decide

/-- C5 (delay gating, inactive source), amended: when the step counter and `Length`
are `unsigned int` values and the delay fits into an `int`, for every source `n` with
`numTS - delay` outside `(0, Length]` the step of `ApplyVoltageExcite` for that source
adds `amp * Signal_volt[0]` to `volt[dir][ix][iy][iz]` and changes nothing else, so
the cell is unchanged exactly when `amp * Signal_volt[0] = 0`. `ApplyCurrentExcite`
does the same on `curr` with `Signal_curr[0]`. -/
theorem ApplyExcite_inactive (op : Operator R T) (e : Engine R T)
    (hT : e.numTS < UINT_RANGE) (hL : op.Exc.Length < UINT_RANGE) :
    (∀ n, op.Exc.Volt_delay n < 2147483648 →
      ¬ (op.Exc.Volt_delay n < e.numTS ∧ e.numTS ≤ op.Exc.Volt_delay n + op.Exc.Length) →
      ApplyVoltageExcite_source op n e =
        { e with
          volt := setAt e.volt (op.Exc.Volt_dir n) (op.Exc.Volt_index 0 n)
            (op.Exc.Volt_index 1 n) (op.Exc.Volt_index 2 n)
            (e.volt (op.Exc.Volt_dir n) (op.Exc.Volt_index 0 n) (op.Exc.Volt_index 1 n)
                (op.Exc.Volt_index 2 n)
              + op.Exc.Volt_amp n * op.Exc.Signal_volt 0) } ∧
      ((ApplyVoltageExcite_source op n e).volt (op.Exc.Volt_dir n) (op.Exc.Volt_index 0 n)
            (op.Exc.Volt_index 1 n) (op.Exc.Volt_index 2 n) =
          e.volt (op.Exc.Volt_dir n) (op.Exc.Volt_index 0 n) (op.Exc.Volt_index 1 n)
            (op.Exc.Volt_index 2 n) ↔
        op.Exc.Volt_amp n * op.Exc.Signal_volt 0 = 0)) ∧
    (∀ n, op.Exc.Curr_delay n < 2147483648 →
      ¬ (op.Exc.Curr_delay n < e.numTS ∧ e.numTS ≤ op.Exc.Curr_delay n + op.Exc.Length) →
      ApplyCurrentExcite_source op n e =
        { e with
          curr := setAt e.curr (op.Exc.Curr_dir n) (op.Exc.Curr_index 0 n)
            (op.Exc.Curr_index 1 n) (op.Exc.Curr_index 2 n)
            (e.curr (op.Exc.Curr_dir n) (op.Exc.Curr_index 0 n) (op.Exc.Curr_index 1 n)
                (op.Exc.Curr_index 2 n)
              + op.Exc.Curr_amp n * op.Exc.Signal_curr 0) } ∧
      ((ApplyCurrentExcite_source op n e).curr (op.Exc.Curr_dir n) (op.Exc.Curr_index 0 n)
            (op.Exc.Curr_index 1 n) (op.Exc.Curr_index 2 n) =
          e.curr (op.Exc.Curr_dir n) (op.Exc.Curr_index 0 n) (op.Exc.Curr_index 1 n)
            (op.Exc.Curr_index 2 n) ↔
        op.Exc.Curr_amp n * op.Exc.Signal_curr 0 = 0)) := by
  constructor
  · intro n hD h
    have hpos := excPos_inactive hT hD hL h
    refine ⟨by simp only [ApplyVoltageExcite_source, SetVolt, GetVolt, hpos], ?_⟩
    simp only [ApplyVoltageExcite_source, SetVolt, GetVolt, hpos, setAt_self]
    exact add_right_eq_self
  · intro n hD h
    have hpos := excPos_inactive hT hD hL h
    refine ⟨by simp only [ApplyCurrentExcite_source, SetCurr, GetCurr, hpos], ?_⟩
    simp only [ApplyCurrentExcite_source, SetCurr, GetCurr, hpos, setAt_self]
    exact add_right_eq_self

/-- Witness for the amended C5 in scenario S5 at step 3: the step for the voltage
source leaves `169 + 3 * 10` in the source cell. -/
theorem ApplyExcite_inactive_witness :
    ((engAt 3).numTS < UINT_RANGE ∧ opS5.Exc.Length < UINT_RANGE ∧
      opS5.Exc.Volt_delay 0 < 2147483648 ∧
      ¬ (opS5.Exc.Volt_delay 0 < (engAt 3).numTS ∧
        (engAt 3).numTS ≤ opS5.Exc.Volt_delay 0 + opS5.Exc.Length)) ∧
      (ApplyVoltageExcite_source opS5 0 (engAt 3)).volt 1 2 2 2 = 199 :=
  ⟨by decide,
    (congrArg (fun s => s.volt 1 2 2 2)
      (((ApplyExcite_inactive opS5 (engAt 3) (by decide) (by decide)).1 0 (by decide)
        (by decide)).1)).trans (by decide)⟩

/-! ## Sorting the extensions -/

theorem stable_insert_perm {α : Type} (comp : α → α → Bool) (a : α) (l : List α) :
    (stable_insert comp a l).Perm (a :: l) := by
  induction l with
  | nil => exact List.Perm.refl _
  | cons b l ih =>
    unfold stable_insert
    split
    · exact (List.Perm.cons b ih).trans (List.Perm.swap a b l)
    · exact List.Perm.refl _

theorem stable_sort_perm {α : Type} (comp : α → α → Bool) (l : List α) :
    (stable_sort comp l).Perm l := by
  induction l with
  | nil => exact List.Perm.refl _
  | cons a l ih =>
    unfold stable_sort
    exact (stable_insert_perm comp a _).trans (List.Perm.cons a ih)

/-- Insertion never reorders the elements that are already there. -/
theorem sublist_stable_insert {α : Type} (comp : α → α → Bool) (a : α) (l : List α) :
    l <+ stable_insert comp a l := by
  induction l with
  | nil => exact List.nil_sublist _
  | cons b l ih =>
    unfold stable_insert
    split
    · exact List.Sublist.cons₂ b ih
    · exact List.Sublist.cons a (List.Sublist.refl _)

/-- The inserted element lands in front of every element that is not less than it. -/
theorem cons_sublist_stable_insert {α : Type} (comp : α → α → Bool) (a : α) {c l : List α}
    (hc : c <+ l) (ha : ∀ x ∈ c, comp x a = false) : a :: c <+ stable_insert comp a l := by
  induction l generalizing c with
  | nil =>
    rw [List.sublist_nil.mp hc]
    exact List.Sublist.refl _
  | cons b l ih =>
    unfold stable_insert
    split
    · next hba =>
      cases hc with
      | cons _ h => exact List.Sublist.cons b (ih h ha)
      | cons₂ _ h =>
        have := ha b (List.mem_cons_self _ _)
        rw [hba] at this
        exact absurd this (by decide)
    · exact List.Sublist.cons₂ a hc

/-- Stability of `stable_sort`: a subsequence of the input that is already in
non-descending order is a subsequence of the output. -/
theorem sublist_stable_sort {α : Type} (comp : α → α → Bool) {c l : List α}
    (hr : c.Pairwise (fun x y => comp y x = false)) (hc : c <+ l) :
    c <+ stable_sort comp l := by
  induction l generalizing c with
  | nil =>
    rw [List.sublist_nil.mp hc]
    exact List.Sublist.refl _
  | cons a l ih =>
    unfold stable_sort
    cases hc with
    | cons _ h => exact (ih hr h).trans (sublist_stable_insert comp a _)
    | cons₂ _ h =>
      obtain ⟨h1, h2⟩ := List.pairwise_cons.mp hr
      exact cons_sublist_stable_insert comp a (ih h2 h) h1

theorem CompareExtensions_eq_true (i j : Engine_Extension R T) :
    CompareExtensions i j = true ↔ i.priority < j.priority := by
  simp [CompareExtensions]

theorem CompareExtensions_eq_false (i j : Engine_Extension R T) :
    CompareExtensions i j = false ↔ j.priority ≤ i.priority := by
  simp [CompareExtensions]

theorem stable_insert_sorted (a : Engine_Extension R T) (l : List (Engine_Extension R T))
    (h : l.Pairwise (fun x y => x.priority ≤ y.priority)) :
    (stable_insert CompareExtensions a l).Pairwise (fun x y => x.priority ≤ y.priority) := by
  induction l with
  | nil => exact List.pairwise_singleton _ _
  | cons b l ih =>
    obtain ⟨h1, h2⟩ := List.pairwise_cons.mp h
    unfold stable_insert
    split
    · next hba =>
      refine List.pairwise_cons.mpr ⟨fun y hy => ?_, ih h2⟩
      rcases List.mem_cons.mp ((stable_insert_perm _ a l).mem_iff.mp hy) with rfl | hy
      · exact le_of_lt ((CompareExtensions_eq_true b y).mp hba)
      · exact h1 y hy
    · next hba =>
      have hab : a.priority ≤ b.priority :=
        (CompareExtensions_eq_false b a).mp (by simpa using hba)
      refine List.pairwise_cons.mpr ⟨fun y hy => ?_, h⟩
      rcases List.mem_cons.mp hy with rfl | hy
      · exact hab
      · exact le_trans hab (h1 y hy)

theorem stable_sort_sorted (l : List (Engine_Extension R T)) :
    (stable_sort CompareExtensions l).Pairwise (fun x y => x.priority ≤ y.priority) := by
  induction l with
  | nil => exact List.Pairwise.nil
  | cons a l ih =>
    unfold stable_sort
    exact stable_insert_sorted a _ ih

/-- Two different members of a list occur in it in one of the two orders. -/
theorem pair_sublist_of_mem {α : Type} {a b : α} {l : List α} (ha : a ∈ l) (hb : b ∈ l)
    (hab : a ≠ b) : [a, b] <+ l ∨ [b, a] <+ l := by
  induction l with
  | nil => exact absurd ha (List.not_mem_nil a)
  | cons x t ih =>
    rcases List.mem_cons.mp ha with rfl | ha1
    · rcases List.mem_cons.mp hb with rfl | hb1
      · exact absurd rfl hab
      · exact Or.inl (List.Sublist.cons₂ _ (List.singleton_sublist.mpr hb1))
    · rcases List.mem_cons.mp hb with rfl | hb1
      · exact Or.inr (List.Sublist.cons₂ _ (List.singleton_sublist.mpr ha1))
      · rcases ih ha1 hb1 with h | h
        · exact Or.inl (List.Sublist.cons x h)
        · exact Or.inr (List.Sublist.cons x h)

theorem SortExtensionByPriority_perm (exts : List (Engine_Extension R T)) :
    (SortExtensionByPriority exts).Perm exts :=
  (List.reverse_perm _).trans (stable_sort_perm _ exts)

theorem SortExtensionByPriority_sorted (exts : List (Engine_Extension R T)) :
    (SortExtensionByPriority exts).Pairwise (fun a b => b.priority ≤ a.priority) := by
  unfold SortExtensionByPriority
  exact List.pairwise_reverse.mpr (stable_sort_sorted exts)

theorem hookCalls_sublist (h : Hook) {l l1 : List (Engine_Extension R T)} (hl : l <+ l1) :
    hookCalls h l <+ hookCalls h l1 :=
  List.Sublist.map _ hl

/-- C6 (priority ordering of hooks): after `SortExtensionByPriority` the stored list is
a permutation of the registered list in non-increasing priority order; the four
post and apply hooks call the stored extensions from first to last and the two pre
hooks from last to first; hence for registered extensions `e1`, `e2` with
`e1.priority > e2.priority` the stored list has `e1` before `e2` and not `e2` before
`e1`, every post and apply hook calls `e1` before `e2`, and every pre hook calls `e2`
before `e1`. -/
theorem SortExtensionByPriority_priority_order (exts : List (Engine_Extension R T))
    (c : Run R T) :
    (SortExtensionByPriority exts).Perm exts ∧
    (SortExtensionByPriority exts).Pairwise (fun a b => b.priority ≤ a.priority) ∧
    ((DoPostVoltageUpdates (SortExtensionByPriority exts) c).trace =
        c.trace ++ hookCalls Hook.DoPostVoltageUpdates (SortExtensionByPriority exts) ∧
      (Apply2Voltages (SortExtensionByPriority exts) c).trace =
        c.trace ++ hookCalls Hook.Apply2Voltages (SortExtensionByPriority exts) ∧
      (DoPostCurrentUpdates (SortExtensionByPriority exts) c).trace =
        c.trace ++ hookCalls Hook.DoPostCurrentUpdates (SortExtensionByPriority exts) ∧
      (Apply2Current (SortExtensionByPriority exts) c).trace =
        c.trace ++ hookCalls Hook.Apply2Current (SortExtensionByPriority exts) ∧
      (DoPreVoltageUpdates (SortExtensionByPriority exts) c).trace =
        c.trace ++ hookCalls Hook.DoPreVoltageUpdates (SortExtensionByPriority exts).reverse ∧
      (DoPreCurrentUpdates (SortExtensionByPriority exts) c).trace =
        c.trace ++ hookCalls Hook.DoPreCurrentUpdates (SortExtensionByPriority exts).reverse) ∧
    (∀ e1 e2, e1 ∈ exts → e2 ∈ exts → e2.priority < e1.priority →
      [e1, e2] <+ SortExtensionByPriority exts ∧
      ¬ [e2, e1] <+ SortExtensionByPriority exts ∧
      (∀ h, [Event.hook h e1.id, Event.hook h e2.id] <+
        hookCalls h (SortExtensionByPriority exts)) ∧
      (∀ h, [Event.hook h e2.id, Event.hook h e1.id] <+
        hookCalls h (SortExtensionByPriority exts).reverse)) := by
  refine ⟨SortExtensionByPriority_perm exts, SortExtensionByPriority_sorted exts,
    ⟨dispatchForward_trace _ _ c, dispatchForward_trace _ _ c, dispatchForward_trace _ _ c,
      dispatchForward_trace _ _ c, dispatchBackward_trace _ _ c,
      dispatchBackward_trace _ _ c⟩, ?_⟩
  intro e1 e2 h1 h2 hp
  have hm1 : e1 ∈ SortExtensionByPriority exts :=
    (SortExtensionByPriority_perm exts).mem_iff.mpr h1
  have hm2 : e2 ∈ SortExtensionByPriority exts :=
    (SortExtensionByPriority_perm exts).mem_iff.mpr h2
  have hne : e1 ≠ e2 := by
    rintro rfl
    exact lt_irrefl _ hp
  have hnot : ¬ [e2, e1] <+ SortExtensionByPriority exts := by
    intro hsub
    have hpair := (SortExtensionByPriority_sorted exts).sublist hsub
    have hle : e1.priority ≤ e2.priority := by
      simpa using hpair
    exact absurd hp (not_lt.mpr hle)
  have hsub : [e1, e2] <+ SortExtensionByPriority exts := by
    rcases pair_sublist_of_mem hm1 hm2 hne with h | h
    · exact h
    · exact absurd h hnot
  refine ⟨hsub, hnot, fun h => ?_, fun h => ?_⟩
  · exact hookCalls_sublist h hsub
  · have hrev : [e2, e1] <+ (SortExtensionByPriority exts).reverse := by
      simpa using hsub.reverse
    exact hookCalls_sublist h hrev

/-- Witness for C6 in scenario S3: extension 0 (priority 10) and extension 1
(priority 5) are registered, and `DoPostVoltageUpdates` calls extension 0 before
extension 1. -/
theorem SortExtensionByPriority_priority_order_witness :
    (trivialExt 0 10 ∈ extsS3 ∧ trivialExt 1 5 ∈ extsS3 ∧
      (trivialExt 1 5).priority < (trivialExt 0 10).priority) ∧
      [Event.hook Hook.DoPostVoltageUpdates 0, Event.hook Hook.DoPostVoltageUpdates 1] <+
        hookCalls Hook.DoPostVoltageUpdates (SortExtensionByPriority extsS3) :=
  ⟨⟨List.mem_cons_self _ _, List.mem_cons_of_mem _ (List.mem_cons_self _ _), by decide⟩,
    ((SortExtensionByPriority_priority_order extsS3 runGrid4).2.2.2 (trivialExt 0 10)
      (trivialExt 1 5) (List.mem_cons_self _ _)
      (List.mem_cons_of_mem _ (List.mem_cons_self _ _)) (by decide)).2.2.1
      Hook.DoPostVoltageUpdates⟩

/-- C7 as stated fails in scenario S3 (priorities 10, 5, 10): `DoPostVoltageUpdates`
calls the extensions in the order 2, 0, 1 and not 0, 2, 1, `DoPreVoltageUpdates` in
the order 1, 0, 2 and not 1, 2, 0. -/
theorem SortExtensionByPriority_ties_counterexample :
    ((DoPostVoltageUpdates (SortExtensionByPriority extsS3) runGrid4).trace =
        [Event.hook Hook.DoPostVoltageUpdates 2, Event.hook Hook.DoPostVoltageUpdates 0,
          Event.hook Hook.DoPostVoltageUpdates 1] ∧
      (DoPostVoltageUpdates (SortExtensionByPriority extsS3) runGrid4).trace ≠
        [Event.hook Hook.DoPostVoltageUpdates 0, Event.hook Hook.DoPostVoltageUpdates 2,
          Event.hook Hook.DoPostVoltageUpdates 1]) ∧
    ((DoPreVoltageUpdates (SortExtensionByPriority extsS3) runGrid4).trace =
        [Event.hook Hook.DoPreVoltageUpdates 1, Event.hook Hook.DoPreVoltageUpdates 0,
          Event.hook Hook.DoPreVoltageUpdates 2] ∧
      (DoPreVoltageUpdates (SortExtensionByPriority extsS3) runGrid4).trace ≠
        [Event.hook Hook.DoPreVoltageUpdates 1, Event.hook Hook.DoPreVoltageUpdates 2,
          Event.hook Hook.DoPreVoltageUpdates 0]) := by
  decide

/-- C7 (ties), amended: after `SortExtensionByPriority` two extensions of equal
priority appear in the stored list in the reverse of their registration order (the
stable sort keeps the registration order, the reversal that follows inverts it); so
every post and apply hook calls the later registered one first and every pre hook
calls the earlier registered one first. -/
theorem SortExtensionByPriority_ties (exts : List (Engine_Extension R T))
    (e1 e2 : Engine_Extension R T) (hreg : [e1, e2] <+ exts)
    (hp : e1.priority = e2.priority) :
    [e2, e1] <+ SortExtensionByPriority exts ∧
    (∀ h, [Event.hook h e2.id, Event.hook h e1.id] <+
      hookCalls h (SortExtensionByPriority exts)) ∧
    (∀ h, [Event.hook h e1.id, Event.hook h e2.id] <+
      hookCalls h (SortExtensionByPriority exts).reverse) := by
  have hr : [e1, e2].Pairwise (fun x y => CompareExtensions y x = false) := by
    refine List.pairwise_pair.mpr ?_
    exact (CompareExtensions_eq_false e2 e1).mpr (le_of_eq hp)
  have hs : [e1, e2] <+ stable_sort CompareExtensions exts :=
    sublist_stable_sort CompareExtensions hr hreg
  have hrev : [e2, e1] <+ SortExtensionByPriority exts := by
    unfold SortExtensionByPriority
    simpa using hs.reverse
  refine ⟨hrev, fun h => hookCalls_sublist h hrev, fun h => ?_⟩
  have : [e1, e2] <+ (SortExtensionByPriority exts).reverse := by
    unfold SortExtensionByPriority
    simpa using hs
  exact hookCalls_sublist h this

/-- Witness for the amended C7 in scenario S3: extension 0 is registered before
extension 2, both with priority 10, and `DoPostVoltageUpdates` calls extension 2 before
extension 0. -/
theorem SortExtensionByPriority_ties_witness :
    ([trivialExt 0 10, trivialExt 2 10] <+ extsS3 ∧
      (trivialExt 0 10).priority = (trivialExt 2 10).priority) ∧
      [Event.hook Hook.DoPostVoltageUpdates 2, Event.hook Hook.DoPostVoltageUpdates 0] <+
        hookCalls Hook.DoPostVoltageUpdates (SortExtensionByPriority extsS3) :=
  ⟨⟨List.Sublist.cons₂ _ (List.Sublist.cons _ (List.Sublist.refl _)), rfl⟩,
    (SortExtensionByPriority_ties extsS3 (trivialExt 0 10) (trivialExt 2 10)
      (List.Sublist.cons₂ _ (List.Sublist.cons _ (List.Sublist.refl _))) rfl).2.1
      Hook.DoPostVoltageUpdates⟩

/-! ## The iteration loop: step counter -/

theorem usub_lt (a b : Nat) : usub a b < UINT_RANGE := by
  unfold usub
  exact Nat.mod_lt _ (by simp [UINT_RANGE])

theorem UpdateVoltages_frame (op : Operator R T) (e : Engine R T) :
    voltFrame e (UpdateVoltages op 0 (op.numLines 0) e) :=
  (UpdateVoltages_sweep op 0 (op.numLines 0)
    (by rw [Nat.zero_add]; exact Nat.le_of_lt (op.numLines_lt 0)) e).1

theorem UpdateCurrents_frame (op : Operator R T) (e : Engine R T) :
    currFrame e (UpdateCurrents op 0 (usub (op.numLines 0) 1) e) :=
  (UpdateCurrents_sweep op 0 (usub (op.numLines 0) 1)
    (by rw [Nat.zero_add]; exact Nat.le_of_lt (usub_lt _ _)) e).1

theorem ApplyVoltageExcite_frame (op : Operator R T) (e : Engine R T) :
    (ApplyVoltageExcite op e).numTS = e.numTS ∧ (ApplyVoltageExcite op e).curr = e.curr := by
  have h := forLoop_invariant (fun s : Engine R T => s.numTS = e.numTS ∧ s.curr = e.curr)
    (fun n s => ApplyVoltageExcite_source op n s) (fun n s hs => hs) op.Exc.Volt_Count e
    ⟨rfl, rfl⟩
  simp only [ApplyVoltageExcite]
  split <;> exact h

theorem ApplyCurrentExcite_frame (op : Operator R T) (e : Engine R T) :
    (ApplyCurrentExcite op e).numTS = e.numTS ∧ (ApplyCurrentExcite op e).volt = e.volt := by
  have h := forLoop_invariant (fun s : Engine R T => s.numTS = e.numTS ∧ s.volt = e.volt)
    (fun n s => ApplyCurrentExcite_source op n s) (fun n s hs => hs) op.Exc.Curr_Count e
    ⟨rfl, rfl⟩
  simp only [ApplyCurrentExcite]
  split <;> exact h

theorem foldl_callHook_numTS (h : Hook) (l : List (Engine_Extension R T))
    (hl : ∀ x ∈ l, ∀ (g : Hook) (e : Engine R T), (x.hookFn g e).numTS = e.numTS)
    (c : Run R T) : (l.foldl (fun s x => callHook h x s) c).eng.numTS = c.eng.numTS := by
  induction l generalizing c with
  | nil => rfl
  | cons x l ih =>
    rw [List.foldl_cons, ih (fun y hy => hl y (List.mem_cons_of_mem _ hy))]
    exact hl x (List.mem_cons_self _ _) h c.eng

theorem dispatchForward_numTS (h : Hook) (l : List (Engine_Extension R T))
    (hl : ∀ x ∈ l, ∀ (g : Hook) (e : Engine R T), (x.hookFn g e).numTS = e.numTS)
    (c : Run R T) : (dispatchForward h l c).eng.numTS = c.eng.numTS :=
  foldl_callHook_numTS h l hl c

theorem dispatchBackward_numTS (h : Hook) (l : List (Engine_Extension R T))
    (hl : ∀ x ∈ l, ∀ (g : Hook) (e : Engine R T), (x.hookFn g e).numTS = e.numTS)
    (c : Run R T) : (dispatchBackward h l c).eng.numTS = c.eng.numTS :=
  foldl_callHook_numTS h l.reverse (fun x hx => hl x (List.mem_reverse.mp hx)) c

theorem IterateTS_body_numTS (op : Operator R T) (exts : List (Engine_Extension R T))
    (hl : ∀ x ∈ exts, ∀ (g : Hook) (e : Engine R T), (x.hookFn g e).numTS = e.numTS)
    (c : Run R T) : (IterateTS_body op exts c).eng.numTS = uinc c.eng.numTS := by
  simp only [IterateTS_body, observe_eng, incNumTS, DoPreVoltageUpdates, DoPostVoltageUpdates,
    Apply2Voltages, DoPreCurrentUpdates, DoPostCurrentUpdates, Apply2Current]
  rw [(ApplyCurrentExcite_frame op _).1, dispatchForward_numTS _ _ hl,
    dispatchForward_numTS _ _ hl, observe_eng, (UpdateCurrents_frame op _).1,
    dispatchBackward_numTS _ _ hl, observe_eng, (ApplyVoltageExcite_frame op _).1,
    dispatchForward_numTS _ _ hl, dispatchForward_numTS _ _ hl, observe_eng,
    (UpdateVoltages_frame op _).1, dispatchBackward_numTS _ _ hl]

theorem IterateTS_loop_numTS (op : Operator R T) (exts : List (Engine_Extension R T))
    (N : Nat) (c : Run R T)
    (hl : ∀ x ∈ exts, ∀ (g : Hook) (e : Engine R T), (x.hookFn g e).numTS = e.numTS)
    (hN : c.eng.numTS + N < UINT_RANGE) :
    (forLoop N (fun _ s => IterateTS_body op exts s) c).eng.numTS = c.eng.numTS + N := by
  induction N with
  | zero => rfl
  | succ N ih =>
    simp only [forLoop_succ] at ih ⊢
    rw [IterateTS_body_numTS op exts hl, ih (by omega)]
    exact uinc_of_lt hN

/-- C8 (step monotonicity): when no hook of a registered extension changes the step
counter and `numTS + N` is below `2^32`, `IterateTS(N)` returns `true` and leaves the
step counter at `numTS + N`. -/
theorem IterateTS_numTS (op : Operator R T) (exts : List (Engine_Extension R T)) (N : Nat)
    (c : Run R T)
    (hl : ∀ x ∈ exts, ∀ (g : Hook) (e : Engine R T), (x.hookFn g e).numTS = e.numTS)
    (hN : c.eng.numTS + N < UINT_RANGE) :
    (IterateTS op exts N c).1 = true ∧
      (IterateTS op exts N c).2.eng.numTS = c.eng.numTS + N :=
  ⟨rfl, IterateTS_loop_numTS op exts N c hl hN⟩

theorem trivialExt_numTS (x : Engine_Extension Int Rat) (hx : x ∈ extsS3) (g : Hook)
    (e : Engine Int Rat) : (x.hookFn g e).numTS = e.numTS := by
  simp only [extsS3, List.mem_cons, List.mem_singleton, List.not_mem_nil, or_false] at hx
  rcases hx with rfl | rfl | rfl <;> cases g <;> rfl

/-- Witness for C8: ten iterations on the 4 x 4 x 4 grid with the three trivial
extensions of scenario S3, starting at step 0, end at step 10. -/
theorem IterateTS_numTS_witness :
    ((∀ x ∈ extsS3, ∀ (g : Hook) (e : Engine Int Rat), (x.hookFn g e).numTS = e.numTS) ∧
      runGrid4.eng.numTS + 10 < UINT_RANGE) ∧
      (IterateTS opGrid4 extsS3 10 runGrid4).1 = true ∧
      (IterateTS opGrid4 extsS3 10 runGrid4).2.eng.numTS = 10 :=
  ⟨⟨trivialExt_numTS, by decide⟩,
    (IterateTS_numTS opGrid4 extsS3 10 runGrid4 trivialExt_numTS (by decide)).1,
    (IterateTS_numTS opGrid4 extsS3 10 runGrid4 trivialExt_numTS (by decide)).2⟩

/-! ## The iteration loop without extensions -/

theorem IterateTS_body_nil_eng (op : Operator R T) (c : Run R T) :
    (IterateTS_body op [] c).eng =
      incNumTS (ApplyCurrentExcite op (UpdateCurrents op 0 (usub (op.numLines 0) 1)
        (ApplyVoltageExcite op (UpdateVoltages op 0 (op.numLines 0) c.eng)))) := by
  simp only [IterateTS_body, DoPreVoltageUpdates, DoPostVoltageUpdates, Apply2Voltages,
    DoPreCurrentUpdates, DoPostCurrentUpdates, Apply2Current, dispatchForward,
    dispatchBackward, List.reverse_nil, List.foldl_nil, observe_eng]

/-! ## Zero fields stay zero -/

theorem voltNext_zero (op : Operator R T) (e : Engine R T) (hz : FieldsZero e)
    (n i j k : Nat) : voltNext op e n i j k = 0 := by
  unfold voltNext
  simp only [hz.1, hz.2]
  split_ifs <;> simp

theorem currNext_zero (op : Operator R T) (e : Engine R T) (hz : FieldsZero e)
    (n i j k : Nat) : currNext op e n i j k = 0 := by
  unfold currNext
  simp only [hz.1, hz.2]
  split_ifs <;> simp

theorem UpdateVoltages_cell_zero (op : Operator R T) (p0 p1 p2 : Nat) (e : Engine R T)
    (hz : FieldsZero e) : FieldsZero (UpdateVoltages_cell op p0 p1 p2 e) := by
  obtain ⟨⟨_, hc, _, _⟩, hv⟩ := UpdateVoltages_cell_sweep op p0 p1 p2 e
  refine ⟨fun n i j k => ?_, fun n i j k => by rw [hc]; exact hz.2 n i j k⟩
  by_cases hP : i = p0 ∧ j = p1 ∧ k = p2
  · rw [(hv n i j k).1 hP]
    exact voltNext_zero op e hz n i j k
  · rw [(hv n i j k).2 hP]
    exact hz.1 n i j k

theorem UpdateCurrents_cell_zero (op : Operator R T) (p0 p1 p2 : Nat) (e : Engine R T)
    (hz : FieldsZero e) : FieldsZero (UpdateCurrents_cell op p0 p1 p2 e) := by
  obtain ⟨⟨_, hc, _, _⟩, hv⟩ := UpdateCurrents_cell_sweep op p0 p1 p2 e
  refine ⟨fun n i j k => by rw [hc]; exact hz.1 n i j k, fun n i j k => ?_⟩
  by_cases hP : i = p0 ∧ j = p1 ∧ k = p2
  · rw [(hv n i j k).1 hP]
    exact currNext_zero op e hz n i j k
  · rw [(hv n i j k).2 hP]
    exact hz.2 n i j k

theorem UpdateVoltages_zero (op : Operator R T) (startX numX : Nat) (e : Engine R T)
    (hz : FieldsZero e) : FieldsZero (UpdateVoltages op startX numX e) :=
  planeLoop_invariant FieldsZero (UpdateVoltages_plane op)
    (fun p0 e1 h1 => rowsLoop_invariant FieldsZero (UpdateVoltages_cell op)
      (UpdateVoltages_cell_zero op) (op.numLines 1) (op.numLines 2) p0 e1 h1)
    startX numX e hz

theorem UpdateCurrents_zero (op : Operator R T) (startX numX : Nat) (e : Engine R T)
    (hz : FieldsZero e) : FieldsZero (UpdateCurrents op startX numX e) :=
  planeLoop_invariant FieldsZero (UpdateCurrents_plane op)
    (fun p0 e1 h1 => rowsLoop_invariant FieldsZero (UpdateCurrents_cell op)
      (UpdateCurrents_cell_zero op) (usub (op.numLines 1) 1) (usub (op.numLines 2) 1) p0 e1 h1)
    startX numX e hz

theorem ApplyVoltageExcite_none (op : Operator R T) (e : Engine R T)
    (h : op.Exc.Volt_Count = 0) :
    (ApplyVoltageExcite op e).volt = e.volt ∧ (ApplyVoltageExcite op e).curr = e.curr := by
  simp only [ApplyVoltageExcite, h, forLoop_zero]
  split <;> exact ⟨rfl, rfl⟩

theorem ApplyCurrentExcite_none (op : Operator R T) (e : Engine R T)
    (h : op.Exc.Curr_Count = 0) :
    (ApplyCurrentExcite op e).volt = e.volt ∧ (ApplyCurrentExcite op e).curr = e.curr := by
  simp only [ApplyCurrentExcite, h, forLoop_zero]
  split <;> exact ⟨rfl, rfl⟩

theorem IterateTS_body_zero (op : Operator R T) (c : Run R T)
    (hV : op.Exc.Volt_Count = 0) (hI : op.Exc.Curr_Count = 0) (hz : FieldsZero c.eng) :
    FieldsZero (IterateTS_body op [] c).eng := by
  rw [IterateTS_body_nil_eng]
  have h1 := UpdateVoltages_zero op 0 (op.numLines 0) c.eng hz
  have h2 : FieldsZero (ApplyVoltageExcite op (UpdateVoltages op 0 (op.numLines 0) c.eng)) := by
    obtain ⟨hv, hc⟩ := ApplyVoltageExcite_none op (UpdateVoltages op 0 (op.numLines 0) c.eng) hV
    exact ⟨fun n i j k => by rw [hv]; exact h1.1 n i j k,
      fun n i j k => by rw [hc]; exact h1.2 n i j k⟩
  have h3 := UpdateCurrents_zero op 0 (usub (op.numLines 0) 1) _ h2
  obtain ⟨hv, hc⟩ := ApplyCurrentExcite_none op
    (UpdateCurrents op 0 (usub (op.numLines 0) 1)
      (ApplyVoltageExcite op (UpdateVoltages op 0 (op.numLines 0) c.eng))) hI
  exact ⟨fun n i j k => by simp only [incNumTS]; rw [hv]; exact h3.1 n i j k,
    fun n i j k => by simp only [incNumTS]; rw [hc]; exact h3.2 n i j k⟩

/-- C9 (zero-source quiescence): without extensions and without sources, starting
from fields that are identically zero, the fields are identically zero after
`IterateTS(N)` for every `N`, on every grid and for all coefficients; and when the run
starts at step 0 and `N` is an `unsigned int`, the step counter ends at `N`. -/
theorem IterateTS_quiescent (op : Operator R T) (N : Nat) (c : Run R T)
    (hV : op.Exc.Volt_Count = 0) (hI : op.Exc.Curr_Count = 0)
    (hv : ∀ n i j k, c.eng.volt n i j k = 0) (hc : ∀ n i j k, c.eng.curr n i j k = 0) :
    (∀ n i j k, (IterateTS op [] N c).2.eng.volt n i j k = 0) ∧
    (∀ n i j k, (IterateTS op [] N c).2.eng.curr n i j k = 0) ∧
    (c.eng.numTS = 0 → N < UINT_RANGE → (IterateTS op [] N c).2.eng.numTS = N) := by
  have hz : FieldsZero (IterateTS op [] N c).2.eng :=
    forLoop_invariant (fun s : Run R T => FieldsZero s.eng) _
      (fun _ s hs => IterateTS_body_zero op s hV hI hs) N c ⟨hv, hc⟩
  refine ⟨hz.1, hz.2, fun h0 hN => ?_⟩
  have h := IterateTS_loop_numTS op [] N c (fun x hx => absurd hx (List.not_mem_nil x))
    (by rw [h0, Nat.zero_add]; exact hN)
  show (forLoop N (fun _ s => IterateTS_body op [] s) c).eng.numTS = N
  rw [h, h0, Nat.zero_add]

/-- Witness for C9, scenario S1: the 4 x 4 x 4 grid with `vv = ii = 1`, `vi = iv = 0`,
no sources, ten iterations from the initial state. -/
theorem IterateTS_quiescent_witness :
    (opS1.Exc.Volt_Count = 0 ∧ opS1.Exc.Curr_Count = 0 ∧
      (∀ n i j k, runZero.eng.volt n i j k = 0) ∧ (∀ n i j k, runZero.eng.curr n i j k = 0)) ∧
      (∀ n i j k, (IterateTS opS1 [] 10 runZero).2.eng.volt n i j k = 0) ∧
      (∀ n i j k, (IterateTS opS1 [] 10 runZero).2.eng.curr n i j k = 0) ∧
      (IterateTS opS1 [] 10 runZero).2.eng.numTS = 10 :=
  ⟨⟨rfl, rfl, fun _ _ _ _ => rfl, fun _ _ _ _ => rfl⟩,
    (IterateTS_quiescent opS1 10 runZero rfl rfl (fun _ _ _ _ => rfl) (fun _ _ _ _ => rfl)).1,
    (IterateTS_quiescent opS1 10 runZero rfl rfl (fun _ _ _ _ => rfl) (fun _ _ _ _ => rfl)).2.1,
    (IterateTS_quiescent opS1 10 runZero rfl rfl (fun _ _ _ _ => rfl)
      (fun _ _ _ _ => rfl)).2.2 rfl (by decide)⟩

/-! ## Linearity in the source amplitudes -/

theorem voltNext_scaled (op : Operator R T) (α : R) (e e1 : Engine R T) (h : Scaled α e e1)
    (n i j k : Nat) : voltNext (op.scaleAmp α) e1 n i j k = α * voltNext op e n i j k := by
  obtain ⟨_, hv, hc⟩ := h
  simp only [voltNext, Operator.scaleAmp, hv, hc]
  split_ifs <;> ring

theorem currNext_scaled (op : Operator R T) (α : R) (e e1 : Engine R T) (h : Scaled α e e1)
    (n i j k : Nat) : currNext (op.scaleAmp α) e1 n i j k = α * currNext op e n i j k := by
  obtain ⟨_, hv, hc⟩ := h
  simp only [currNext, Operator.scaleAmp, hv, hc]
  split_ifs <;> ring

theorem UpdateVoltages_cell_scaled (op : Operator R T) (α : R) (p0 p1 p2 : Nat)
    (e e1 : Engine R T) (h : Scaled α e e1) :
    Scaled α (UpdateVoltages_cell op p0 p1 p2 e)
      (UpdateVoltages_cell (op.scaleAmp α) p0 p1 p2 e1) := by
  obtain ⟨⟨ht, hc, _, _⟩, hv⟩ := UpdateVoltages_cell_sweep op p0 p1 p2 e
  obtain ⟨⟨ht1, hc1, _, _⟩, hv1⟩ := UpdateVoltages_cell_sweep (op.scaleAmp α) p0 p1 p2 e1
  refine ⟨by rw [ht, ht1]; exact h.1, fun n i j k => ?_,
    fun n i j k => by rw [hc, hc1]; exact h.2.2 n i j k⟩
  by_cases hP : i = p0 ∧ j = p1 ∧ k = p2
  · rw [(hv n i j k).1 hP, (hv1 n i j k).1 hP]
    exact voltNext_scaled op α e e1 h n i j k
  · rw [(hv n i j k).2 hP, (hv1 n i j k).2 hP]
    exact h.2.1 n i j k

theorem UpdateCurrents_cell_scaled (op : Operator R T) (α : R) (p0 p1 p2 : Nat)
    (e e1 : Engine R T) (h : Scaled α e e1) :
    Scaled α (UpdateCurrents_cell op p0 p1 p2 e)
      (UpdateCurrents_cell (op.scaleAmp α) p0 p1 p2 e1) := by
  obtain ⟨⟨ht, hc, _, _⟩, hv⟩ := UpdateCurrents_cell_sweep op p0 p1 p2 e
  obtain ⟨⟨ht1, hc1, _, _⟩, hv1⟩ := UpdateCurrents_cell_sweep (op.scaleAmp α) p0 p1 p2 e1
  refine ⟨by rw [ht, ht1]; exact h.1, fun n i j k => by rw [hc, hc1]; exact h.2.1 n i j k,
    fun n i j k => ?_⟩
  by_cases hP : i = p0 ∧ j = p1 ∧ k = p2
  · rw [(hv n i j k).1 hP, (hv1 n i j k).1 hP]
    exact currNext_scaled op α e e1 h n i j k
  · rw [(hv n i j k).2 hP, (hv1 n i j k).2 hP]
    exact h.2.2 n i j k

theorem UpdateVoltages_scaled (op : Operator R T) (α : R) (startX numX : Nat)
    (e e1 : Engine R T) (h : Scaled α e e1) :
    Scaled α (UpdateVoltages op startX numX e)
      (UpdateVoltages (op.scaleAmp α) startX numX e1) :=
  planeLoop_related (Scaled α) (UpdateVoltages_plane op) (UpdateVoltages_plane (op.scaleAmp α))
    (fun p0 s s1 hs => rowsLoop_related (Scaled α) (UpdateVoltages_cell op)
      (UpdateVoltages_cell (op.scaleAmp α)) (UpdateVoltages_cell_scaled op α)
      (op.numLines 1) (op.numLines 2) p0 s s1 hs)
    startX numX e e1 h

theorem UpdateCurrents_scaled (op : Operator R T) (α : R) (startX numX : Nat)
    (e e1 : Engine R T) (h : Scaled α e e1) :
    Scaled α (UpdateCurrents op startX numX e)
      (UpdateCurrents (op.scaleAmp α) startX numX e1) :=
  planeLoop_related (Scaled α) (UpdateCurrents_plane op) (UpdateCurrents_plane (op.scaleAmp α))
    (fun p0 s s1 hs => rowsLoop_related (Scaled α) (UpdateCurrents_cell op)
      (UpdateCurrents_cell (op.scaleAmp α)) (UpdateCurrents_cell_scaled op α)
      (usub (op.numLines 1) 1) (usub (op.numLines 2) 1) p0 s s1 hs)
    startX numX e e1 h

theorem ApplyVoltageExcite_source_scaled (op : Operator R T) (α : R) (n : Nat)
    (e e1 : Engine R T) (h : Scaled α e e1) :
    Scaled α (ApplyVoltageExcite_source op n e)
      (ApplyVoltageExcite_source (op.scaleAmp α) n e1) := by
  obtain ⟨ht, hv, hc⟩ := h
  refine ⟨ht, fun m i j k => ?_, hc⟩
  simp only [ApplyVoltageExcite_source, SetVolt, GetVolt, setAt, Operator.scaleAmp,
    Excitation.scaleAmp, ht, hv]
  split_ifs <;> ring

theorem ApplyCurrentExcite_source_scaled (op : Operator R T) (α : R) (n : Nat)
    (e e1 : Engine R T) (h : Scaled α e e1) :
    Scaled α (ApplyCurrentExcite_source op n e)
      (ApplyCurrentExcite_source (op.scaleAmp α) n e1) := by
  obtain ⟨ht, hv, hc⟩ := h
  refine ⟨ht, hv, fun m i j k => ?_⟩
  simp only [ApplyCurrentExcite_source, SetCurr, GetCurr, setAt, Operator.scaleAmp,
    Excitation.scaleAmp, ht, hc]
  split_ifs <;> ring

theorem ApplyVoltageExcite_scaled (op : Operator R T) (α : R) (e e1 : Engine R T)
    (h : Scaled α e e1) :
    Scaled α (ApplyVoltageExcite op e) (ApplyVoltageExcite (op.scaleAmp α) e1) := by
  have hs := forLoop_related (Scaled α) (fun n s => ApplyVoltageExcite_source op n s)
    (fun n s => ApplyVoltageExcite_source (op.scaleAmp α) n s)
    (fun n s s1 hs => ApplyVoltageExcite_source_scaled op α n s s1 hs) op.Exc.Volt_Count e e1 h
  have hcount : (op.scaleAmp α).Exc.Volt_Count = op.Exc.Volt_Count := rfl
  simp only [ApplyVoltageExcite, hcount]
  split <;> split <;> exact hs

theorem ApplyCurrentExcite_scaled (op : Operator R T) (α : R) (e e1 : Engine R T)
    (h : Scaled α e e1) :
    Scaled α (ApplyCurrentExcite op e) (ApplyCurrentExcite (op.scaleAmp α) e1) := by
  have hs := forLoop_related (Scaled α) (fun n s => ApplyCurrentExcite_source op n s)
    (fun n s => ApplyCurrentExcite_source (op.scaleAmp α) n s)
    (fun n s s1 hs => ApplyCurrentExcite_source_scaled op α n s s1 hs) op.Exc.Curr_Count e e1 h
  have hcount : (op.scaleAmp α).Exc.Curr_Count = op.Exc.Curr_Count := rfl
  simp only [ApplyCurrentExcite, hcount]
  split <;> split <;> exact hs

theorem IterateTS_body_scaled (op : Operator R T) (α : R) (c c1 : Run R T)
    (h : Scaled α c.eng c1.eng) :
    Scaled α (IterateTS_body op [] c).eng (IterateTS_body (op.scaleAmp α) [] c1).eng := by
  rw [IterateTS_body_nil_eng, IterateTS_body_nil_eng]
  have h1 := UpdateVoltages_scaled op α 0 (op.numLines 0) _ _ h
  have h2 := ApplyVoltageExcite_scaled op α _ _ h1
  have h3 := UpdateCurrents_scaled op α 0 (usub (op.numLines 0) 1) _ _ h2
  have h4 := ApplyCurrentExcite_scaled op α _ _ h3
  exact ⟨congrArg uinc h4.1, h4.2.1, h4.2.2⟩

/-- C10 (linearity of excitation): without extensions and starting from fields that
are identically zero, running `IterateTS(N)` with every voltage and current source
amplitude multiplied by `α` yields, at every entry, `α` times the fields of the run
with the original amplitudes, for every grid, coefficient set, source table, signal
and scalar `α` of a commutative ring. -/
theorem IterateTS_linear (op : Operator R T) (α : R) (N : Nat) (c : Run R T)
    (hv : ∀ n i j k, c.eng.volt n i j k = 0) (hc : ∀ n i j k, c.eng.curr n i j k = 0) :
    (∀ n i j k, (IterateTS (op.scaleAmp α) [] N c).2.eng.volt n i j k =
      α * (IterateTS op [] N c).2.eng.volt n i j k) ∧
    (∀ n i j k, (IterateTS (op.scaleAmp α) [] N c).2.eng.curr n i j k =
      α * (IterateTS op [] N c).2.eng.curr n i j k) := by
  have h0 : Scaled α c.eng c.eng :=
    ⟨rfl, fun n i j k => by rw [hv, mul_zero], fun n i j k => by rw [hc, mul_zero]⟩
  have h := forLoop_related (fun s s1 : Run R T => Scaled α s.eng s1.eng)
    (fun _ s => IterateTS_body op [] s) (fun _ s => IterateTS_body (op.scaleAmp α) [] s)
    (fun _ s s1 hs => IterateTS_body_scaled op α s s1 hs) N c c h0
  exact ⟨h.2.1, h.2.2⟩

set_option maxRecDepth 100000 in
/-- Witness for C10: on the 4 x 4 x 4 grid with the sources of `excS5`, one iteration
from the initial state leaves 30 in the source cell of `volt`, and 60 when the
amplitudes are doubled. -/
theorem IterateTS_linear_witness :
    ((∀ n i j k, runZero.eng.volt n i j k = 0) ∧ (∀ n i j k, runZero.eng.curr n i j k = 0)) ∧
      (IterateTS (opS5.scaleAmp 2) [] 1 runZero).2.eng.volt 1 2 2 2 =
        2 * (IterateTS opS5 [] 1 runZero).2.eng.volt 1 2 2 2 ∧
      (IterateTS opS5 [] 1 runZero).2.eng.volt 1 2 2 2 = 30 :=
  ⟨⟨fun _ _ _ _ => rfl, fun _ _ _ _ => rfl⟩,
    (IterateTS_linear opS5 2 1 runZero (fun _ _ _ _ => rfl) (fun _ _ _ _ => rfl)).1 1 2 2 2,
    by decide⟩

/-! ## The excitation logs -/

/-- An invariant of all hooks of the listed extensions is an invariant of a dispatch
loop over them. -/
theorem foldl_callHook_invariant (Inv : Engine R T → Prop) (h : Hook)
    (l : List (Engine_Extension R T))
    (hl : ∀ x ∈ l, ∀ (g : Hook) (e : Engine R T), Inv e → Inv (x.hookFn g e))
    (c : Run R T) (hc : Inv c.eng) : Inv (l.foldl (fun s x => callHook h x s) c).eng := by
  induction l generalizing c with
  | nil => exact hc
  | cons x l ih =>
    rw [List.foldl_cons]
    exact ih (fun y hy => hl y (List.mem_cons_of_mem _ hy)) _
      (hl x (List.mem_cons_self _ _) h c.eng hc)

theorem dispatchForward_invariant (Inv : Engine R T → Prop) (h : Hook)
    (l : List (Engine_Extension R T))
    (hl : ∀ x ∈ l, ∀ (g : Hook) (e : Engine R T), Inv e → Inv (x.hookFn g e))
    (c : Run R T) (hc : Inv c.eng) : Inv (dispatchForward h l c).eng :=
  foldl_callHook_invariant Inv h l hl c hc

theorem dispatchBackward_invariant (Inv : Engine R T → Prop) (h : Hook)
    (l : List (Engine_Extension R T))
    (hl : ∀ x ∈ l, ∀ (g : Hook) (e : Engine R T), Inv e → Inv (x.hookFn g e))
    (c : Run R T) (hc : Inv c.eng) : Inv (dispatchBackward h l c).eng :=
  foldl_callHook_invariant Inv h l.reverse (fun x hx => hl x (List.mem_reverse.mp hx)) c hc

/-- What `ApplyVoltageExcite` does to the step counter and the logs. -/
theorem ApplyVoltageExcite_files (op : Operator R T) (e : Engine R T) :
    (ApplyVoltageExcite op e).numTS = e.numTS ∧
    (ApplyVoltageExcite op e).file_ht = e.file_ht ∧
    (ApplyVoltageExcite op e).file_et = e.file_et ++
      (if e.numTS < op.Exc.Length then [((e.numTS : T) * op.dT, op.Exc.Signal_volt e.numTS)]
        else []) := by
  have h := forLoop_invariant
    (fun s : Engine R T => s.numTS = e.numTS ∧ s.file_et = e.file_et ∧ s.file_ht = e.file_ht)
    (fun n s => ApplyVoltageExcite_source op n s) (fun n s hs => hs) op.Exc.Volt_Count e
    ⟨rfl, rfl, rfl⟩
  obtain ⟨h1, h2, h3⟩ := h
  by_cases hlt : e.numTS < op.Exc.Length
  · refine ⟨?_, ?_, ?_⟩ <;> simp [ApplyVoltageExcite, h1, h2, h3, hlt]
  · refine ⟨?_, ?_, ?_⟩ <;> simp [ApplyVoltageExcite, h1, h2, h3, hlt]

/-- What `ApplyCurrentExcite` does to the step counter and the logs. -/
theorem ApplyCurrentExcite_files (op : Operator R T) (e : Engine R T) :
    (ApplyCurrentExcite op e).numTS = e.numTS ∧
    (ApplyCurrentExcite op e).file_et = e.file_et ∧
    (ApplyCurrentExcite op e).file_ht = e.file_ht ++
      (if e.numTS < op.Exc.Length then
        [(((e.numTS : T) + 2⁻¹) * op.dT, op.Exc.Signal_curr e.numTS)] else []) := by
  have h := forLoop_invariant
    (fun s : Engine R T => s.numTS = e.numTS ∧ s.file_et = e.file_et ∧ s.file_ht = e.file_ht)
    (fun n s => ApplyCurrentExcite_source op n s) (fun n s hs => hs) op.Exc.Curr_Count e
    ⟨rfl, rfl, rfl⟩
  obtain ⟨h1, h2, h3⟩ := h
  by_cases hlt : e.numTS < op.Exc.Length
  · refine ⟨?_, ?_, ?_⟩ <;> simp [ApplyCurrentExcite, h1, h2, h3, hlt]
  · refine ⟨?_, ?_, ?_⟩ <;> simp [ApplyCurrentExcite, h1, h2, h3, hlt]

theorem LogState_dispatchForward {exts : List (Engine_Extension R T)}
    (hl : ∀ x ∈ exts, ∀ (g : Hook) (e : Engine R T), (x.hookFn g e).numTS = e.numTS ∧
      (x.hookFn g e).file_et = e.file_et ∧ (x.hookFn g e).file_ht = e.file_ht)
    (h : Hook) {t : Nat} {a b : List (T × R)} {c : Run R T} (hc : LogState t a b c.eng) :
    LogState t a b (dispatchForward h exts c).eng :=
  dispatchForward_invariant (LogState t a b) h exts
    (fun x hx g e he => ⟨(hl x hx g e).1.trans he.1, (hl x hx g e).2.1.trans he.2.1,
      (hl x hx g e).2.2.trans he.2.2⟩) c hc

theorem LogState_dispatchBackward {exts : List (Engine_Extension R T)}
    (hl : ∀ x ∈ exts, ∀ (g : Hook) (e : Engine R T), (x.hookFn g e).numTS = e.numTS ∧
      (x.hookFn g e).file_et = e.file_et ∧ (x.hookFn g e).file_ht = e.file_ht)
    (h : Hook) {t : Nat} {a b : List (T × R)} {c : Run R T} (hc : LogState t a b c.eng) :
    LogState t a b (dispatchBackward h exts c).eng :=
  dispatchBackward_invariant (LogState t a b) h exts
    (fun x hx g e he => ⟨(hl x hx g e).1.trans he.1, (hl x hx g e).2.1.trans he.2.1,
      (hl x hx g e).2.2.trans he.2.2⟩) c hc

theorem LogState_UpdateVoltages (op : Operator R T) (ev : Event) {t : Nat}
    {a b : List (T × R)} {c : Run R T} (hc : LogState t a b c.eng) :
    LogState t a b (observe ev (UpdateVoltages op 0 (op.numLines 0)) c).eng := by
  obtain ⟨h1, _, h3, h4⟩ := UpdateVoltages_frame op c.eng
  exact ⟨h1.trans hc.1, h3.trans hc.2.1, h4.trans hc.2.2⟩

theorem LogState_UpdateCurrents (op : Operator R T) (ev : Event) {t : Nat}
    {a b : List (T × R)} {c : Run R T} (hc : LogState t a b c.eng) :
    LogState t a b (observe ev (UpdateCurrents op 0 (usub (op.numLines 0) 1)) c).eng := by
  obtain ⟨h1, _, h3, h4⟩ := UpdateCurrents_frame op c.eng
  exact ⟨h1.trans hc.1, h3.trans hc.2.1, h4.trans hc.2.2⟩

theorem LogState_ApplyVoltageExcite (op : Operator R T) (ev : Event) {t : Nat}
    {a b : List (T × R)} {c : Run R T} (hc : LogState t a b c.eng) :
    LogState t
      (a ++ (if t < op.Exc.Length then [((t : T) * op.dT, op.Exc.Signal_volt t)] else [])) b
      (observe ev (ApplyVoltageExcite op) c).eng := by
  obtain ⟨h1, h2, h3⟩ := ApplyVoltageExcite_files op c.eng
  obtain ⟨k1, k2, k3⟩ := hc
  refine ⟨h1.trans k1, ?_, h2.trans k3⟩
  rw [observe_eng, h3, k1, k2]

theorem LogState_ApplyCurrentExcite (op : Operator R T) (ev : Event) {t : Nat}
    {a b : List (T × R)} {c : Run R T} (hc : LogState t a b c.eng) :
    LogState t a
      (b ++ (if t < op.Exc.Length then
        [(((t : T) + 2⁻¹) * op.dT, op.Exc.Signal_curr t)] else []))
      (observe ev (ApplyCurrentExcite op) c).eng := by
  obtain ⟨h1, h2, h3⟩ := ApplyCurrentExcite_files op c.eng
  obtain ⟨k1, k2, k3⟩ := hc
  refine ⟨h1.trans k1, h2.trans k2, ?_⟩
  rw [observe_eng, h3, k1, k3]

theorem LogState_incNumTS (ev : Event) {t : Nat} {a b : List (T × R)} {c : Run R T}
    (hc : LogState t a b c.eng) : LogState (uinc t) a b (observe ev incNumTS c).eng := by
  obtain ⟨k1, k2, k3⟩ := hc
  exact ⟨congrArg uinc k1, k2, k3⟩

/-- One iteration appends at most one line to each log: the line of step `t` when
`t < Length`. -/
theorem LogState_IterateTS_body (op : Operator R T) {exts : List (Engine_Extension R T)}
    (hl : ∀ x ∈ exts, ∀ (g : Hook) (e : Engine R T), (x.hookFn g e).numTS = e.numTS ∧
      (x.hookFn g e).file_et = e.file_et ∧ (x.hookFn g e).file_ht = e.file_ht)
    {t : Nat} {a b : List (T × R)} {c : Run R T} (hc : LogState t a b c.eng) :
    LogState (uinc t)
      (a ++ (if t < op.Exc.Length then [((t : T) * op.dT, op.Exc.Signal_volt t)] else []))
      (b ++ (if t < op.Exc.Length then
        [(((t : T) + 2⁻¹) * op.dT, op.Exc.Signal_curr t)] else []))
      (IterateTS_body op exts c).eng := by
  simp only [IterateTS_body, DoPreVoltageUpdates, DoPostVoltageUpdates, Apply2Voltages,
    DoPreCurrentUpdates, DoPostCurrentUpdates, Apply2Current]
  exact LogState_incNumTS _ (LogState_ApplyCurrentExcite op _
    (LogState_dispatchForward hl _ (LogState_dispatchForward hl _
      (LogState_UpdateCurrents op _ (LogState_dispatchBackward hl _
        (LogState_ApplyVoltageExcite op _ (LogState_dispatchForward hl _
          (LogState_dispatchForward hl _ (LogState_UpdateVoltages op _
            (LogState_dispatchBackward hl _ hc))))))))))

theorem range_min_succ (N L : Nat) :
    List.range (min (N + 1) L) = List.range (min N L) ++ (if N < L then [N] else []) := by
  by_cases h : N < L
  · rw [if_pos h, Nat.min_eq_left (Nat.succ_le_of_lt h), Nat.min_eq_left (Nat.le_of_lt h),
      List.range_succ]
  · rw [if_neg h, List.append_nil, Nat.min_eq_right (Nat.le_of_not_lt h),
      Nat.min_eq_right (Nat.le_succ_of_le (Nat.le_of_not_lt h))]

theorem map_range_min_succ {β : Type} (f : Nat → β) (N L : Nat) :
    (List.range (min (N + 1) L)).map f =
      (List.range (min N L)).map f ++ (if N < L then [f N] else []) := by
  rw [range_min_succ, List.map_append]
  split <;> rfl

theorem IterateTS_loop_logs (op : Operator R T) {exts : List (Engine_Extension R T)}
    (hl : ∀ x ∈ exts, ∀ (g : Hook) (e : Engine R T), (x.hookFn g e).numTS = e.numTS ∧
      (x.hookFn g e).file_et = e.file_et ∧ (x.hookFn g e).file_ht = e.file_ht)
    (c : Run R T) (hc : LogState 0 [] [] c.eng) (N : Nat) (hN : N ≤ UINT_RANGE) :
    LogState (N % UINT_RANGE)
      ((List.range (min N op.Exc.Length)).map
        (fun k : Nat => ((k : T) * op.dT, op.Exc.Signal_volt k)))
      ((List.range (min N op.Exc.Length)).map
        (fun k : Nat => (((k : T) + 2⁻¹) * op.dT, op.Exc.Signal_curr k)))
      (forLoop N (fun _ s => IterateTS_body op exts s) c).eng := by
  induction N with
  | zero =>
    rw [Nat.zero_min, List.range_zero, List.map_nil, List.map_nil, forLoop_zero,
      Nat.zero_mod]
    exact hc
  | succ N ih =>
    have hlt : N < UINT_RANGE := hN
    have ih1 := ih (Nat.le_of_lt hlt)
    rw [Nat.mod_eq_of_lt hlt] at ih1
    have h := LogState_IterateTS_body op hl ih1
    rw [forLoop_succ, map_range_min_succ, map_range_min_succ]
    exact h

/-- C11 (log content): for an engine at step 0 with empty logs, extensions whose hooks
leave the step counter and the logs alone, and `N` iterations (`N` an `unsigned int`),
the log `et` holds exactly the lines `(k * dT, Signal_volt[k])` and the log `ht` exactly
the lines `((k + 0.5) * dT, Signal_curr[k])` for `k = 0, ..., min N Length - 1`, in this
order: after `Length` iterations each log has `Length` lines, and further iterations
append nothing. -/
theorem IterateTS_logs (op : Operator R T) (exts : List (Engine_Extension R T)) (N : Nat)
    (c : Run R T)
    (hfresh : c.eng.numTS = 0 ∧ c.eng.file_et = [] ∧ c.eng.file_ht = [])
    (hl : ∀ x ∈ exts, ∀ (g : Hook) (e : Engine R T), (x.hookFn g e).numTS = e.numTS ∧
      (x.hookFn g e).file_et = e.file_et ∧ (x.hookFn g e).file_ht = e.file_ht)
    (hN : N ≤ UINT_RANGE) :
    (IterateTS op exts N c).2.eng.file_et =
      (List.range (min N op.Exc.Length)).map
        (fun k : Nat => ((k : T) * op.dT, op.Exc.Signal_volt k)) ∧
    (IterateTS op exts N c).2.eng.file_ht =
      (List.range (min N op.Exc.Length)).map
        (fun k : Nat => (((k : T) + 2⁻¹) * op.dT, op.Exc.Signal_curr k)) :=
  (IterateTS_loop_logs op hl c hfresh N hN).2

theorem idleExt_hooks (x : Engine_Extension Rat Rat) (hx : x ∈ [idleExt]) (g : Hook)
    (e : Engine Rat Rat) : (x.hookFn g e).numTS = e.numTS ∧
      (x.hookFn g e).file_et = e.file_et ∧ (x.hookFn g e).file_ht = e.file_ht := by
  rw [List.mem_singleton] at hx
  subst hx
  cases g <;> exact ⟨rfl, rfl, rfl⟩

/-- Witness for C11, scenario S4 (`Length = 3`, `dT = 1e-11`): after three iterations
the log `et` holds the times 0, 1e-11, 2e-11 with the samples 0.5, 1, 0.5; after five
iterations the log `ht` holds the times 5e-12, 1.5e-11, 2.5e-11 with the samples
0, 1, 0. -/
theorem IterateTS_logs_witness :
    ((runS4.eng.numTS = 0 ∧ runS4.eng.file_et = [] ∧ runS4.eng.file_ht = []) ∧
      3 ≤ UINT_RANGE ∧ 5 ≤ UINT_RANGE) ∧
    (IterateTS opS4 [idleExt] 3 runS4).2.eng.file_et =
      [(0, 1 / 2), (1 / 100000000000, 1), (2 / 100000000000, 1 / 2)] ∧
    (IterateTS opS4 [idleExt] 5 runS4).2.eng.file_ht =
      [(5 / 1000000000000, 0), (15 / 1000000000000, 1), (25 / 1000000000000, 0)] :=
  ⟨⟨⟨rfl, rfl, rfl⟩, by decide, by decide⟩,
    (IterateTS_logs opS4 [idleExt] 3 runS4 ⟨rfl, rfl, rfl⟩ idleExt_hooks (by decide)).1.trans
      (by norm_num [opS4, List.range_succ]),
    (IterateTS_logs opS4 [idleExt] 5 runS4 ⟨rfl, rfl, rfl⟩ idleExt_hooks (by decide)).2.trans
      (by norm_num [opS4, List.range_succ])⟩

/-! ## Soft excitation: the indices read -/

/-- The masked sample index is never negative and never exceeds `Length`. -/
theorem excPos_range (numTS delay Length : Nat) :
    0 ≤ excPos numTS delay Length ∧ excPos numTS delay Length ≤ (Length : Int) := by
  simp only [excPos, toInt, wrapInt]
  split_ifs <;> omega

theorem readSample_of_lt (sig : Nat → R) {len : Nat} {i : Int} (h0 : 0 ≤ i)
    (h1 : i < (len : Int)) : readSample sig len i = some (sig i.toNat) := by
  simp [readSample, h0, h1]

theorem readSample_eq_none (sig : Nat → R) (len : Nat) (i : Int) :
    readSample sig len i = none ↔ ¬ (0 ≤ i ∧ i < (len : Int)) := by
  unfold readSample
  split <;> simp_all

theorem ApplyVoltageExcite_source_checked_succ (op : Operator R T) (n : Nat) (e : Engine R T) :
    ApplyVoltageExcite_source_checked (op.Exc.Length + 1) op n e =
      some (ApplyVoltageExcite_source op n e) := by
  obtain ⟨h0, h1⟩ := excPos_range e.numTS (op.Exc.Volt_delay n) op.Exc.Length
  simp only [ApplyVoltageExcite_source_checked, ApplyVoltageExcite_source]
  rw [readSample_of_lt _ h0 (by push_cast; omega)]
  rfl

theorem ApplyCurrentExcite_source_checked_succ (op : Operator R T) (n : Nat) (e : Engine R T) :
    ApplyCurrentExcite_source_checked (op.Exc.Length + 1) op n e =
      some (ApplyCurrentExcite_source op n e) := by
  obtain ⟨h0, h1⟩ := excPos_range e.numTS (op.Exc.Curr_delay n) op.Exc.Length
  simp only [ApplyCurrentExcite_source_checked, ApplyCurrentExcite_source]
  rw [readSample_of_lt _ h0 (by push_cast; omega)]
  rfl

/-- A loop whose checked body always succeeds with the result of the unchecked body
succeeds with the result of the unchecked loop. -/
theorem forLoop_checked {S : Type} (body : Nat → S → S) (checked : Nat → S → Option S)
    (h : ∀ n s, checked n s = some (body n s)) (N : Nat) (s : S) :
    forLoop N (fun n (o : Option S) => o.bind (checked n)) (some s) =
      some (forLoop N body s) := by
  induction N with
  | zero => rfl
  | succ N ih =>
    rw [forLoop_succ, ih, forLoop_succ, Option.some_bind, h]

theorem ApplyVoltageExcite_checked_succ (op : Operator R T) (e : Engine R T) :
    ApplyVoltageExcite_checked (op.Exc.Length + 1) op e = some (ApplyVoltageExcite op e) := by
  simp only [ApplyVoltageExcite_checked, ApplyVoltageExcite]
  rw [forLoop_checked (fun n s => ApplyVoltageExcite_source op n s)
    (fun n s => ApplyVoltageExcite_source_checked (op.Exc.Length + 1) op n s)
    (ApplyVoltageExcite_source_checked_succ op)]
  simp only [Option.some_bind]
  split
  · next hlt =>
    rw [readSample_of_lt _ (Int.natCast_nonneg _) (by push_cast; omega)]
    simp
  · rfl

theorem ApplyCurrentExcite_checked_succ (op : Operator R T) (e : Engine R T) :
    ApplyCurrentExcite_checked (op.Exc.Length + 1) op e = some (ApplyCurrentExcite op e) := by
  simp only [ApplyCurrentExcite_checked, ApplyCurrentExcite]
  rw [forLoop_checked (fun n s => ApplyCurrentExcite_source op n s)
    (fun n s => ApplyCurrentExcite_source_checked (op.Exc.Length + 1) op n s)
    (ApplyCurrentExcite_source_checked_succ op)]
  simp only [Option.some_bind]
  split
  · next hlt =>
    rw [readSample_of_lt _ (Int.natCast_nonneg _) (by push_cast; omega)]
    simp
  · rfl

/-- C12 as stated fails in scenario S5 (delay 5, `Length = 3`): at step 8 the guard
`exc_pos <= Length` admits `exc_pos = 3`, and the read of `Signal_volt[3]` is outside an
array with the entries 0, 1, 2. -/
theorem ApplyVoltageExcite_checked_counterexample :
    opS5.Exc.Length = 3 ∧
      excPos (engAt 8).numTS (opS5.Exc.Volt_delay 0) opS5.Exc.Length = 3 ∧
      (ApplyVoltageExcite_checked opS5.Exc.Length opS5 (engAt 8)).isSome = false := by
  decide

/-- C12 (excitation indexing), amended: for every step count, source and delay the
sample index `exc_pos` read by `ApplyVoltageExcite` and `ApplyCurrentExcite` lies in
`[0, Length]`, and the log index `numTS` is read only when `numTS < Length`; so with
signal arrays of `Length + 1` entries the checked routines never take the out-of-range
branch and return the result of the unchecked ones, while with exactly `Length`
entries the read of a source is out of range exactly when `exc_pos = Length`. -/
theorem ApplyExcite_checked (op : Operator R T) (e : Engine R T) :
    ApplyVoltageExcite_checked (op.Exc.Length + 1) op e = some (ApplyVoltageExcite op e) ∧
    ApplyCurrentExcite_checked (op.Exc.Length + 1) op e = some (ApplyCurrentExcite op e) ∧
    (∀ delay : Nat, 0 ≤ excPos e.numTS delay op.Exc.Length ∧
      excPos e.numTS delay op.Exc.Length ≤ (op.Exc.Length : Int)) ∧
    (∀ n, ApplyVoltageExcite_source_checked op.Exc.Length op n e = none ↔
      excPos e.numTS (op.Exc.Volt_delay n) op.Exc.Length = (op.Exc.Length : Int)) ∧
    (∀ n, ApplyCurrentExcite_source_checked op.Exc.Length op n e = none ↔
      excPos e.numTS (op.Exc.Curr_delay n) op.Exc.Length = (op.Exc.Length : Int)) := by
  refine ⟨ApplyVoltageExcite_checked_succ op e, ApplyCurrentExcite_checked_succ op e,
    fun delay => excPos_range e.numTS delay op.Exc.Length, fun n => ?_, fun n => ?_⟩
  · obtain ⟨h0, h1⟩ := excPos_range e.numTS (op.Exc.Volt_delay n) op.Exc.Length
    simp only [ApplyVoltageExcite_source_checked, Option.map_eq_none', readSample_eq_none]
    omega
  · obtain ⟨h0, h1⟩ := excPos_range e.numTS (op.Exc.Curr_delay n) op.Exc.Length
    simp only [ApplyCurrentExcite_source_checked, Option.map_eq_none', readSample_eq_none]
    omega

/-! ## Index safety of the kernels -/

/-- Induction over a counted loop with an invariant that may depend on the counter. -/
theorem forLoop_induct {S : Type} (Inv : Nat → S → Prop) (body : Nat → S → S) (N : Nat)
    (s : S) (h0 : Inv 0 s) (hstep : ∀ n s1, n < N → Inv n s1 → Inv (n + 1) (body n s1)) :
    Inv N (forLoop N body s) := by
  induction N with
  | zero => exact h0
  | succ N ih =>
    rw [forLoop_succ]
    exact hstep N _ (Nat.lt_succ_self N)
      (ih (fun n s1 hn h => hstep n s1 (Nat.lt_succ_of_lt hn) h))

/-- A property of the triples of every visited grid point is a property of all triples
of the kernel. -/
theorem kernelIndex_forall (cellIndex : Nat → Nat → Nat → List (Nat × Nat × Nat))
    (M1 M2 startX numX : Nat) (h : startX + numX ≤ UINT_RANGE)
    (Q : Nat × Nat × Nat → Prop)
    (hQ : ∀ p0 p1 p2, startX ≤ p0 → p0 < startX + numX → p1 < M1 → p2 < M2 →
      ∀ t ∈ cellIndex p0 p1 p2, Q t) :
    ∀ t ∈ kernelIndex cellIndex M1 M2 startX numX, Q t := by
  have hrow : ∀ p0 p1 (acc : List (Nat × Nat × Nat)), startX ≤ p0 → p0 < startX + numX →
      p1 < M1 → (∀ t ∈ acc, Q t) →
      ∀ t ∈ forLoop M2 (fun pos2 acc2 => acc2 ++ cellIndex p0 p1 pos2) acc, Q t := by
    intro p0 p1 acc h0 h1 h2 hacc
    refine forLoop_induct (fun _ (a : List (Nat × Nat × Nat)) => ∀ t ∈ a, Q t)
      (fun pos2 acc2 => acc2 ++ cellIndex p0 p1 pos2) M2 acc hacc ?_
    intro n a hn ha t ht
    rcases List.mem_append.mp ht with ht | ht
    · exact ha t ht
    · exact hQ p0 p1 n h0 h1 h2 hn t ht
  have hplane : ∀ p0 (acc : List (Nat × Nat × Nat)), startX ≤ p0 → p0 < startX + numX →
      (∀ t ∈ acc, Q t) →
      ∀ t ∈ forLoop M1 (fun pos1 acc1 =>
        forLoop M2 (fun pos2 acc2 => acc2 ++ cellIndex p0 pos1 pos2) acc1) acc, Q t := by
    intro p0 acc h0 h1 hacc
    refine forLoop_induct (fun _ (a : List (Nat × Nat × Nat)) => ∀ t ∈ a, Q t)
      (fun pos1 acc1 => forLoop M2 (fun pos2 acc2 => acc2 ++ cellIndex p0 pos1 pos2) acc1)
      M1 acc hacc ?_
    intro n a hn ha
    exact hrow p0 n a h0 h1 hn ha
  have hloop := forLoop_induct
    (fun m (st : Nat × List (Nat × Nat × Nat)) =>
      (startX + m < UINT_RANGE → st.1 = startX + m) ∧ ∀ t ∈ st.2, Q t)
    (fun _ (st : Nat × List (Nat × Nat × Nat)) =>
      (uinc st.1, forLoop M1 (fun pos1 acc1 =>
        forLoop M2 (fun pos2 acc2 => acc2 ++ cellIndex st.1 pos1 pos2) acc1) st.2))
    numX (startX, [])
    ⟨fun _ => rfl, fun t ht => absurd ht (List.not_mem_nil t)⟩
    (by
      intro m st hm hst
      have hlt : startX + m < UINT_RANGE := by omega
      have hp := hst.1 hlt
      refine ⟨fun hlt1 => ?_, ?_⟩
      · show uinc st.1 = startX + (m + 1)
        rw [hp]
        exact uinc_of_lt hlt1
      · show ∀ t ∈ forLoop M1 (fun pos1 acc1 =>
          forLoop M2 (fun pos2 acc2 => acc2 ++ cellIndex st.1 pos1 pos2) acc1) st.2, Q t
        rw [hp]
        exact hplane (startX + m) st.2 (Nat.le_add_right _ _) (by omega) hst.2)
  exact hloop.2

theorem IterateTS_loop_UpdateCurrents_args (op : Operator R T)
    (exts : List (Engine_Extension R T)) (N : Nat) (c : Run R T) (Q : Nat → Nat → Prop)
    (hQ : Q 0 (usub (op.numLines 0) 1))
    (hc : ∀ a n, Event.UpdateCurrents a n ∈ c.trace → Q a n) :
    ∀ a n, Event.UpdateCurrents a n ∈
      (forLoop N (fun _ s => IterateTS_body op exts s) c).trace → Q a n := by
  refine forLoop_invariant
    (fun s : Run R T => ∀ a n, Event.UpdateCurrents a n ∈ s.trace → Q a n)
    (fun _ s => IterateTS_body op exts s) ?_ N c hc
  intro _ s hs a n hmem
  rw [IterateTS_body_trace] at hmem
  simp only [hookCalls, List.mem_append, List.mem_map, List.mem_singleton, List.mem_reverse,
    reduceCtorEq, and_false, exists_false, false_or, or_false, Event.UpdateCurrents.injEq]
    at hmem
  rcases hmem with hmem | ⟨ha, hn⟩
  · exact hs a n hmem
  · rw [ha, hn]
    exact hQ

/-- C13 (current kernel index safety): on a grid with `Nx, Ny, Nz ≥ 2` and for a slab
with `xStart + xCount ≤ Nx - 1`, every index triple that `UpdateCurrents(xStart, xCount)`
uses for `volt`, `curr`, `ii` or `iv`, the neighbours at `i+1`, `j+1`, `k+1` included,
lies in `[0,Nx) x [0,Ny) x [0,Nz)`; and the arguments `(0, Nx-1)` of every call that
`IterateTS` makes satisfy this precondition. -/
theorem UpdateCurrents_index_safe (op : Operator R T) (xStart xCount : Nat)
    (hx : 2 ≤ op.numLines 0) (hy : 2 ≤ op.numLines 1) (hz : 2 ≤ op.numLines 2)
    (h : xStart + xCount ≤ op.numLines 0 - 1) :
    (∀ t ∈ UpdateCurrents_index op xStart xCount,
      t.1 < op.numLines 0 ∧ t.2.1 < op.numLines 1 ∧ t.2.2 < op.numLines 2) ∧
    0 + usub (op.numLines 0) 1 ≤ op.numLines 0 - 1 ∧
    (∀ (exts : List (Engine_Extension R T)) (N : Nat) (e : Engine R T) (a n : Nat),
      Event.UpdateCurrents a n ∈ (IterateTS op exts N { eng := e, trace := [] }).2.trace →
        a + n ≤ op.numLines 0 - 1) := by
  have hxU := op.numLines_lt 0
  have hyU := op.numLines_lt 1
  have hzU := op.numLines_lt 2
  have hy1 : usub (op.numLines 1) 1 = op.numLines 1 - 1 := usub_one (by omega) hyU
  have hz1 : usub (op.numLines 2) 1 = op.numLines 2 - 1 := usub_one (by omega) hzU
  have hx1 : usub (op.numLines 0) 1 = op.numLines 0 - 1 := usub_one (by omega) hxU
  have hcall : 0 + usub (op.numLines 0) 1 ≤ op.numLines 0 - 1 := by
    rw [hx1, Nat.zero_add]
  refine ⟨?_, hcall, ?_⟩
  · refine kernelIndex_forall UpdateCurrents_cell_index _ _ xStart xCount (by omega)
      (fun t => t.1 < op.numLines 0 ∧ t.2.1 < op.numLines 1 ∧ t.2.2 < op.numLines 2) ?_
    intro p0 p1 p2 h0 h1 h2 h3 t ht
    rw [hy1] at h2
    rw [hz1] at h3
    have e0 : uinc p0 = p0 + 1 := uinc_of_lt (by omega)
    have e1 : uinc p1 = p1 + 1 := uinc_of_lt (by omega)
    have e2 : uinc p2 = p2 + 1 := uinc_of_lt (by omega)
    simp only [UpdateCurrents_cell_index, e0, e1, e2, List.mem_cons, List.mem_singleton,
      List.not_mem_nil, or_false] at ht
    rcases ht with rfl | rfl | rfl | rfl <;> refine ⟨?_, ?_, ?_⟩ <;> dsimp only <;> omega
  · intro exts N e a n hmem
    exact IterateTS_loop_UpdateCurrents_args op exts N { eng := e, trace := [] }
      (fun a n => a + n ≤ op.numLines 0 - 1) hcall
      (fun a n hm => absurd hm (List.not_mem_nil _)) a n hmem

/-- Witness for C13 on the 4 x 4 x 4 grid, slab `[0, 3)`: the kernel uses the triple
`(3, 2, 2)` (the neighbour `i+1` of the grid point `(2,2,2)`), which is inside the
grid. -/
theorem UpdateCurrents_index_safe_witness :
    (2 ≤ opGrid4.numLines 0 ∧ 2 ≤ opGrid4.numLines 1 ∧ 2 ≤ opGrid4.numLines 2 ∧
      0 + 3 ≤ opGrid4.numLines 0 - 1) ∧
    (3, 2, 2) ∈ UpdateCurrents_index opGrid4 0 3 ∧
    (3 < opGrid4.numLines 0 ∧ 2 < opGrid4.numLines 1 ∧ 2 < opGrid4.numLines 2) :=
  ⟨by decide, by decide,
    (UpdateCurrents_index_safe opGrid4 0 3 (by decide) (by decide) (by decide)
      (by decide)).1 (3, 2, 2) (by decide)⟩

/-- C14 (boundary shift rule): for a slab with `xStart + xCount ≤ Nx`, every index
triple that `UpdateVoltages(xStart, xCount)` uses, the shifted neighbours included, lies
in `[0,Nx) x [0,Ny) x [0,Nz)`; the unsigned subtraction `pos - shift` never wraps; at
the grid point `(0,0,0)` all triples are `(0,0,0)`, and when that point is in the slab
the three components of `volt` there become `vv * volt`. -/
theorem UpdateVoltages_index_safe (op : Operator R T) (e : Engine R T) (xStart xCount : Nat)
    (h : xStart + xCount ≤ op.numLines 0) :
    (∀ t ∈ UpdateVoltages_index op xStart xCount,
      t.1 < op.numLines 0 ∧ t.2.1 < op.numLines 1 ∧ t.2.2 < op.numLines 2) ∧
    (∀ p, p < UINT_RANGE → ((usub p (shiftOf p) : Nat) : Int) = (p : Int) - (shiftOf p : Int)) ∧
    UpdateVoltages_cell_index 0 0 0 = [(0, 0, 0), (0, 0, 0), (0, 0, 0), (0, 0, 0)] ∧
    (xStart = 0 → 0 < xCount → 0 < op.numLines 1 → 0 < op.numLines 2 → ∀ d, d < 3 →
      (UpdateVoltages op xStart xCount e).volt d 0 0 0 = op.vv d 0 0 0 * e.volt d 0 0 0) := by
  have hxU := op.numLines_lt 0
  have hyU := op.numLines_lt 1
  have hzU := op.numLines_lt 2
  refine ⟨?_, ?_, ?_, ?_⟩
  · refine kernelIndex_forall UpdateVoltages_cell_index _ _ xStart xCount (by omega)
      (fun t => t.1 < op.numLines 0 ∧ t.2.1 < op.numLines 1 ∧ t.2.2 < op.numLines 2) ?_
    intro p0 p1 p2 h0 h1 h2 h3 t ht
    have e0 : usub p0 (shiftOf p0) = p0 - 1 := usub_shiftOf (by omega)
    have e1 : usub p1 (shiftOf p1) = p1 - 1 := usub_shiftOf (by omega)
    have e2 : usub p2 (shiftOf p2) = p2 - 1 := usub_shiftOf (by omega)
    simp only [UpdateVoltages_cell_index, e0, e1, e2, List.mem_cons, List.mem_singleton,
      List.not_mem_nil, or_false] at ht
    rcases ht with rfl | rfl | rfl | rfl <;> refine ⟨?_, ?_, ?_⟩ <;> dsimp only <;> omega
  · intro p hp
    rw [usub_shiftOf hp]
    unfold shiftOf
    split <;> omega
  · have h0 : usub 0 (shiftOf 0) = 0 := usub_shiftOf (by simp [UINT_RANGE])
    simp only [UpdateVoltages_cell_index, h0]
  · intro hs hc hy hz d hd
    have hU : xStart + xCount ≤ UINT_RANGE := by omega
    obtain ⟨_, hv⟩ := UpdateVoltages_sweep op xStart xCount hU e
    have h0 : usub 0 (shiftOf 0) = 0 := usub_shiftOf (by simp [UINT_RANGE])
    rw [(hv d 0 0 0).1 ⟨⟨by omega, by omega⟩, hy, hz⟩]
    have hd3 : d = 0 ∨ d = 1 ∨ d = 2 := by omega
    rcases hd3 with rfl | rfl | rfl
    · simp only [voltNext, h0, if_true]
      ring
    · simp only [voltNext, h0]
      simp
      ring
    · simp only [voltNext, h0]
      simp
      ring

/-- Witness for C14 on the 4 x 4 x 4 grid, slab `[0, 4)`: at `(0,0,0)` component 1 of
`volt`, which holds 1, becomes `2 * 1`. -/
theorem UpdateVoltages_index_safe_witness :
    (0 + 4 ≤ opGrid4.numLines 0 ∧ 0 < 4 ∧ 0 < opGrid4.numLines 1 ∧ 0 < opGrid4.numLines 2 ∧
      1 < 3) ∧
    (UpdateVoltages opGrid4 0 4 engGrid4).volt 1 0 0 0 = 2 :=
  ⟨by decide,
    ((UpdateVoltages_index_safe opGrid4 engGrid4 0 4 (by decide)).2.2.2 rfl (by decide)
      (by decide) (by decide) 1 (by decide)).trans (by decide)⟩

/-! ## The first iteration from the initial state -/

theorem IterateTS_one_eng (op : Operator R T) (c : Run R T) :
    (IterateTS op [] 1 c).2.eng =
      incNumTS (ApplyCurrentExcite op (UpdateCurrents op 0 (usub (op.numLines 0) 1)
        (ApplyVoltageExcite op (UpdateVoltages op 0 (op.numLines 0) c.eng)))) := by
  simp only [IterateTS, forLoop_succ, forLoop_zero]
  exact IterateTS_body_nil_eng op c

theorem excPos_zero_zero (Length : Nat) : (excPos 0 0 Length).toNat = 0 := by
  have h : excPos 0 0 Length = 0 := by
    simp only [excPos, toInt, wrapInt]
    split_ifs <;> omega
  rw [h]
  rfl

/-- The fields after the voltage half of the first step, for a single voltage source
without delay: the only non-zero entry is `amp * Signal_volt[0]` in the source cell. -/
theorem firstStep_voltage_half (op : Operator R T) (e : Engine R T)
    (hcount : op.Exc.Volt_Count = 1) (hdelay : op.Exc.Volt_delay 0 = 0) (ht : e.numTS = 0)
    (hz : FieldsZero e) :
    (ApplyVoltageExcite op (UpdateVoltages op 0 (op.numLines 0) e)).numTS = 0 ∧
    (∀ d i j k, (ApplyVoltageExcite op (UpdateVoltages op 0 (op.numLines 0) e)).volt d i j k =
      if d = op.Exc.Volt_dir 0 ∧ i = op.Exc.Volt_index 0 0 ∧ j = op.Exc.Volt_index 1 0 ∧
          k = op.Exc.Volt_index 2 0 then
        op.Exc.Volt_amp 0 * op.Exc.Signal_volt 0
      else 0) ∧
    (∀ d i j k,
      (ApplyVoltageExcite op (UpdateVoltages op 0 (op.numLines 0) e)).curr d i j k = 0) := by
  have hz1 := UpdateVoltages_zero op 0 (op.numLines 0) e hz
  have hf := UpdateVoltages_frame op e
  obtain ⟨hvolt, hcurr⟩ :=
    ApplyVoltageExcite_volt_single op (UpdateVoltages op 0 (op.numLines 0) e) hcount
  refine ⟨by rw [(ApplyVoltageExcite_frame op _).1, hf.1, ht], fun d i j k => ?_,
    fun d i j k => by rw [hcurr]; exact hz1.2 d i j k⟩
  rw [hvolt]
  simp only [ApplyVoltageExcite_source, SetVolt, GetVolt, setAt, hf.1, ht, hdelay,
    excPos_zero_zero, hz1.1, zero_add]

/-- C15 (scenario S2, first step): in scenario S2, for every scalar `c`, after
`IterateTS(1)` from the initial state `volt[0][4][4][4] = 1`; in general, without
extensions, for a single voltage source without delay and a run started at step 0 with
zero fields, the source cell of `volt` holds `amp * Signal_volt[0]` after the first
iteration. -/
theorem IterateTS_first_step :
    (∀ c : R, (IterateTS (opS2 c : Operator R T) [] 1 runInit).2.eng.volt 0 4 4 4 = 1) ∧
    (∀ (op : Operator R T) (c : Run R T), op.Exc.Volt_Count = 1 → op.Exc.Volt_delay 0 = 0 →
      c.eng.numTS = 0 → (∀ d i j k, c.eng.volt d i j k = 0) →
      (∀ d i j k, c.eng.curr d i j k = 0) →
      (IterateTS op [] 1 c).2.eng.volt (op.Exc.Volt_dir 0) (op.Exc.Volt_index 0 0)
        (op.Exc.Volt_index 1 0) (op.Exc.Volt_index 2 0) =
          op.Exc.Volt_amp 0 * op.Exc.Signal_volt 0) := by
  have hgen : ∀ (op : Operator R T) (c : Run R T), op.Exc.Volt_Count = 1 →
      op.Exc.Volt_delay 0 = 0 → c.eng.numTS = 0 → (∀ d i j k, c.eng.volt d i j k = 0) →
      (∀ d i j k, c.eng.curr d i j k = 0) →
      (IterateTS op [] 1 c).2.eng.volt (op.Exc.Volt_dir 0) (op.Exc.Volt_index 0 0)
        (op.Exc.Volt_index 1 0) (op.Exc.Volt_index 2 0) =
          op.Exc.Volt_amp 0 * op.Exc.Signal_volt 0 := by
    intro op c hcount hdelay ht hv hc
    obtain ⟨_, h2, _⟩ := firstStep_voltage_half op c.eng hcount hdelay ht ⟨hv, hc⟩
    rw [IterateTS_one_eng]
    simp only [incNumTS]
    rw [(ApplyCurrentExcite_frame op _).2, (UpdateCurrents_frame op _).2.1, h2]
    simp
  refine ⟨fun c => ?_, hgen⟩
  have h := hgen (opS2 c : Operator R T) runInit rfl rfl rfl (fun _ _ _ _ => rfl)
    (fun _ _ _ _ => rfl)
  have hval : (opS2 c : Operator R T).Exc.Volt_amp 0 *
      (opS2 c : Operator R T).Exc.Signal_volt 0 = 1 := by
    show (1 : R) * (if (0 : Nat) = 0 then 1 else 0) = 1
    simp
  have hd : (opS2 c : Operator R T).Exc.Volt_dir 0 = 0 := rfl
  have h0 : (opS2 c : Operator R T).Exc.Volt_index 0 0 = 4 := rfl
  have h1 : (opS2 c : Operator R T).Exc.Volt_index 1 0 = 4 := rfl
  have h2 : (opS2 c : Operator R T).Exc.Volt_index 2 0 = 4 := rfl
  rw [hd, h0, h1, h2, hval] at h
  exact h

/-- Witness for C15: scenario S2 over the integers with `c = 3`. -/
theorem IterateTS_first_step_witness :
    ((opS2 3 : Operator Int Rat).Exc.Volt_Count = 1 ∧
      (opS2 3 : Operator Int Rat).Exc.Volt_delay 0 = 0 ∧
      (runInit : Run Int Rat).eng.numTS = 0) ∧
    (IterateTS (opS2 3 : Operator Int Rat) [] 1 runInit).2.eng.volt 0 4 4 4 = 1 :=
  ⟨⟨rfl, rfl, rfl⟩, (@IterateTS_first_step Int Rat _ _).1 3⟩

/-! ## The two halves of an iteration without extensions -/

theorem IterateTS_succ_eng (op : Operator R T) (N : Nat) (c : Run R T) :
    (IterateTS op [] (N + 1) c).2.eng =
      incNumTS (ApplyCurrentExcite op (UpdateCurrents op 0 (usub (op.numLines 0) 1)
        (ApplyVoltageExcite op
          (UpdateVoltages op 0 (op.numLines 0) (IterateTS op [] N c).2.eng)))) := by
  simp only [IterateTS, forLoop_succ]
  exact IterateTS_body_nil_eng op _

/-- The voltage half of an iteration with a single voltage source: the kernel sets
every entry inside the grid to `voltNext`, then the source adds its sample. -/
theorem voltage_half_single (op : Operator R T) (e : Engine R T)
    (hcount : op.Exc.Volt_Count = 1) :
    (ApplyVoltageExcite op (UpdateVoltages op 0 (op.numLines 0) e)).numTS = e.numTS ∧
    (ApplyVoltageExcite op (UpdateVoltages op 0 (op.numLines 0) e)).curr = e.curr ∧
    (∀ d i j k, (ApplyVoltageExcite op (UpdateVoltages op 0 (op.numLines 0) e)).volt d i j k =
      if d = op.Exc.Volt_dir 0 ∧ i = op.Exc.Volt_index 0 0 ∧ j = op.Exc.Volt_index 1 0 ∧
          k = op.Exc.Volt_index 2 0 then
        (if i < op.numLines 0 ∧ j < op.numLines 1 ∧ k < op.numLines 2 then
            voltNext op e d i j k else e.volt d i j k) +
          op.Exc.Volt_amp 0 *
            op.Exc.Signal_volt (excPos e.numTS (op.Exc.Volt_delay 0) op.Exc.Length).toNat
      else
        (if i < op.numLines 0 ∧ j < op.numLines 1 ∧ k < op.numLines 2 then
          voltNext op e d i j k else e.volt d i j k)) := by
  obtain ⟨⟨ht, hc, _, _⟩, hv⟩ := UpdateVoltages_sweep op 0 (op.numLines 0)
    (by rw [Nat.zero_add]; exact Nat.le_of_lt (op.numLines_lt 0)) e
  obtain ⟨hvolt, hcurr⟩ :=
    ApplyVoltageExcite_volt_single op (UpdateVoltages op 0 (op.numLines 0) e) hcount
  have hU : ∀ d i j k, (UpdateVoltages op 0 (op.numLines 0) e).volt d i j k =
      if i < op.numLines 0 ∧ j < op.numLines 1 ∧ k < op.numLines 2 then
        voltNext op e d i j k else e.volt d i j k := by
    intro d i j k
    by_cases hP : i < op.numLines 0 ∧ j < op.numLines 1 ∧ k < op.numLines 2
    · rw [if_pos hP]
      exact (hv d i j k).1 ⟨⟨Nat.zero_le _, by omega⟩, hP.2.1, hP.2.2⟩
    · rw [if_neg hP]
      exact (hv d i j k).2 (fun h => hP ⟨by omega, h.2.1, h.2.2⟩)
  refine ⟨by rw [(ApplyVoltageExcite_frame op _).1, ht], by rw [hcurr, hc],
    fun d i j k => ?_⟩
  rw [hvolt]
  simp only [ApplyVoltageExcite_source, SetVolt, GetVolt, setAt, ht]
  split
  · next h =>
    obtain ⟨rfl, rfl, rfl, rfl⟩ := h
    rw [hU]
  · exact hU d i j k

/-- The current half of an iteration without current sources: the kernel sets every
entry below the high faces to `currNext`. -/
theorem current_half_none (op : Operator R T) (e : Engine R T)
    (hcount : op.Exc.Curr_Count = 0) :
    (ApplyCurrentExcite op (UpdateCurrents op 0 (usub (op.numLines 0) 1) e)).numTS = e.numTS ∧
    (ApplyCurrentExcite op (UpdateCurrents op 0 (usub (op.numLines 0) 1) e)).volt = e.volt ∧
    (∀ d i j k,
      (ApplyCurrentExcite op (UpdateCurrents op 0 (usub (op.numLines 0) 1) e)).curr d i j k =
        if i < usub (op.numLines 0) 1 ∧ j < usub (op.numLines 1) 1 ∧
            k < usub (op.numLines 2) 1 then
          currNext op e d i j k else e.curr d i j k) := by
  obtain ⟨⟨ht, hc, _, _⟩, hv⟩ := UpdateCurrents_sweep op 0 (usub (op.numLines 0) 1)
    (by rw [Nat.zero_add]; exact Nat.le_of_lt (usub_lt _ _)) e
  obtain ⟨hvolt, hcurr⟩ :=
    ApplyCurrentExcite_none op (UpdateCurrents op 0 (usub (op.numLines 0) 1) e) hcount
  refine ⟨by rw [(ApplyCurrentExcite_frame op _).1, ht], by rw [hvolt, hc],
    fun d i j k => ?_⟩
  rw [hcurr]
  by_cases hP : i < usub (op.numLines 0) 1 ∧ j < usub (op.numLines 1) 1 ∧
      k < usub (op.numLines 2) 1
  · rw [if_pos hP]
    exact (hv d i j k).1 ⟨⟨Nat.zero_le _, by omega⟩, hP.2.1, hP.2.2⟩
  · rw [if_neg hP]
    exact (hv d i j k).2 (fun h => hP ⟨by omega, h.2.1, h.2.2⟩)

/-! ## Scenario S2 -/

theorem opS2_usub (c : R) (n : Nat) : usub ((opS2 c : Operator R T).numLines n) 1 = 7 := by
  show usub 8 1 = 7
  simp [usub, UINT_RANGE]

theorem incNumTS_numTS (e : Engine R T) : (incNumTS e).numTS = uinc e.numTS := rfl

theorem incNumTS_volt (e : Engine R T) : (incNumTS e).volt = e.volt := rfl

theorem incNumTS_curr (e : Engine R T) : (incNumTS e).curr = e.curr := rfl

theorem uinc_zero : uinc 0 = 1 := by
  simp [uinc, UINT_RANGE]

/-- The state of scenario S2 after the first iteration: step 1, `volt` is 1 in the
source entry and 0 elsewhere, `curr` is the curl of that unit entry times `c`. -/
theorem S2_after_one (c : R) :
    (IterateTS (opS2 c : Operator R T) [] 1 runInit).2.eng.numTS = 1 ∧
    (∀ d i j k, (IterateTS (opS2 c : Operator R T) [] 1 runInit).2.eng.volt d i j k =
      if d = 0 ∧ i = 4 ∧ j = 4 ∧ k = 4 then 1 else 0) ∧
    (∀ d i j k, (IterateTS (opS2 c : Operator R T) [] 1 runInit).2.eng.curr d i j k =
      if i < 7 ∧ j < 7 ∧ k < 7 then
        (if d = 1 then
          c * ((if i = 4 ∧ j = 4 ∧ k = 4 then 1 else 0) -
            (if i = 4 ∧ j = 4 ∧ k + 1 = 4 then 1 else 0))
        else if d = 2 then
          c * ((if i = 4 ∧ j + 1 = 4 ∧ k = 4 then 1 else 0) -
            (if i = 4 ∧ j = 4 ∧ k = 4 then 1 else 0))
        else 0)
      else 0) := by
  obtain ⟨hAt, hAv, hAc⟩ := firstStep_voltage_half (opS2 c : Operator R T)
    (runInit : Run R T).eng rfl rfl rfl ⟨fun _ _ _ _ => rfl, fun _ _ _ _ => rfl⟩
  obtain ⟨hBt, hBv, hBc⟩ := current_half_none (opS2 c : Operator R T)
    (ApplyVoltageExcite (opS2 c : Operator R T) (UpdateVoltages (opS2 c : Operator R T) 0
      ((opS2 c : Operator R T).numLines 0) (runInit : Run R T).eng)) rfl
  have hd : (opS2 c : Operator R T).Exc.Volt_dir 0 = 0 := rfl
  have h0 : ∀ a, (opS2 c : Operator R T).Exc.Volt_index a 0 = 4 := fun _ => rfl
  have hval : (opS2 c : Operator R T).Exc.Volt_amp 0 *
      (opS2 c : Operator R T).Exc.Signal_volt 0 = 1 := by
    show (1 : R) * (if (0 : Nat) = 0 then 1 else 0) = 1
    simp
  simp only [hd, h0, hval] at hAv
  rw [IterateTS_one_eng, incNumTS_numTS, incNumTS_volt, incNumTS_curr]
  generalize ApplyCurrentExcite (opS2 c : Operator R T)
    (UpdateCurrents (opS2 c : Operator R T) 0 (usub ((opS2 c : Operator R T).numLines 0) 1)
      (ApplyVoltageExcite (opS2 c : Operator R T) (UpdateVoltages (opS2 c : Operator R T) 0
        ((opS2 c : Operator R T).numLines 0) (runInit : Run R T).eng))) = eB
    at hBt hBv hBc ⊢
  generalize ApplyVoltageExcite (opS2 c : Operator R T)
    (UpdateVoltages (opS2 c : Operator R T) 0
      ((opS2 c : Operator R T).numLines 0) (runInit : Run R T).eng) = eA
    at hAt hAv hAc hBt hBv hBc
  simp only [opS2_usub] at hBc
  refine ⟨by rw [hBt, hAt]; exact uinc_zero, fun d i j k => by rw [hBv]; exact hAv d i j k,
    fun d i j k => ?_⟩
  rw [hBc]
  by_cases hP : i < 7 ∧ j < 7 ∧ k < 7
  · have hi : uinc i = i + 1 := uinc_of_lt (by simp only [UINT_RANGE]; omega)
    have hj : uinc j = j + 1 := uinc_of_lt (by simp only [UINT_RANGE]; omega)
    have hk : uinc k = k + 1 := uinc_of_lt (by simp only [UINT_RANGE]; omega)
    have hii : ∀ a b e f, (opS2 c : Operator R T).ii a b e f = 1 := fun _ _ _ _ => rfl
    have hiv : ∀ a b e f, (opS2 c : Operator R T).iv a b e f = c := fun _ _ _ _ => rfl
    rw [if_pos hP, if_pos hP]
    simp only [currNext, hAv, hAc, hi, hj, hk, hii, hiv]
    by_cases h1 : d = 1
    · subst h1
      simp
    · by_cases h2 : d = 2
      · subst h2
        simp
        ring
      · by_cases h3 : d = 0
        · subst h3
          simp
        · simp [h1, h2, h3]
  · rw [if_neg hP, if_neg hP]
    exact hAc d i j k

theorem excPos_one_zero_four : (excPos 1 0 4).toNat = 1 := by
  decide

/-- The state of scenario S2 after the second iteration, at the source entry and at
its neighbour in `j`. -/
theorem S2_after_two (c : R) :
    (IterateTS (opS2 c : Operator R T) [] 2 runInit).2.eng.volt 0 4 4 4 = 1 - 4 * c ^ 2 ∧
    (IterateTS (opS2 c : Operator R T) [] 2 runInit).2.eng.volt 0 4 5 4 = c ^ 2 := by
  obtain ⟨h1t, h1v, h1c⟩ := @S2_after_one R T _ _ c
  obtain ⟨hCt, hCc, hCv⟩ := voltage_half_single (opS2 c : Operator R T)
    (IterateTS (opS2 c : Operator R T) [] 1 runInit).2.eng rfl
  obtain ⟨hDt, hDv, hDc⟩ := current_half_none (opS2 c : Operator R T)
    (ApplyVoltageExcite (opS2 c : Operator R T) (UpdateVoltages (opS2 c : Operator R T) 0
      ((opS2 c : Operator R T).numLines 0)
      (IterateTS (opS2 c : Operator R T) [] 1 runInit).2.eng)) rfl
  have h2 : (IterateTS (opS2 c : Operator R T) [] 2 runInit).2.eng = _ :=
    IterateTS_succ_eng (opS2 c : Operator R T) 1 runInit
  rw [h2, incNumTS_volt, hDv, hCv, hCv]
  generalize (IterateTS (opS2 c : Operator R T) [] 1 runInit).2.eng = e1
    at h1t h1v h1c ⊢
  clear hCt hCc hCv hDt hDv hDc h2
  have hd : (opS2 c : Operator R T).Exc.Volt_dir 0 = 0 := rfl
  have h0 : ∀ a, (opS2 c : Operator R T).Exc.Volt_index a 0 = 4 := fun _ => rfl
  have hnl : ∀ n, (opS2 c : Operator R T).numLines n = 8 := fun _ => rfl
  have hamp : (opS2 c : Operator R T).Exc.Volt_amp 0 = 1 := rfl
  have hsig : ∀ i, (opS2 c : Operator R T).Exc.Signal_volt i = if i = 0 then 1 else 0 :=
    fun _ => rfl
  have hdelay : (opS2 c : Operator R T).Exc.Volt_delay 0 = 0 := rfl
  have hlen : (opS2 c : Operator R T).Exc.Length = 4 := rfl
  have hvv : ∀ a b e f, (opS2 c : Operator R T).vv a b e f = 1 := fun _ _ _ _ => rfl
  have hvi : ∀ a b e f, (opS2 c : Operator R T).vi a b e f = c := fun _ _ _ _ => rfl
  have hs4 : usub 4 (shiftOf 4) = 3 := usub_shiftOf (by simp [UINT_RANGE])
  have hs5 : usub 5 (shiftOf 5) = 4 := usub_shiftOf (by simp [UINT_RANGE])
  simp only [hd, h0, hnl, hamp, hsig, hdelay, hlen, h1t, excPos_one_zero_four, voltNext,
    hvv, hvi, hs4, hs5, h1v, h1c]
  constructor
  · simp
    ring
  · simp
    ring

/-- C16 as stated fails in scenario S2 with `c = 1` over the integers: after two
iterations `volt[0][4][4][4]` is `-3`, not 1, and the entry `volt[0][4][5][4]` next to
it is 1, not 0. -/
theorem S2_second_step_counterexample :
    (IterateTS (opS2 1 : Operator Int Rat) [] 2 runInit).2.eng.volt 0 4 4 4 = -3 ∧
    (IterateTS (opS2 1 : Operator Int Rat) [] 2 runInit).2.eng.volt 0 4 5 4 = 1 :=
  ⟨(@S2_after_two Int Rat _ _ 1).1.trans (by norm_num),
    (@S2_after_two Int Rat _ _ 1).2.trans (by norm_num)⟩

/-- C16 (scenario S2, second step), amended: in scenario S2, for every scalar `c`, the
state in which `volt[0][4][4][4] = 1`, every other entry of `volt` is 0 and the four
neighbours in `curr` along the two curl directions hold `c`, `-c`, `-c`, `c` is the
state after one iteration; after two iterations in total `volt[0][4][4][4]` is
`1 - 4 c^2` and `volt[0][4][5][4]` is `c^2`. -/
theorem S2_second_step (c : R) :
    (∀ d i j k, (IterateTS (opS2 c : Operator R T) [] 1 runInit).2.eng.volt d i j k =
      if d = 0 ∧ i = 4 ∧ j = 4 ∧ k = 4 then 1 else 0) ∧
    ((IterateTS (opS2 c : Operator R T) [] 1 runInit).2.eng.curr 1 4 4 4 = c ∧
      (IterateTS (opS2 c : Operator R T) [] 1 runInit).2.eng.curr 1 4 4 3 = -c ∧
      (IterateTS (opS2 c : Operator R T) [] 1 runInit).2.eng.curr 2 4 4 4 = -c ∧
      (IterateTS (opS2 c : Operator R T) [] 1 runInit).2.eng.curr 2 4 3 4 = c) ∧
    (IterateTS (opS2 c : Operator R T) [] 2 runInit).2.eng.volt 0 4 4 4 = 1 - 4 * c ^ 2 ∧
    (IterateTS (opS2 c : Operator R T) [] 2 runInit).2.eng.volt 0 4 5 4 = c ^ 2 := by
  obtain ⟨_, h1v, h1c⟩ := @S2_after_one R T _ _ c
  obtain ⟨h2a, h2b⟩ := @S2_after_two R T _ _ c
  refine ⟨h1v, ⟨?_, ?_, ?_, ?_⟩, h2a, h2b⟩
  · rw [h1c]
    simp
  · rw [h1c]
    simp
  · rw [h1c]
    simp
  · rw [h1c]
    simp

/-! ## Creating the engine extensions -/

/-- One more entry of the operator's extension table: its extension, if the factory
returns one, is bound to the engine and goes to the back of the list. -/
theorem InitExtensions_succ (this n : Nat) (get : Nat → Operator_Extension R T)
    (l : List (Engine_Extension R T)) :
    InitExtensions this (n + 1) get l =
      InitExtensions this n get l ++
        ((get n).CreateEngineExtention.map (fun x => x.SetEngine this)).toList := by
  unfold InitExtensions
  rw [forLoop_succ]
  cases (get n).CreateEngineExtention <;> simp

/-- The list `InitExtensions` leaves: the old entries, then the returned extensions
in the order of the table, each bound to the engine. -/
theorem InitExtensions_eq (this n : Nat) (get : Nat → Operator_Extension R T)
    (l : List (Engine_Extension R T)) :
    InitExtensions this n get l =
      l ++ ((List.range n).filterMap (fun i => (get i).CreateEngineExtention)).map
        (fun x => x.SetEngine this) := by
  induction n with
  | zero => simp [InitExtensions, forLoop_zero]
  | succ n ih =>
    rw [InitExtensions_succ, ih, List.range_succ, List.filterMap_append, List.map_append,
      List.append_assoc]
    cases h : (get n).CreateEngineExtention <;> simp [h]

/-- The returned extensions are as many as the factories that return one. -/
theorem length_filterMap_CreateEngineExtention (n : Nat) (get : Nat → Operator_Extension R T) :
    ((List.range n).filterMap (fun i => (get i).CreateEngineExtention)).length =
      ((List.range n).filter (fun i => (get i).CreateEngineExtention.isSome)).length := by
  induction n with
  | zero => simp
  | succ n ih =>
    rw [List.range_succ, List.filterMap_append, List.filter_append, List.length_append,
      List.length_append, ih]
    cases h : (get n).CreateEngineExtention <;> simp [h]

/-- The calls of a hook over the sorted list are the calls over the unsorted list in
another order. -/
theorem hookCalls_SortExtensionByPriority (h : Hook) (l : List (Engine_Extension R T)) :
    (hookCalls h (SortExtensionByPriority l)).Perm (hookCalls h l) :=
  (SortExtensionByPriority_perm l).map _

/-- C17 (skipped extension factories): `InitExtensions` is a total function of the
operator's extension table (size `n`, entries `get i`, each factory returning an
extension or nothing); called by engine `this` on the empty list it leaves exactly the
returned extensions, in the order of the table, each bound to `this`; the list has
one entry per factory that returned an extension, so a factory that returned nothing
contributes no entry; and every later dispatch of a hook over the sorted list, forward
or backward, appends one call per returned extension and nothing else. -/
theorem InitExtensions_returned (this n : Nat) (get : Nat → Operator_Extension R T) :
    InitExtensions this n get [] =
        ((List.range n).filterMap (fun i => (get i).CreateEngineExtention)).map
          (fun x => x.SetEngine this) ∧
      (∀ x ∈ InitExtensions this n get [],
        x.m_Eng = some this ∧
          ∃ i y, i < n ∧ (get i).CreateEngineExtention = some y ∧ x = y.SetEngine this) ∧
      (InitExtensions this n get []).length =
        ((List.range n).filter (fun i => (get i).CreateEngineExtention.isSome)).length ∧
      ∀ (h : Hook) (c : Run R T),
        (∃ evs, (dispatchForward h (SortExtensionByPriority (InitExtensions this n get [])) c).trace
            = c.trace ++ evs ∧
          evs.Perm (((List.range n).filterMap (fun i => (get i).CreateEngineExtention)).map
            (fun y => Event.hook h y.id))) ∧
        (∃ evs, (dispatchBackward h (SortExtensionByPriority (InitExtensions this n get [])) c).trace
            = c.trace ++ evs ∧
          evs.Perm (((List.range n).filterMap (fun i => (get i).CreateEngineExtention)).map
            (fun y => Event.hook h y.id))) := by
  have hcalls : ∀ h : Hook, hookCalls h (InitExtensions this n get []) =
      ((List.range n).filterMap (fun i => (get i).CreateEngineExtention)).map
        (fun y => Event.hook h y.id) := by
    intro h
    rw [InitExtensions_eq, List.nil_append]
    simp [hookCalls, Engine_Extension.SetEngine, List.map_map, Function.comp_def]
  refine ⟨?_, ?_, ?_, ?_⟩
  · rw [InitExtensions_eq, List.nil_append]
  · intro x hx
    rw [InitExtensions_eq, List.nil_append] at hx
    obtain ⟨y, hy, rfl⟩ := List.mem_map.1 hx
    obtain ⟨i, hi, hiy⟩ := List.mem_filterMap.1 hy
    exact ⟨rfl, i, y, List.mem_range.1 hi, hiy, rfl⟩
  · rw [InitExtensions_eq, List.nil_append, List.length_map]
    exact length_filterMap_CreateEngineExtention n get
  · intro h c
    refine ⟨⟨_, dispatchForward_trace h _ c, ?_⟩, ⟨_, dispatchBackward_trace h _ c, ?_⟩⟩
    · rw [← hcalls h]
      exact hookCalls_SortExtensionByPriority h _
    · rw [← hcalls h]
      exact ((List.reverse_perm _).map _).trans (hookCalls_SortExtensionByPriority h _)

/-! ## Splitting a run of iterations -/

/-- A loop whose body does not use the loop variable: `N + M` rounds are `N` rounds
followed by `M` rounds. -/
theorem forLoop_add {S : Type} (f : S → S) (N M : Nat) (s : S) :
    forLoop (N + M) (fun _ x => f x) s = forLoop M (fun _ x => f x) (forLoop N (fun _ x => f x) s) := by
  induction M with
  | zero => rfl
  | succ M ih => rw [← Nat.add_assoc, forLoop_succ, forLoop_succ, ih]

/-- C20 (iteration composes): for every operator, every list of extensions (their
hooks are functions of the engine state), every configuration (fields, step counter,
both logs, and the events observed so far) and every `N` and `M`, `IterateTS(N)`
followed by `IterateTS(M)` reaches the same configuration as `IterateTS(N + M)`, both
return `true`, and `IterateTS(0)` leaves the configuration as it is. -/
theorem IterateTS_compose (op : Operator R T) (exts : List (Engine_Extension R T))
    (N M : Nat) (c : Run R T) :
    IterateTS op exts M (IterateTS op exts N c).2 = IterateTS op exts (N + M) c ∧
      (IterateTS op exts N c).1 = true ∧
      (IterateTS op exts 0 c).2 = c := by
  refine ⟨?_, rfl, rfl⟩
  unfold IterateTS
  rw [forLoop_add (IterateTS_body op exts) N M c]

/-! ## Soft excitation: the masked sample index -/

/-- The conversion to `int` never yields more than the converted value. -/
theorem toInt_le (x : Nat) : toInt x ≤ (x : Int) := by
  simp only [toInt, wrapInt]
  omega

/-- The mask: when `exc_pos` is not positive or exceeds `Length`, the guard is false
and the multiplication leaves 0. -/
theorem excPos_masked {numTS delay Length : Nat}
    (h : excPosRaw numTS delay ≤ 0 ∨ (Length : Int) < excPosRaw numTS delay) :
    excPos numTS delay Length = 0 := by
  have hL := toInt_le Length
  have hg : ¬ (0 < excPosRaw numTS delay ∧ excPosRaw numTS delay ≤ toInt Length) := by
    intro hg
    omega
  have he : excPos numTS delay Length =
      wrapInt (excPosRaw numTS delay *
        (if 0 < excPosRaw numTS delay ∧ excPosRaw numTS delay ≤ toInt Length then 1 else 0)) :=
    rfl
  rw [he, if_neg hg, mul_zero]
  rfl

/-- When the step counter is an `unsigned int` value and the delay fits into an `int`,
the variable `exc_pos` is `<= 0` or `> Length` whenever the integer `numTS - delay`
is. -/
theorem excPosRaw_of_sub {numTS delay Length : Nat} (hT : numTS < UINT_RANGE)
    (hD : delay < 2147483648)
    (h : (numTS : Int) - (delay : Int) ≤ 0 ∨ (Length : Int) < (numTS : Int) - (delay : Int)) :
    excPosRaw numTS delay ≤ 0 ∨ (Length : Int) < excPosRaw numTS delay := by
  simp only [UINT_RANGE] at hT
  simp only [excPosRaw, toInt, wrapInt]
  omega

/-- C19 as stated fails for a delay that does not fit into an `int`: with the delay
`2^32 - 1`, which `(int)` converts to `-1`, at step 0 the integer `numTS - delay` is
negative, yet the variable `exc_pos` is 1, the guard holds for `Length = 3`, sample 1
(here 1) is read, and the source cell changes from 169 to 170 although
`amp * Signal_volt[0] = 0`. -/
theorem ApplyVoltageExcite_masked_counterexample :
    ((engAt 0).numTS : Int) - (opLate.Exc.Volt_delay 0 : Int) ≤ 0 ∧
      (excPos (engAt 0).numTS (opLate.Exc.Volt_delay 0) opLate.Exc.Length).toNat = 1 ∧
      opLate.Exc.Volt_amp 0 * opLate.Exc.Signal_volt 0 = 0 ∧
      (engAt 0).volt 1 2 2 2 = 169 ∧
      (ApplyVoltageExcite_source opLate 0 (engAt 0)).volt 1 2 2 2 = 170 ∧
      (ApplyVoltageExcite opLate (engAt 0)).volt 1 2 2 2 = 170 := by
  decide

/-- C19 (masked sample index), amended: when the step counter is an `unsigned int`
value, for every source `n` whose delay fits into an `int` (delay at most `2^31 - 1`)
and for which the integer `numTS - delay` is `<= 0` or `> Length`, the masked sample
index is 0, the step of `ApplyVoltageExcite` for that source writes
`old + amp * Signal_volt[0]` to `volt[dir][ix][iy][iz]` and changes nothing else, and
the cell is unchanged if and only if `amp * Signal_volt[0] = 0`. The same holds for
`ApplyCurrentExcite` with `Signal_curr[0]`. -/
theorem ApplyExcite_masked (op : Operator R T) (e : Engine R T) (hT : e.numTS < UINT_RANGE) :
    (∀ n, op.Exc.Volt_delay n < 2147483648 →
      ((e.numTS : Int) - (op.Exc.Volt_delay n : Int) ≤ 0 ∨
        (op.Exc.Length : Int) < (e.numTS : Int) - (op.Exc.Volt_delay n : Int)) →
      (excPos e.numTS (op.Exc.Volt_delay n) op.Exc.Length).toNat = 0 ∧
      ApplyVoltageExcite_source op n e =
        { e with
          volt := setAt e.volt (op.Exc.Volt_dir n) (op.Exc.Volt_index 0 n)
            (op.Exc.Volt_index 1 n) (op.Exc.Volt_index 2 n)
            (e.volt (op.Exc.Volt_dir n) (op.Exc.Volt_index 0 n) (op.Exc.Volt_index 1 n)
                (op.Exc.Volt_index 2 n)
              + op.Exc.Volt_amp n * op.Exc.Signal_volt 0) } ∧
      (ApplyVoltageExcite_source op n e).volt (op.Exc.Volt_dir n) (op.Exc.Volt_index 0 n)
            (op.Exc.Volt_index 1 n) (op.Exc.Volt_index 2 n) =
          e.volt (op.Exc.Volt_dir n) (op.Exc.Volt_index 0 n) (op.Exc.Volt_index 1 n)
            (op.Exc.Volt_index 2 n) + op.Exc.Volt_amp n * op.Exc.Signal_volt 0 ∧
      ((ApplyVoltageExcite_source op n e).volt (op.Exc.Volt_dir n) (op.Exc.Volt_index 0 n)
            (op.Exc.Volt_index 1 n) (op.Exc.Volt_index 2 n) =
          e.volt (op.Exc.Volt_dir n) (op.Exc.Volt_index 0 n) (op.Exc.Volt_index 1 n)
            (op.Exc.Volt_index 2 n) ↔
        op.Exc.Volt_amp n * op.Exc.Signal_volt 0 = 0)) ∧
    (∀ n, op.Exc.Curr_delay n < 2147483648 →
      ((e.numTS : Int) - (op.Exc.Curr_delay n : Int) ≤ 0 ∨
        (op.Exc.Length : Int) < (e.numTS : Int) - (op.Exc.Curr_delay n : Int)) →
      (excPos e.numTS (op.Exc.Curr_delay n) op.Exc.Length).toNat = 0 ∧
      ApplyCurrentExcite_source op n e =
        { e with
          curr := setAt e.curr (op.Exc.Curr_dir n) (op.Exc.Curr_index 0 n)
            (op.Exc.Curr_index 1 n) (op.Exc.Curr_index 2 n)
            (e.curr (op.Exc.Curr_dir n) (op.Exc.Curr_index 0 n) (op.Exc.Curr_index 1 n)
                (op.Exc.Curr_index 2 n)
              + op.Exc.Curr_amp n * op.Exc.Signal_curr 0) } ∧
      (ApplyCurrentExcite_source op n e).curr (op.Exc.Curr_dir n) (op.Exc.Curr_index 0 n)
            (op.Exc.Curr_index 1 n) (op.Exc.Curr_index 2 n) =
          e.curr (op.Exc.Curr_dir n) (op.Exc.Curr_index 0 n) (op.Exc.Curr_index 1 n)
            (op.Exc.Curr_index 2 n) + op.Exc.Curr_amp n * op.Exc.Signal_curr 0 ∧
      ((ApplyCurrentExcite_source op n e).curr (op.Exc.Curr_dir n) (op.Exc.Curr_index 0 n)
            (op.Exc.Curr_index 1 n) (op.Exc.Curr_index 2 n) =
          e.curr (op.Exc.Curr_dir n) (op.Exc.Curr_index 0 n) (op.Exc.Curr_index 1 n)
            (op.Exc.Curr_index 2 n) ↔
        op.Exc.Curr_amp n * op.Exc.Signal_curr 0 = 0)) := by
  refine ⟨?_, ?_⟩
  · intro n hD h
    have hpos : (excPos e.numTS (op.Exc.Volt_delay n) op.Exc.Length).toNat = 0 := by
      rw [excPos_masked (excPosRaw_of_sub hT hD h)]
      rfl
    refine ⟨hpos, by simp only [ApplyVoltageExcite_source, SetVolt, GetVolt, hpos], ?_, ?_⟩
    · simp only [ApplyVoltageExcite_source, SetVolt, GetVolt, hpos, setAt_self]
    · simp only [ApplyVoltageExcite_source, SetVolt, GetVolt, hpos, setAt_self]
      exact add_right_eq_self
  · intro n hD h
    have hpos : (excPos e.numTS (op.Exc.Curr_delay n) op.Exc.Length).toNat = 0 := by
      rw [excPos_masked (excPosRaw_of_sub hT hD h)]
      rfl
    refine ⟨hpos, by simp only [ApplyCurrentExcite_source, SetCurr, GetCurr, hpos], ?_, ?_⟩
    · simp only [ApplyCurrentExcite_source, SetCurr, GetCurr, hpos, setAt_self]
    · simp only [ApplyCurrentExcite_source, SetCurr, GetCurr, hpos, setAt_self]
      exact add_right_eq_self

/-- Witness for the amended C19 in scenario S5 (delay 5, `Length = 3`, amplitude 3,
sample 0 equal to 10) at step 9, where `numTS - delay = 4 > Length`: the step for the
voltage source leaves `169 + 3 * 10` in the source cell. -/
theorem ApplyExcite_masked_witness :
    ((engAt 9).numTS < UINT_RANGE ∧ opS5.Exc.Volt_delay 0 < 2147483648 ∧
        (((engAt 9).numTS : Int) - (opS5.Exc.Volt_delay 0 : Int) ≤ 0 ∨
          (opS5.Exc.Length : Int) < ((engAt 9).numTS : Int) - (opS5.Exc.Volt_delay 0 : Int))) ∧
      (ApplyVoltageExcite_source opS5 0 (engAt 9)).volt 1 2 2 2 = 199 :=
  ⟨by decide,
    ((ApplyExcite_masked opS5 (engAt 9) (by decide)).1 0 (by decide) (by decide)).2.2.1.trans
      (by decide)⟩

/-! ## The voltage kernel slab by slab -/

/-- Two engine states with the same five components are equal. -/
theorem Engine.eq_of_fields {e f : Engine R T} (h1 : e.numTS = f.numTS) (h2 : e.volt = f.volt)
    (h3 : e.curr = f.curr) (h4 : e.file_et = f.file_et) (h5 : e.file_ht = f.file_ht) :
    e = f := by
  cases e
  cases f
  simp only at h1 h2 h3 h4 h5
  subst h1 h2 h3 h4 h5
  rfl

/-- Two sweeps over disjoint sets of grid points, one after the other, are a sweep
over the union. -/
theorem Sweep.seq {get next : Engine R T → N_3DArray R}
    {frame : Engine R T → Engine R T → Prop}
    (htrans : ∀ a b c, frame a b → frame b c → frame a c)
    (hnext : ∀ e e1 n i j k, frame e e1 → get e1 n i j k = get e n i j k →
      next e1 n i j k = next e n i j k)
    {P Q : Nat → Nat → Nat → Prop} (hdisj : ∀ i j k, P i j k → ¬ Q i j k)
    {e e1 e2 : Engine R T} (h1 : Sweep get next frame P e e1)
    (h2 : Sweep get next frame Q e1 e2) :
    Sweep get next frame (fun i j k => P i j k ∨ Q i j k) e e2 := by
  obtain ⟨hf1, hv1⟩ := h1
  obtain ⟨hf2, hv2⟩ := h2
  refine ⟨htrans _ _ _ hf1 hf2, fun n i j k => ⟨?_, ?_⟩⟩
  · intro hPQ
    by_cases hQ : Q i j k
    · have hP : ¬ P i j k := fun hP => hdisj i j k hP hQ
      rw [(hv2 n i j k).1 hQ]
      exact hnext _ _ _ _ _ _ hf1 ((hv1 n i j k).2 hP)
    · have hP : P i j k := hPQ.resolve_right hQ
      rw [(hv2 n i j k).2 hQ]
      exact (hv1 n i j k).1 hP
  · intro hPQ
    rw [(hv2 n i j k).2 (fun hQ => hPQ (Or.inr hQ))]
    exact (hv1 n i j k).2 (fun hP => hPQ (Or.inl hP))

/-- A sweep of the voltage kernel determines the state it leaves. -/
theorem Sweep_volt_unique (op : Operator R T) {P : Nat → Nat → Nat → Prop}
    {e e1 e2 : Engine R T} (h1 : Sweep Engine.volt (voltNext op) voltFrame P e e1)
    (h2 : Sweep Engine.volt (voltNext op) voltFrame P e e2) : e1 = e2 := by
  obtain ⟨⟨ha1, ha2, ha3, ha4⟩, hv1⟩ := h1
  obtain ⟨⟨hb1, hb2, hb3, hb4⟩, hv2⟩ := h2
  refine Engine.eq_of_fields (ha1.trans hb1.symm) ?_ (ha2.trans hb2.symm) (ha3.trans hb3.symm)
    (ha4.trans hb4.symm)
  funext n i j k
  by_cases hP : P i j k
  · exact ((hv1 n i j k).1 hP).trans ((hv2 n i j k).1 hP).symm
  · exact ((hv1 n i j k).2 hP).trans ((hv2 n i j k).2 hP).symm

/-- Two sweeps of the voltage kernel, over any two sets of grid points, commute. -/
theorem Sweep_volt_comm (op : Operator R T) {P Q : Nat → Nat → Nat → Prop}
    {e e1 e2 f1 f2 : Engine R T}
    (h1 : Sweep Engine.volt (voltNext op) voltFrame P e e1)
    (h2 : Sweep Engine.volt (voltNext op) voltFrame Q e1 e2)
    (g1 : Sweep Engine.volt (voltNext op) voltFrame Q e f1)
    (g2 : Sweep Engine.volt (voltNext op) voltFrame P f1 f2) : e2 = f2 := by
  obtain ⟨hf1, hv1⟩ := h1
  obtain ⟨hf2, hv2⟩ := h2
  obtain ⟨hg1, hw1⟩ := g1
  obtain ⟨hg2, hw2⟩ := g2
  have hfe : voltFrame e e2 := voltFrame_trans _ _ _ hf1 hf2
  have hff : voltFrame e f2 := voltFrame_trans _ _ _ hg1 hg2
  have hef : voltFrame f1 e1 :=
    ⟨hf1.1.trans hg1.1.symm, hf1.2.1.trans hg1.2.1.symm, hf1.2.2.1.trans hg1.2.2.1.symm,
      hf1.2.2.2.trans hg1.2.2.2.symm⟩
  refine Engine.eq_of_fields (hfe.1.trans hff.1.symm) ?_ (hfe.2.1.trans hff.2.1.symm)
    (hfe.2.2.1.trans hff.2.2.1.symm) (hfe.2.2.2.trans hff.2.2.2.symm)
  funext n i j k
  by_cases hP : P i j k
  · by_cases hQ : Q i j k
    · rw [(hv2 n i j k).1 hQ, (hw2 n i j k).1 hP]
      exact voltNext_frame op f1 e1 n i j k hef
        (((hv1 n i j k).1 hP).trans ((hw1 n i j k).1 hQ).symm)
    · rw [(hv2 n i j k).2 hQ, (hw2 n i j k).1 hP, (hv1 n i j k).1 hP]
      exact (voltNext_frame op e f1 n i j k hg1 ((hw1 n i j k).2 hQ)).symm
  · by_cases hQ : Q i j k
    · rw [(hv2 n i j k).1 hQ, (hw2 n i j k).2 hP, (hw1 n i j k).1 hQ]
      exact voltNext_frame op e e1 n i j k hf1 ((hv1 n i j k).2 hP)
    · rw [(hv2 n i j k).2 hQ, (hw2 n i j k).2 hP, (hv1 n i j k).2 hP, (hw1 n i j k).2 hQ]

/-- The calls for a list of pairwise disjoint slabs are a sweep over their union. -/
theorem UpdateVoltages_slabs_sweep (op : Operator R T) (l : List (Nat × Nat))
    (hin : ∀ p ∈ l, p.1 + p.2 ≤ UINT_RANGE)
    (hd : l.Pairwise (fun p q => ∀ i, ¬ (inSlab p i ∧ inSlab q i))) (e : Engine R T) :
    Sweep Engine.volt (voltNext op) voltFrame
      (fun i j k => (∃ p ∈ l, inSlab p i) ∧ j < op.numLines 1 ∧ k < op.numLines 2) e
      (UpdateVoltages_slabs op l e) := by
  induction l generalizing e with
  | nil =>
    refine ⟨voltFrame_refl e, fun n i j k => ⟨?_, fun _ => rfl⟩⟩
    rintro ⟨⟨p, hp, _⟩, _⟩
    exact absurd hp (List.not_mem_nil p)
  | cons p l ih =>
    have hp := UpdateVoltages_sweep op p.1 p.2 (hin p (List.mem_cons_self p l)) e
    have hl := ih (fun q hq => hin q (List.mem_cons_of_mem p hq)) (List.pairwise_cons.1 hd).2
      (UpdateVoltages op p.1 p.2 e)
    have hcons : UpdateVoltages_slabs op (p :: l) e =
        UpdateVoltages_slabs op l (UpdateVoltages op p.1 p.2 e) := rfl
    rw [hcons]
    refine (Sweep.seq voltFrame_trans (voltNext_frame op) ?_ hp hl).congr ?_
    · rintro i j k ⟨hpi, _, _⟩ ⟨⟨q, hq, hqi⟩, _, _⟩
      exact (List.pairwise_cons.1 hd).1 q hq i ⟨hpi, hqi⟩
    · intro i j k
      constructor
      · rintro (⟨hpi, hj, hk⟩ | ⟨⟨q, hq, hqi⟩, hj, hk⟩)
        · exact ⟨⟨p, List.mem_cons_self p l, hpi⟩, hj, hk⟩
        · exact ⟨⟨q, List.mem_cons_of_mem p hq, hqi⟩, hj, hk⟩
      · rintro ⟨⟨q, hq, hqi⟩, hj, hk⟩
        rcases List.mem_cons.1 hq with rfl | hq1
        · exact Or.inl ⟨hqi, hj, hk⟩
        · exact Or.inr ⟨⟨q, hq1, hqi⟩, hj, hk⟩

/-- C18 (voltage sweep order is not observable): for every operator and state and any
two slabs `(a, n)` and `(b, m)` inside `[0, Nx)`, overlapping or not,
`UpdateVoltages(a, n)` followed by `UpdateVoltages(b, m)` leaves the same state as
the two calls in the other order; and for every list of pairwise disjoint slabs
inside `[0, Nx)` that cover `[0, Nx)`, the calls for the slabs, in any order, leave
the state that `UpdateVoltages(0, Nx)` leaves. -/
theorem UpdateVoltages_order (op : Operator R T) (e : Engine R T) :
    (∀ a n b m, a + n ≤ op.numLines 0 → b + m ≤ op.numLines 0 →
      UpdateVoltages op b m (UpdateVoltages op a n e) =
        UpdateVoltages op a n (UpdateVoltages op b m e)) ∧
    (∀ l : List (Nat × Nat), (∀ p ∈ l, p.1 + p.2 ≤ op.numLines 0) →
      l.Pairwise (fun p q => ∀ i, ¬ (inSlab p i ∧ inSlab q i)) →
      (∀ i, i < op.numLines 0 → ∃ p ∈ l, inSlab p i) →
      ∀ l1 : List (Nat × Nat), l1.Perm l →
        UpdateVoltages_slabs op l1 e = UpdateVoltages op 0 (op.numLines 0) e) := by
  have hN : op.numLines 0 ≤ UINT_RANGE := Nat.le_of_lt (op.numLines_lt 0)
  constructor
  · intro a n b m ha hb
    exact Sweep_volt_comm op (UpdateVoltages_sweep op a n (le_trans ha hN) e)
      (UpdateVoltages_sweep op b m (le_trans hb hN) (UpdateVoltages op a n e))
      (UpdateVoltages_sweep op b m (le_trans hb hN) e)
      (UpdateVoltages_sweep op a n (le_trans ha hN) (UpdateVoltages op b m e))
  · intro l hin hd hcov l1 hperm
    have hin1 : ∀ p ∈ l1, p.1 + p.2 ≤ op.numLines 0 := fun p hp => hin p (hperm.mem_iff.1 hp)
    have hd1 : l1.Pairwise (fun p q => ∀ i, ¬ (inSlab p i ∧ inSlab q i)) :=
      (hperm.pairwise_iff (fun {p q} h i hi => h i ⟨hi.2, hi.1⟩)).2 hd
    have h0 : 0 + op.numLines 0 ≤ UINT_RANGE := by
      rw [Nat.zero_add]
      exact hN
    refine Sweep_volt_unique op
      ((UpdateVoltages_slabs_sweep op l1 (fun p hp => le_trans (hin1 p hp) hN) hd1 e).congr ?_)
      (UpdateVoltages_sweep op 0 (op.numLines 0) h0 e)
    intro i j k
    constructor
    · rintro ⟨⟨p, hp, hpi⟩, hj, hk⟩
      have := hin1 p hp
      exact ⟨⟨Nat.zero_le i, by unfold inSlab at hpi; omega⟩, hj, hk⟩
    · rintro ⟨⟨_, hi⟩, hj, hk⟩
      rw [Nat.zero_add] at hi
      obtain ⟨p, hp, hpi⟩ := hcov i hi
      exact ⟨⟨p, hperm.mem_iff.2 hp, hpi⟩, hj, hk⟩

/-- Witness for C18 on the 4 x 4 x 4 grid: the overlapping slabs `[1, 3)` and `[0, 3)`
commute, and the slabs `[2, 4)` and `[0, 2)`, processed in this order, give the state
of `UpdateVoltages(0, 4)`. -/
theorem UpdateVoltages_order_witness :
    (1 + 2 ≤ opGrid4.numLines 0 ∧ 0 + 3 ≤ opGrid4.numLines 0) ∧
      UpdateVoltages opGrid4 0 3 (UpdateVoltages opGrid4 1 2 engGrid4) =
        UpdateVoltages opGrid4 1 2 (UpdateVoltages opGrid4 0 3 engGrid4) ∧
      UpdateVoltages_slabs opGrid4 [(2, 2), (0, 2)] engGrid4 =
        UpdateVoltages opGrid4 0 4 engGrid4 :=
  ⟨by decide,
    (UpdateVoltages_order opGrid4 engGrid4).1 1 2 0 3 (by decide) (by decide),
    (UpdateVoltages_order opGrid4 engGrid4).2 [(0, 2), (2, 2)] (by decide)
      (by
        simp only [List.pairwise_cons, List.mem_singleton, List.not_mem_nil, forall_eq,
          inSlab, List.Pairwise.nil, and_true, false_imp_iff, implies_true]
        intro i
        omega)
      (by
        intro i hi
        have hi4 : i < 4 := hi
        by_cases h : i < 2
        · exact ⟨(0, 2), by simp, by unfold inSlab; omega⟩
        · exact ⟨(2, 2), by simp, by unfold inSlab; omega⟩)
      [(2, 2), (0, 2)] (List.Perm.swap _ _ _)⟩

end FDTD
